import Mathlib

/-!
Babeltrace: trace collection clock correlation and structure types.

A shallow embedding of `lib/trace-collection.c`, `types/struct.c` and
`types/variant.c`.

* glib containers are modelled by lists: a `GPtrArray` is the list of the
  pointers it holds, a `GHashTable` created with `g_direct_hash` /
  `g_direct_equal` is an association list with at most one entry per key.
* `uint64_t` values are naturals reduced modulo `2^64`, `int64_t` and `int`
  values are integers reduced to the two's complement range of 64 and 32
  bits; every C operation that can wrap is followed by that reduction. For
  the signed increment `offset_nr++`, whose overflow C leaves undefined, this
  is the result of the machine increment.
* A division that traps (zero divisor, quotient out of range) ends the
  process; the trap is recorded and the collection stays as the last
  completed merge left it. Calls after a trap go on from that collection:
  the collections of the embedding include every collection of the program.
* Messages written to `stderr` are collected in a list.  The `printf_debug`
  line of `clock_add` writes to `stdout` under the `babeltrace_debug` flag and
  changes no state; it is left out.
-/

namespace Babeltrace

/-! ## glib -/

/-- A `GQuark` is the non-zero number glib interns a string to; `0` is the
quark of no string. -/
abbrev GQuark := Nat

/-- A `GHashTable` over `g_direct_hash` / `g_direct_equal`: the key is a
machine word, the entries are listed in the order `g_hash_table_foreach`
visits them. -/
abbrev GHashTable (α : Type) := List (Nat × α)

/-- The value stored under `key`, `none` for glib's `NULL`. -/
def g_hash_table_lookup {α : Type} (h : GHashTable α) (key : Nat) : Option α :=
  List.lookup key h

/-- Insertion: a key already present keeps its slot and gets the new value,
a new key gets a new entry. -/
def g_hash_table_insert {α : Type} : GHashTable α → Nat → α → GHashTable α
  | [], key, value => [(key, value)]
  | (k, v) :: rest, key, value =>
    if k = key then (k, value) :: rest
    else (k, v) :: g_hash_table_insert rest key value

/-- Number of entries. -/
def g_hash_table_size {α : Type} (h : GHashTable α) : Nat := h.length

/-- Calls `f key value user_data` on every entry, threading `user_data`. -/
def g_hash_table_foreach {α σ : Type} (h : GHashTable α) (f : Nat → α → σ → σ)
    (user_data : σ) : σ :=
  h.foldl (fun s kv => f kv.1 kv.2 s) user_data

/-- Appends a pointer to a `GPtrArray`. -/
def g_ptr_array_add (array : List Nat) (data : Nat) : List Nat := array ++ [data]

/-- Removes the first occurrence of `data`; the flag tells whether there was
one. -/
def g_ptr_array_remove : List Nat → Nat → Bool × List Nat
  | [], _ => (false, [])
  | p :: rest, data =>
    if p = data then (true, rest)
    else ((g_ptr_array_remove rest data).1, p :: (g_ptr_array_remove rest data).2)

/-! ## Machine integers -/

/-- Conversion of an integer to `uint64_t`. -/
def to_uint64 (x : Int) : Nat := (x % 18446744073709551616).toNat

/-- Conversion of an integer to `int64_t` (two's complement). -/
def to_int64 (x : Int) : Int :=
  (x + 9223372036854775808) % 18446744073709551616 - 9223372036854775808

/-- Conversion of an integer to `int` (32 bits, two's complement). -/
def to_int32 (x : Int) : Int :=
  (x + 2147483648) % 4294967296 - 2147483648

/-- The value of `errno.h`'s `EPERM`. -/
def EPERM : Int := 1

/-! ## Trace collection: data -/

/-- Modelled from the spec: `struct ctf_clock` is declared in
`babeltrace/ctf-ir/metadata.h`, which is not among the sources. The fields
read by `trace-collection.c` are kept: the two quarks, the `absolute` flag
(a C `int` used as a truth value) and the two `uint64_t` offsets. -/
structure ctf_clock where
  name : GQuark
  uuid : GQuark
  absolute : Bool
  offset_s : Nat
  offset : Nat
deriving DecidableEq, Repr

/-- Modelled from the spec: `struct ctf_trace` is declared in
`babeltrace/ctf-ir/metadata.h`. `parent` is the address of the embedded
`struct trace_descriptor` (what the collection's array stores), `clocks` is
the trace's own clock table. The back pointer `trace->collection` set by
`trace_collection_add` belongs to the trace, not to the collection, and is
not represented. -/
structure ctf_trace where
  parent : Nat
  clocks : GHashTable ctf_clock
deriving DecidableEq, Repr

/-- Modelled from the spec: `struct trace_collection` is declared in
`babeltrace/trace-collection.h`. `array` holds trace descriptor addresses,
`clocks` is the clock registry, the averages are `uint64_t`, the delta sum is
`int64_t` and the counter `offset_nr` is an `int`: its values are kept in the
32-bit two's complement range, every increment is reduced by `to_int32`. -/
structure trace_collection where
  array : List Nat
  clocks : GHashTable ctf_clock
  single_clock_offset_avg : Nat
  offset_first : Nat
  delta_offset_first_sum : Int
  offset_nr : Int
deriving DecidableEq, Repr

/-- What a run lets the outside see: a line written to `stderr`, or the
arithmetic exception (`SIGFPE`) of a division that traps. -/
inductive diag where
  | error_single_clock
  | warning_offset_differs (name : GQuark) (delta : Nat)
  | error_no_correlation
  | sigfpe
deriving DecidableEq, Repr

/-- What a call on a collection leaves behind: the returned `int`, the
collection and what the outside has seen (`stderr` lines, a trap). -/
structure tc_result where
  ret : Int
  tc : trace_collection
  err : List diag
deriving DecidableEq, Repr

/-! ## Trace collection: operations -/

/-- Embedding of `check_clock_match`: `clocks` is `match->clocks`, `m` is
`match->clock_match`, `clock_a` is the visited clock of the trace. -/
def check_clock_match (clocks : GHashTable ctf_clock) (_key : Nat) (clock_a : ctf_clock)
    (m : Option ctf_clock) : Option ctf_clock :=
  if clock_a.uuid ≠ 0 then
    match g_hash_table_lookup clocks clock_a.uuid with
    | some clock_b => some clock_b
    | none => m
  else if clock_a.absolute then
    match g_hash_table_lookup clocks clock_a.name with
    | some clock_b => some clock_b
    | none => m
  else m

/-- Embedding of `clock_add`: the user data is the collection
(`clock_match->tc`, whose `clocks` field is the very table
`clock_match->clocks` points to) together with what the outside has seen so
far. `offset_nr++` is the increment of an `int`: C leaves its overflow
undefined, the embedding takes the two's complement result of the machine
increment, `to_int32`. `Int.tdiv` is C's truncating division of `int64_t`;
it traps when the divisor is 0 and when the quotient of `INT64_MIN` by -1
does not fit: the process then ends with `SIGFPE`, which is recorded, and
since no state of the program follows, the collection is returned as it was
before this clock. -/
def clock_add (_key : Nat) (t_clock : ctf_clock) (s : trace_collection × List diag) :
    trace_collection × List diag :=
  let tc := s.1
  let v : GQuark := if t_clock.absolute then t_clock.name else t_clock.uuid
  if v ≠ 0 then
    match g_hash_table_lookup tc.clocks v with
    | none =>
      let err := if g_hash_table_size tc.clocks > 0 then s.2 ++ [diag.error_single_clock] else s.2
      let tc1 : trace_collection :=
        if tc.offset_nr = 0 then
          let first := to_uint64 (to_uint64 (t_clock.offset_s * 1000000000) + t_clock.offset)
          { tc with
            offset_first := first
            delta_offset_first_sum := 0
            offset_nr := to_int32 (tc.offset_nr + 1)
            single_clock_offset_avg := first }
        else tc
      ({ tc1 with clocks := g_hash_table_insert tc1.clocks v t_clock }, err)
    | some tc_clock =>
      let d0 : Int := to_int64 tc_clock.offset_s
      let d1 : Int := to_int64 (d0 - t_clock.offset_s)
      let d2 : Int := to_int64 (d1 * 1000000000)
      let d3 : Int := to_int64 (d2 + tc_clock.offset)
      let diff_ns : Int := to_int64 (d3 - t_clock.offset)
      let err :=
        if diff_ns > 10000 then
          s.2 ++ [diag.warning_offset_differs tc_clock.name
            (to_uint64 (if diff_ns < 0 then -diff_ns else diff_ns))]
        else s.2
      let delta : Int :=
        to_int64 (tc.delta_offset_first_sum +
          to_uint64 (to_uint64 (to_uint64 (t_clock.offset_s * 1000000000) + t_clock.offset)
            - tc.offset_first))
      let nr : Int := to_int32 (tc.offset_nr + 1)
      if nr = 0 ∨ (nr = -1 ∧ delta = -9223372036854775808) then
        (tc, err ++ [diag.sigfpe])
      else
        ({ tc with
           delta_offset_first_sum := delta
           offset_nr := nr
           single_clock_offset_avg := to_uint64 (tc.offset_first + Int.tdiv delta nr) }, err)
  else s

/-- Embedding of `trace_collection_add`: the descriptor is appended first,
then, with more than one trace held, the clocks of the trace are looked up in
the registry and the call fails if none is found, and at last every clock of
the trace goes through `clock_add`. -/
def trace_collection_add (tc : trace_collection) (trace : ctf_trace) : tc_result :=
  let tc1 : trace_collection := { tc with array := g_ptr_array_add tc.array trace.parent }
  if tc1.array.length > 1 ∧
      (g_hash_table_foreach trace.clocks (check_clock_match tc1.clocks) none).isNone then
    { ret := -EPERM, tc := tc1, err := [diag.error_no_correlation] }
  else
    let r := g_hash_table_foreach trace.clocks clock_add (tc1, [])
    { ret := 0, tc := r.1, err := r.2 }

/-- Embedding of `trace_collection_remove`: 0 when `g_ptr_array_remove` removed
the descriptor, -1 when it found none. -/
def trace_collection_remove (tc : trace_collection) (td : Nat) : tc_result :=
  if (g_ptr_array_remove tc.array td).1 then
    { ret := 0, tc := { tc with array := (g_ptr_array_remove tc.array td).2 }, err := [] }
  else
    { ret := -1, tc := { tc with array := (g_ptr_array_remove tc.array td).2 }, err := [] }

/-- Embedding of `init_trace_collection`: empty array, empty registry, all
statistics zero. -/
def init_trace_collection : trace_collection :=
  { array := []
    clocks := []
    single_clock_offset_avg := 0
    offset_first := 0
    delta_offset_first_sum := 0
    offset_nr := 0 }

/-- One call made by a client of the collection. -/
inductive tc_call where
  | add (trace : ctf_trace)
  | remove (td : Nat)
deriving DecidableEq, Repr

/-- The collection after one call, whatever the call returned. -/
def tc_apply (tc : trace_collection) : tc_call → trace_collection
  | .add trace => (trace_collection_add tc trace).tc
  | .remove td => (trace_collection_remove tc td).tc

/-- The collection reached from `init_trace_collection` by a sequence of
calls. -/
def tc_run (calls : List tc_call) : trace_collection :=
  calls.foldl tc_apply init_trace_collection

/-! ## Trace collection: vocabulary of the properties -/

/-- The key `clock_add` files a clock under: the name of an absolute clock,
the UUID of any other clock. -/
def clock_key (c : ctf_clock) : GQuark := if c.absolute then c.name else c.uuid

/-- Two clocks match when both carry the same non-zero UUID, or both are
absolute and carry the same name. -/
def clocks_match (a b : ctf_clock) : Prop :=
  (a.uuid ≠ 0 ∧ a.uuid = b.uuid) ∨ (a.absolute = true ∧ b.absolute = true ∧ a.name = b.name)

instance (a b : ctf_clock) : Decidable (clocks_match a b) := by
  unfold clocks_match; infer_instance

/-- The quark of a UUID meets the quark of a name: the non-zero UUID of the
new clock `a` is the name of the absolute registered clock `b`, or `a` has no
UUID, is absolute, and its name is the UUID of the registered clock `b`,
which is not absolute. -/
def clocks_cross_match (a b : ctf_clock) : Prop :=
  (a.uuid ≠ 0 ∧ b.absolute = true ∧ a.uuid = b.name) ∨
  (a.uuid = 0 ∧ a.absolute = true ∧ b.absolute = false ∧ a.name = b.uuid)

instance (a b : ctf_clock) : Decidable (clocks_cross_match a b) := by
  unfold clocks_cross_match; infer_instance

/-- Every entry of the registry sits under the key of its clock, and no key
is zero. -/
def registry_keyed (clocks : GHashTable ctf_clock) : Prop :=
  ∀ e ∈ clocks, e.1 = clock_key e.2 ∧ e.1 ≠ 0

/-- The exact total offset of a clock in nanoseconds. -/
def total_offset (c : ctf_clock) : Nat := c.offset_s * 1000000000 + c.offset

/-- A trace at address `td` whose clock table holds the single clock `c`
under `key`. -/
def single_clock_trace (td key : Nat) (c : ctf_clock) : ctf_trace :=
  { parent := td, clocks := [(key, c)] }

/-- The value of the C expression
`offset_first + (delta_offset_first_sum / offset_nr)` of `clock_add`: the
quotient is the truncating `int64_t` division, the sum is taken in
`uint64_t`. -/
def offset_avg_expr (tc : trace_collection) : Nat :=
  to_uint64 (tc.offset_first + Int.tdiv tc.delta_offset_first_sum tc.offset_nr)

/-- What every collection built through the interface satisfies: the registry
is keyed by clock identity, `offset_first` is a `uint64_t`, the counter is an
`int` and is not zero once a clock is registered, and the stored average is
the value of its defining expression once the counter is positive. -/
def tc_inv (tc : trace_collection) : Prop :=
  registry_keyed tc.clocks ∧
  tc.offset_first < 18446744073709551616 ∧
  (-2147483648 ≤ tc.offset_nr ∧ tc.offset_nr < 2147483648) ∧
  (tc.clocks ≠ [] → tc.offset_nr ≠ 0) ∧
  (1 ≤ tc.offset_nr → tc.single_clock_offset_avg = offset_avg_expr tc)

/-- The delta sum `clock_add` stores when it merges the clock `c` into `tc`:
the old sum plus the `uint64_t` difference between the total offset of `c`
and `offset_first`, as an `int64_t`. -/
def merged_delta (tc : trace_collection) (c : ctf_clock) : Int :=
  to_int64 (tc.delta_offset_first_sum +
    to_uint64 (to_uint64 (to_uint64 (c.offset_s * 1000000000) + c.offset)
      - tc.offset_first))

/-- The division of `clock_add` traps when `c` is merged into `tc`: the
incremented counter is 0, or it is -1 while the delta sum is `INT64_MIN`. -/
def merge_traps (tc : trace_collection) (c : ctf_clock) : Prop :=
  to_int32 (tc.offset_nr + 1) = 0 ∨
    (to_int32 (tc.offset_nr + 1) = -1 ∧ merged_delta tc c = -9223372036854775808)

instance (tc : trace_collection) (c : ctf_clock) : Decidable (merge_traps tc c) := by
  unfold merge_traps; infer_instance

/-- The number of clocks carried by the traces of the add calls of `calls`:
`clock_add` runs at most once per such clock. -/
def clocks_processed (calls : List tc_call) : Nat :=
  (calls.map (fun call =>
    match call with
    | tc_call.add trace => trace.clocks.length
    | tc_call.remove _ => 0)).sum

/-- The counter of `tc` has been incremented at most `n` times from 0 without
overflow: as long as `n` is below `2^31`, it lies between 0 and `n`. -/
def nr_le (tc : trace_collection) (n : Nat) : Prop :=
  n < 2147483648 → 0 ≤ tc.offset_nr ∧ tc.offset_nr ≤ n

/-- The values returned by a sequence of calls made one after the other,
starting from `tc`. -/
def tc_rets (tc : trace_collection) : List tc_call → List Int
  | [] => []
  | .add trace :: rest =>
    (trace_collection_add tc trace).ret :: tc_rets (tc_apply tc (.add trace)) rest
  | .remove td :: rest =>
    (trace_collection_remove tc td).ret :: tc_rets (tc_apply tc (.remove td)) rest

/-- The calls adding, in order, one single-clock trace per element
`(td, key, clock)`. -/
def single_clock_calls (xs : List (Nat × Nat × ctf_clock)) : List tc_call :=
  xs.map (fun x => tc_call.add (single_clock_trace x.1 x.2.1 x.2.2))

/-- The exact sum of the differences between the total offsets of the clocks
of `xs` and the first total offset `o1`. -/
def delta_sum (o1 : Nat) (xs : List (Nat × Nat × ctf_clock)) : Int :=
  (xs.map (fun y => (total_offset y.2.2 : Int) - (o1 : Int))).sum

/-- The state of a collection that has merged clocks of the one identity `u`:
a representative is registered under `u`, a trace is held, and the statistics
are those of first offset `o1`, exact delta sum `D` and `k` samples, the
counter being `k` as an `int`. -/
def same_id_state (tc : trace_collection) (u : GQuark) (o1 : Nat) (D k : Int) : Prop :=
  g_hash_table_lookup tc.clocks u ≠ none ∧
  tc.array ≠ [] ∧
  tc.offset_first = o1 ∧
  tc.delta_offset_first_sum = to_int64 D ∧
  tc.offset_nr = to_int32 k ∧
  tc.single_clock_offset_avg = to_uint64 ((o1 : Int) + Int.tdiv (to_int64 D) (to_int32 k))

/-- The user data `clock_add` receives for the clock that follows the clocks
`pre` in the table of the trace `td` being added to `tc`: the array already
holds `td`, and the clocks `pre` have been processed. -/
def clock_add_state_before (tc : trace_collection) (td : Nat) (pre : GHashTable ctf_clock) :
    trace_collection × List diag :=
  g_hash_table_foreach pre clock_add ({ tc with array := g_ptr_array_add tc.array td }, [])

/-! ## Structure types -/

/-- Modelled from the spec: `struct type_class` is declared in
`babeltrace/types.h`, which is not among the sources. The name quark and the
alignment are the fields the structure type reads and writes here. -/
structure type_class where
  name : GQuark
  alignment : Nat
deriving DecidableEq, Repr

/-- Modelled from the spec: `struct field` of `babeltrace/types.h`, a name
quark and the type class of the field. -/
structure field where
  name : GQuark
  type_class : type_class
deriving DecidableEq, Repr

/-- Modelled from the spec: `struct type_class_struct` of
`babeltrace/types.h`: the embedded type class `p`, the table from name quark
to field index, and the array of fields. -/
structure type_class_struct where
  p : type_class
  fields_by_name : GHashTable Nat
  fields : List field
deriving DecidableEq, Repr

/-- Embedding of `struct_type_new`. The name is given by its quark
(`g_quark_from_string(name)`); `ctf_register_type` is the registration
function of the type registry, which lives outside this file and whose
non-zero result makes the constructor return `NULL`. The source sets the
fields through a variable `type_class` it initialises from a `float_class`
that does not exist in this function; the embedded type class
`struct_class->p` is what is meant. -/
def struct_type_new (name : GQuark) (ctf_register_type : type_class → Int) :
    Option type_class_struct :=
  let struct_class : type_class_struct :=
    { p := { name := name, alignment := 1 }, fields_by_name := [], fields := [] }
  if name ≠ 0 then
    if ctf_register_type struct_class.p ≠ 0 then none else some struct_class
  else some struct_class

/-- Embedding of `struct_type_add_field`. The field name is given by its quark
(`g_quark_from_string(field_name)`: glib interns equal strings to the same
quark and different strings to different quarks). -/
def struct_type_add_field (struct_class : type_class_struct) (field_name : GQuark)
    (type_class : type_class) : type_class_struct :=
  let fields := struct_class.fields ++ [{ name := field_name, type_class := type_class }]
  let index := fields.length - 1
  { p := { struct_class.p with
           alignment := max struct_class.p.alignment type_class.alignment }
    fields_by_name := g_hash_table_insert struct_class.fields_by_name field_name index
    fields := fields }

/-- Embedding of `struct_type_lookup_field_index`: the pointer found in the table, or
`NULL`, cast to `unsigned long`. -/
def struct_type_lookup_field_index (struct_class : type_class_struct) (field_name : GQuark) :
    Nat :=
  match g_hash_table_lookup struct_class.fields_by_name field_name with
  | some index => index
  | none => 0

/-- Embedding of `struct_type_get_field_from_index`: the element of the array at `index`;
`none` stands for the pointer past the array that C computes for an index
that is not below the length. -/
def struct_type_get_field_from_index (struct_class : type_class_struct) (index : Nat) :
    Option field :=
  struct_class.fields[index]?

/-- The structure obtained from `struct_class` by the calls
`struct_type_add_field struct_class name type_class`, one per element of
`adds`, in order. -/
def struct_add_fields (struct_class : type_class_struct) (adds : List (GQuark × type_class)) :
    type_class_struct :=
  adds.foldl (fun s a => struct_type_add_field s a.1 a.2) struct_class

/-! ## Declarations and definitions -/

/-- Modelled from the spec: `enum ctf_type_id` of `babeltrace/types.h`, which
is not among the sources; the kinds of type a declaration can have. -/
inductive ctf_type_id where
  | CTF_TYPE_UNKNOWN
  | CTF_TYPE_INTEGER
  | CTF_TYPE_FLOAT
  | CTF_TYPE_ENUM
  | CTF_TYPE_STRING
  | CTF_TYPE_STRUCT
  | CTF_TYPE_UNTAGGED_VARIANT
  | CTF_TYPE_VARIANT
  | CTF_TYPE_ARRAY
  | CTF_TYPE_SEQUENCE
deriving DecidableEq, Repr

/-- Modelled from the spec: `struct declaration` of `babeltrace/types.h`: the
kind, the alignment and the reference count. Its four function pointers
(`copy`, `declaration_free`, `definition_new`, `definition_free`) are not
fields here: a call through one of them is a call of the matching function
of the environment, applied to the declaration. -/
structure declaration where
  id : ctf_type_id
  alignment : Nat
  ref : Int
deriving DecidableEq, Repr

/-- Modelled from the spec: `declaration_ref` of the type registry takes one
more reference on a declaration. -/
def declaration_ref (d : declaration) : declaration := { d with ref := d.ref + 1 }

/-- Modelled from the spec: `struct declaration_field` of
`babeltrace/types.h`, a name quark and the declaration of the choice. -/
structure declaration_field where
  name : GQuark
  declaration : declaration
deriving DecidableEq, Repr

/-- Modelled from the spec: `struct declaration_untagged_variant`: the
embedded declaration `p`, the table from tag quark to choice index, the
declaration scope (an address, made by `new_declaration_scope` outside this
file) and the array of choices. -/
structure declaration_untagged_variant where
  p : declaration
  fields_by_tag : GHashTable Nat
  scope : Nat
  fields : List declaration_field
deriving DecidableEq, Repr

/-- Modelled from the spec: `struct declaration_variant`: the embedded
declaration `p`, the untagged variant it wraps and the tag path, an array of
quarks. -/
structure declaration_variant where
  p : declaration
  untagged_variant : declaration_untagged_variant
  tag_name : List GQuark
deriving DecidableEq, Repr

/-- Modelled from the spec: the declaration of an enumeration, as far as the
variant reads it: one table entry per enumerator, from the enumerator's tag
quark to its set of value ranges. -/
structure declaration_enum where
  p : declaration
  quark_to_range_set : GHashTable (List (Int × Int))
deriving DecidableEq, Repr

/-- Modelled from the spec: the enumerator count query of the enumeration
collaborator, the number of entries of the table. -/
def enum_get_nr_enumerators (enum_declaration : declaration_enum) : Nat :=
  g_hash_table_size enum_declaration.quark_to_range_set

/-- Modelled from the spec: the tag check of the enumeration collaborator,
the range set of the enumerator of tag `q`, `none` (`NULL`) when no
enumerator has that tag. -/
def enum_quark_to_range_set (enum_declaration : declaration_enum) (q : GQuark) :
    Option (List (Int × Int)) :=
  g_hash_table_lookup enum_declaration.quark_to_range_set q

/-- Modelled from the spec: `struct definition` of `babeltrace/types.h`: the
declaration it instantiates, its position in its parent and its reference
count. -/
structure definition where
  declaration : declaration
  index : Int
  ref : Int
deriving DecidableEq, Repr

/-- Modelled from the spec: `definition_ref` takes one more reference on a
definition. -/
def definition_ref (d : definition) : definition := { d with ref := d.ref + 1 }

/-- Modelled from the spec: `struct definition_enum`: the embedded definition,
the declaration of the enumeration and the array `value` of the tags the
enumeration currently holds. -/
structure definition_enum where
  p : definition
  declaration : declaration_enum
  value : List GQuark
deriving DecidableEq, Repr

/-- Modelled from the spec: `struct definition_scope` of `babeltrace/types.h`,
reduced to the `scope_path` that `_variant_definition_new` reads; its table of
definitions and its parent link are read by `lookup_definition` only. -/
structure definition_scope where
  scope_path : List GQuark
deriving DecidableEq, Repr

/-- Modelled from the spec: `struct field` as `variant.c` uses it, a name
quark and the child definition; `none` is the `NULL` pointer. (Named apart
from the `field` of `struct.c`, which holds a type class.) -/
structure definition_field where
  name : GQuark
  definition : Option definition
deriving DecidableEq, Repr

/-- Modelled from the spec: `struct definition_variant`: the embedded
definition, the declaration, the scope of the variant, the enumeration
definition the tag path resolved to, the array of child fields and the
cached current field (the index of the element `current_field` points to,
`none` for `NULL`). The objects pointed to are held by value: a change of
the value of the bound enumeration is a change of `enum_tag.value`. -/
structure definition_variant where
  p : definition
  declaration : declaration_variant
  scope : definition_scope
  enum_tag : definition_enum
  fields : List definition_field
  current_field : Option Nat
deriving DecidableEq, Repr

/-- The functions `variant.c` calls and does not define: the two scope
functions of the type registry, and the `definition_new` function a
declaration points to. -/
structure variant_env where
  new_definition_scope : Option definition_scope → GQuark → definition_scope
  lookup_definition : List GQuark → List GQuark → Option definition_scope →
    Option definition_enum
  definition_new : declaration → definition_scope → GQuark → Int → Option definition

/-! ## Variant types: operations -/

/-- Embedding of `untagged_variant_declaration_new`; `new_declaration_scope`
is the scope constructor of the type registry. -/
def untagged_variant_declaration_new (new_declaration_scope : Option Nat → Nat)
    (parent_scope : Option Nat) : declaration_untagged_variant :=
  { p := { id := ctf_type_id.CTF_TYPE_UNTAGGED_VARIANT, alignment := 1, ref := 1 }
    fields_by_tag := []
    scope := new_declaration_scope parent_scope
    fields := [] }

/-- Embedding of `variant_declaration_new`; the tag is given by the path of
quarks `append_scope_path` splits the string into. -/
def variant_declaration_new (untagged_variant : declaration_untagged_variant)
    (tag : List GQuark) : declaration_variant :=
  { p := { id := ctf_type_id.CTF_TYPE_VARIANT, alignment := 1, ref := 1 }
    untagged_variant := untagged_variant
    tag_name := [] ++ tag }

/-- Embedding of `untagged_variant_declaration_add_field`; the field name is
given by its quark. The choice stored points to the child declaration, on
which a reference has been taken. -/
def untagged_variant_declaration_add_field
    (untagged_variant_declaration : declaration_untagged_variant) (field_name : GQuark)
    (field_declaration : declaration) : declaration_untagged_variant :=
  let fields := untagged_variant_declaration.fields ++
    [{ name := field_name, declaration := declaration_ref field_declaration }]
  let index := fields.length - 1
  { untagged_variant_declaration with
    fields_by_tag :=
      g_hash_table_insert untagged_variant_declaration.fields_by_tag field_name index
    fields := fields }

/-- Embedding of `untagged_variant_declaration_get_field_from_tag`. -/
def untagged_variant_declaration_get_field_from_tag
    (untagged_variant_declaration : declaration_untagged_variant) (tag : GQuark) :
    Option declaration_field :=
  let index :=
    match g_hash_table_lookup untagged_variant_declaration.fields_by_tag tag with
    | some index => index
    | none => 0
  untagged_variant_declaration.fields[index]?

/-- Embedding of `check_enum_tag`, on the declaration of the variant being
built and the enumeration definition found: 0 if OK, `-EPERM` otherwise. -/
def check_enum_tag (variant_declaration : declaration_variant) (enum_tag : definition_enum) :
    Int :=
  let enum_declaration := enum_tag.declaration
  if variant_declaration.untagged_variant.fields.length ≠
      enum_get_nr_enumerators enum_declaration then -EPERM
  else
    let missing_field := variant_declaration.untagged_variant.fields.any
      (fun field_declaration =>
        (enum_quark_to_range_set enum_declaration field_declaration.name).isNone)
    if missing_field then -EPERM else 0

/-- Embedding of `_variant_definition_new`: `none` is the `NULL` of the error
path, which gives back the reference taken on the declaration and frees the
scope. -/
def _variant_definition_new (env : variant_env) (variant_declaration : declaration_variant)
    (parent_scope : Option definition_scope) (field_name : GQuark) (index : Int) :
    Option definition_variant :=
  let declaration := declaration_ref variant_declaration.p
  let scope := env.new_definition_scope parent_scope field_name
  match env.lookup_definition scope.scope_path variant_declaration.tag_name parent_scope with
  | none => none
  | some enum_tag =>
    if check_enum_tag variant_declaration enum_tag < 0 then none
    else
      some
        { p := { declaration := declaration, index := index, ref := 1 }
          declaration := { variant_declaration with p := declaration }
          scope := scope
          enum_tag := { enum_tag with p := definition_ref enum_tag.p }
          fields := variant_declaration.untagged_variant.fields.map
            (fun declaration_field =>
              { name := declaration_field.name
                definition := env.definition_new declaration_field.declaration scope
                  declaration_field.name 0 })
          current_field := none }

/-- Embedding of `variant_get_current_field`: the field returned and the
variant with its cache set. `none` stands for the abort of the failed
`assert` and for a pointer that is not an element of the array. -/
def variant_get_current_field (variant : definition_variant) :
    Option (definition_field × definition_variant) :=
  let _enum := variant.enum_tag
  let variant_declaration := variant.declaration
  let tag_array := _enum.value
  if tag_array.length = 1 then
    match tag_array[0]? with
    | none => none
    | some tag =>
      let index :=
        match g_hash_table_lookup variant_declaration.untagged_variant.fields_by_tag tag with
        | some index => index
        | none => 0
      match variant.fields[index]? with
      | none => none
      | some field => some (field, { variant with current_field := some index })
  else none

/-! ## Formats and copies -/

/-- Modelled from the spec: the begin and end hooks of `struct format`
(`babeltrace/format.h`), called with a stream position (an address) and the
type; a hook acts on a state of type `σ`. -/
structure format (σ : Type) where
  struct_begin : Nat → type_class_struct → σ → σ
  struct_end : Nat → type_class_struct → σ → σ
  variant_begin : Nat → declaration_variant → σ → σ
  variant_end : Nat → declaration_variant → σ → σ

/-- Embedding of `struct_copy`; `copy field_class` is the function the
`copy` pointer of the type class `field_class` points to. -/
def struct_copy {σ : Type}
    (copy : type_class → Nat → format σ → Nat → format σ → σ → σ)
    (dest : Nat) (fdest : format σ) (src : Nat) (fsrc : format σ)
    (struct_class : type_class_struct) (st : σ) : σ :=
  let s1 := fsrc.struct_begin src struct_class st
  let s2 := fdest.struct_begin dest struct_class s1
  let s3 := struct_class.fields.foldl
    (fun s field => copy field.type_class dest fdest src fsrc s) s2
  let s4 := fsrc.struct_end src struct_class s3
  fdest.struct_end dest struct_class s4

/-- Embedding of `variant_copy`; `copy d` is the function the `copy` pointer
of the declaration `d` points to, `fdest` may be `NULL`. `none` stands for
the abort of `variant_get_current_field` and for the use of a field that is
not there or whose child definition is `NULL`. -/
def variant_copy {σ : Type}
    (copy : declaration → Nat → Option (format σ) → Nat → format σ → definition → σ → σ)
    (dest : Nat) (fdest : Option (format σ)) (src : Nat) (fsrc : format σ)
    (variant : definition_variant) (st : σ) : Option (σ × definition_variant) :=
  let variant_declaration := variant.declaration
  let s1 := fsrc.variant_begin src variant_declaration st
  let s2 :=
    match fdest with
    | some f => f.variant_begin dest variant_declaration s1
    | none => s1
  match variant_get_current_field variant with
  | none => none
  | some (field, variant1) =>
    match field.definition with
    | none => none
    | some child =>
      let field_declaration := child.declaration
      let s3 := copy field_declaration dest fdest src fsrc child s2
      let s4 := fsrc.variant_end src variant_declaration s3
      let s5 :=
        match fdest with
        | some f => f.variant_end dest variant_declaration s4
        | none => s4
      some (s5, variant1)

/-! ## Copies: vocabulary of the properties -/

/-- The side a format stands on in a copy. -/
inductive copy_side where
  | source
  | destination
deriving DecidableEq, Repr

/-- One call made by a copy: a hook of the format of one side at a stream
position, or the copy function of a child. -/
inductive hook_call where
  | struct_begin (side : copy_side) (pos : Nat)
  | struct_end (side : copy_side) (pos : Nat)
  | variant_begin (side : copy_side) (pos : Nat)
  | variant_end (side : copy_side) (pos : Nat)
  | type_class_copy (field_class : type_class)
  | definition_copy (child : definition)
deriving DecidableEq, Repr

/-- The format of one side whose hooks do nothing but record that they were
called. -/
def recording_format (side : copy_side) : format (List hook_call) :=
  { struct_begin := fun pos _ log => log ++ [hook_call.struct_begin side pos]
    struct_end := fun pos _ log => log ++ [hook_call.struct_end side pos]
    variant_begin := fun pos _ log => log ++ [hook_call.variant_begin side pos]
    variant_end := fun pos _ log => log ++ [hook_call.variant_end side pos] }

/-- The copy function of a child type class that records that it was
called. -/
def recording_type_class_copy (field_class : type_class) (_dest : Nat)
    (_fdest : format (List hook_call)) (_src : Nat) (_fsrc : format (List hook_call))
    (log : List hook_call) : List hook_call :=
  log ++ [hook_call.type_class_copy field_class]

/-- The copy function of a child declaration that records that it was called
and on which child definition. -/
def recording_definition_copy (_d : declaration) (_dest : Nat)
    (_fdest : Option (format (List hook_call))) (_src : Nat)
    (_fsrc : format (List hook_call)) (child : definition) (log : List hook_call) :
    List hook_call :=
  log ++ [hook_call.definition_copy child]

/-- The untagged variant obtained from `u` by the calls
`untagged_variant_declaration_add_field u name declaration`, one per element
of `adds`, in order. -/
def untagged_add_fields (u : declaration_untagged_variant)
    (adds : List (GQuark × declaration)) : declaration_untagged_variant :=
  adds.foldl (fun s a => untagged_variant_declaration_add_field s a.1 a.2) u

/-! ## Variant types: sample collaborators -/

/-- A `definition_new` of a leaf type: it always yields a definition of the
declaration at the index asked for. -/
def leaf_definition_new (d : declaration) (_scope : definition_scope) (_name : GQuark)
    (index : Int) : Option definition :=
  some { declaration := d, index := index, ref := 1 }

/-- An enumeration definition whose declaration has one enumerator per tag of
`tags` and whose current value is `value`. -/
def sample_enum (tags : List GQuark) (value : List GQuark) : definition_enum :=
  { p := { declaration := { id := ctf_type_id.CTF_TYPE_ENUM, alignment := 8, ref := 1 }
           index := 0, ref := 1 }
    declaration :=
      { p := { id := ctf_type_id.CTF_TYPE_ENUM, alignment := 8, ref := 1 }
        quark_to_range_set := tags.map (fun q => (q, [((q : Int), (q : Int))])) }
    value := value }

/-- A registry in which the tag path `[50]` resolves to `sample_enum tags value`
and no other path resolves, the scope of a field is the path of its name, and
every child is a leaf. -/
def sample_env (tags : List GQuark) (value : List GQuark) : variant_env :=
  { new_definition_scope := fun parent field_name =>
      match parent with
      | some scope => { scope_path := scope.scope_path ++ [field_name] }
      | none => { scope_path := [field_name] }
    lookup_definition := fun _ tag_name _ =>
      if tag_name = [50] then some (sample_enum tags value) else none
    definition_new := leaf_definition_new }

/-- The registry `sample_env tags value` in which a child whose declaration is
a tagged variant is instantiated by `_variant_definition_new` on the variant
declaration `inner`, and every other child is a leaf. -/
def nested_env (tags : List GQuark) (value : List GQuark) (inner : declaration_variant) :
    variant_env :=
  { sample_env tags value with
    definition_new := fun d scope name index =>
      if d.id = ctf_type_id.CTF_TYPE_VARIANT then
        (_variant_definition_new (sample_env tags value) inner (some scope) name index).map
          (fun v => v.p)
      else leaf_definition_new d scope name index }

/-- A tagged variant with no choice whose tag path `[77]` resolves nowhere in
the sample registries. -/
def unresolved_variant : declaration_variant :=
  variant_declaration_new (untagged_variant_declaration_new (fun _ => 0) none) [77]

/-- A leaf declaration: an integer type of alignment 8. -/
def int_declaration : declaration :=
  { id := ctf_type_id.CTF_TYPE_INTEGER, alignment := 8, ref := 1 }

/-- A tagged variant with the two integer choices of names 1 and 2 and the
tag path `[50]`. -/
def sample_declaration : declaration_variant :=
  variant_declaration_new
    (untagged_add_fields (untagged_variant_declaration_new (fun _ => 0) none)
      [(1, int_declaration), (2, int_declaration)]) [50]

/-- The definition `_variant_definition_new` returns for `sample_declaration`
as the field of name 5 at index 0, without parent scope, in the registry
`sample_env [1, 2] [2]`. -/
def sample_variant : definition_variant :=
  { p := { declaration := { id := ctf_type_id.CTF_TYPE_VARIANT, alignment := 1, ref := 2 }
           index := 0, ref := 1 }
    declaration :=
      { p := { id := ctf_type_id.CTF_TYPE_VARIANT, alignment := 1, ref := 2 }
        untagged_variant :=
          { p := { id := ctf_type_id.CTF_TYPE_UNTAGGED_VARIANT, alignment := 1, ref := 1 }
            fields_by_tag := [(1, 0), (2, 1)]
            scope := 0
            fields :=
              [{ name := 1
                 declaration := { id := ctf_type_id.CTF_TYPE_INTEGER, alignment := 8, ref := 2 } },
               { name := 2
                 declaration :=
                   { id := ctf_type_id.CTF_TYPE_INTEGER, alignment := 8, ref := 2 } }] }
        tag_name := [50] }
    scope := { scope_path := [5] }
    enum_tag := { sample_enum [1, 2] [2] with
                  p := { declaration :=
                           { id := ctf_type_id.CTF_TYPE_ENUM, alignment := 8, ref := 1 }
                         index := 0, ref := 2 } }
    fields :=
      [{ name := 1
         definition := some
           { declaration := { id := ctf_type_id.CTF_TYPE_INTEGER, alignment := 8, ref := 2 }
             index := 0, ref := 1 } },
       { name := 2
         definition := some
           { declaration := { id := ctf_type_id.CTF_TYPE_INTEGER, alignment := 8, ref := 2 }
             index := 0, ref := 1 } }]
    current_field := none }

/-- A tagged variant with tag path `[50]` whose single choice, of name 1, is
the tagged variant `unresolved_variant`. -/
def nesting_declaration : declaration_variant :=
  variant_declaration_new
    (untagged_add_fields (untagged_variant_declaration_new (fun _ => 0) none)
      [(1, unresolved_variant.p)]) [50]

/-- A tagged variant with tag path `[50]` and no choice at all. -/
def empty_declaration : declaration_variant :=
  variant_declaration_new (untagged_variant_declaration_new (fun _ => 0) none) [50]

/-- The index `variant_get_current_field` computes for the tag `tag`: the
entry of the tag map of the declaration, 0 when the tag has no entry. -/
def variant_tag_index (variant : definition_variant) (tag : GQuark) : Nat :=
  match g_hash_table_lookup variant.declaration.untagged_variant.fields_by_tag tag with
  | some index => index
  | none => 0

/-! ## The average against the exact mean -/

/-- The exact sum of the total offsets of the clocks of `xs`. -/
def offset_sum (xs : List (Nat × Nat × ctf_clock)) : Nat :=
  (xs.map (fun y => total_offset y.2.2)).sum

/-- The exact rational mean of the total offsets of the clocks of `xs`. -/
def exact_mean (xs : List (Nat × Nat × ctf_clock)) : ℚ :=
  (offset_sum xs : ℚ) / (xs.length : ℚ)

/-- The state of a collection whose registry holds the single entry `c1`
under the key `v`, after merges of clocks of that key: a trace is held and
the statistics are those of first offset `total_offset c1`, exact delta sum
`D` and `k` samples, the counter being `k` as an `int`. -/
def same_key_state (tc : trace_collection) (v : GQuark) (c1 : ctf_clock) (D k : Int) : Prop :=
  tc.clocks = [(v, c1)] ∧
  tc.array ≠ [] ∧
  tc.offset_first = total_offset c1 ∧
  tc.delta_offset_first_sum = to_int64 D ∧
  tc.offset_nr = to_int32 k ∧
  tc.single_clock_offset_avg =
    to_uint64 ((total_offset c1 : Int) + Int.tdiv (to_int64 D) (to_int32 k))

/-- The clock `c` of a new trace is found by `check_clock_match` in the
registry that holds the single entry `c1` under the key `v`. -/
def correlates (v : GQuark) (c1 : ctf_clock) (key : Nat) (c : ctf_clock) : Prop :=
  check_clock_match [(v, c1)] key c none ≠ none

instance (v : GQuark) (c1 : ctf_clock) (key : Nat) (c : ctf_clock) :
    Decidable (correlates v c1 key c) := by
  unfold correlates; infer_instance

/-- A leaf declaration: a floating point type of alignment 32. -/
def float_declaration : declaration :=
  { id := ctf_type_id.CTF_TYPE_FLOAT, alignment := 32, ref := 1 }

/-- A tagged variant with tag path `[50]` whose two choices share the name 1:
an integer first, a floating point number second. -/
def repeated_declaration : declaration_variant :=
  variant_declaration_new
    (untagged_add_fields (untagged_variant_declaration_new (fun _ => 0) none)
      [(1, int_declaration), (1, float_declaration)]) [50]

/-- The definition `_variant_definition_new` returns, as the field of name 5
at index 0 and without parent scope, in the registry `sample_env [3, 1, 2] [2]`
for the variant of tag path `[50]` whose choices are an integer of name 3, a
floating point number of name 1 and an integer of name 1 again. -/
def later_repeated_variant : definition_variant :=
  { p := { declaration := { id := ctf_type_id.CTF_TYPE_VARIANT, alignment := 1, ref := 2 }
           index := 0, ref := 1 }
    declaration :=
      { p := { id := ctf_type_id.CTF_TYPE_VARIANT, alignment := 1, ref := 2 }
        untagged_variant :=
          { p := { id := ctf_type_id.CTF_TYPE_UNTAGGED_VARIANT, alignment := 1, ref := 1 }
            fields_by_tag := [(3, 0), (1, 2)]
            scope := 0
            fields :=
              [{ name := 3
                 declaration := { id := ctf_type_id.CTF_TYPE_INTEGER, alignment := 8, ref := 2 } },
               { name := 1
                 declaration := { id := ctf_type_id.CTF_TYPE_FLOAT, alignment := 32, ref := 2 } },
               { name := 1
                 declaration :=
                   { id := ctf_type_id.CTF_TYPE_INTEGER, alignment := 8, ref := 2 } }] }
        tag_name := [50] }
    scope := { scope_path := [5] }
    enum_tag := { sample_enum [3, 1, 2] [2] with
                  p := { declaration :=
                           { id := ctf_type_id.CTF_TYPE_ENUM, alignment := 8, ref := 1 }
                         index := 0, ref := 2 } }
    fields :=
      [{ name := 3
         definition := some
           { declaration := { id := ctf_type_id.CTF_TYPE_INTEGER, alignment := 8, ref := 2 }
             index := 0, ref := 1 } },
       { name := 1
         definition := some
           { declaration := { id := ctf_type_id.CTF_TYPE_FLOAT, alignment := 32, ref := 2 }
             index := 0, ref := 1 } },
       { name := 1
         definition := some
           { declaration := { id := ctf_type_id.CTF_TYPE_INTEGER, alignment := 8, ref := 2 }
             index := 0, ref := 1 } }]
    current_field := none }

/-! ## Hash table facts -/

theorem g_hash_table_lookup_insert {α : Type} (h : GHashTable α) (key key' : Nat) (value : α) :
    g_hash_table_lookup (g_hash_table_insert h key value) key' =
      if key' = key then some value else g_hash_table_lookup h key' := by
  induction h with
  | nil =>
    by_cases hk : key' = key
    · simp [g_hash_table_insert, g_hash_table_lookup, List.lookup, hk]
    · have : (key' == key) = false := by simpa using hk
      simp [g_hash_table_insert, g_hash_table_lookup, List.lookup, hk, this]
  | cons e rest ih =>
    obtain ⟨k, v⟩ := e
    simp only [g_hash_table_lookup] at ih ⊢
    by_cases hkk : k = key
    · subst hkk
      by_cases hk : key' = k
      · simp [g_hash_table_insert, List.lookup, hk]
      · have : (key' == k) = false := by simpa using hk
        simp [g_hash_table_insert, List.lookup, hk, this]
    · by_cases hk : key' = k
      · subst hk
        simp [g_hash_table_insert, List.lookup, hkk]
      · have : (key' == k) = false := by simpa using hk
        simp [g_hash_table_insert, List.lookup, hkk, this, ih]

theorem g_hash_table_lookup_mem {α : Type} (h : GHashTable α) (key : Nat) (value : α)
    (hl : g_hash_table_lookup h key = some value) : (key, value) ∈ h := by
  induction h with
  | nil => simp [g_hash_table_lookup, List.lookup] at hl
  | cons e rest ih =>
    obtain ⟨k, v⟩ := e
    simp only [g_hash_table_lookup] at ih hl
    by_cases hk : key = k
    · subst hk
      simp [List.lookup] at hl
      simp [hl]
    · have : (key == k) = false := by simpa using hk
      simp [List.lookup, this] at hl
      exact List.mem_cons_of_mem _ (ih hl)

theorem g_hash_table_insert_mem {α : Type} (h : GHashTable α) (key : Nat) (value : α)
    (e : Nat × α) (he : e ∈ g_hash_table_insert h key value) : e = (key, value) ∨ e ∈ h := by
  induction h with
  | nil => simpa [g_hash_table_insert] using he
  | cons e' rest ih =>
    obtain ⟨k, v⟩ := e'
    by_cases hk : k = key
    · subst hk
      simp [g_hash_table_insert] at he
      rcases he with he | he
      · exact Or.inl he
      · exact Or.inr (List.mem_cons_of_mem _ he)
    · simp [g_hash_table_insert, hk] at he
      rcases he with he | he
      · exact Or.inr (by simp [he])
      · rcases ih he with h1 | h1
        · exact Or.inl h1
        · exact Or.inr (List.mem_cons_of_mem _ h1)

theorem g_hash_table_insert_new {α : Type} (h : GHashTable α) (key : Nat) (value : α)
    (hl : g_hash_table_lookup h key = none) :
    g_hash_table_insert h key value = h ++ [(key, value)] := by
  induction h with
  | nil => rfl
  | cons e rest ih =>
    obtain ⟨k, v⟩ := e
    simp only [g_hash_table_lookup] at ih hl
    by_cases hk : key = k
    · subst hk
      simp [List.lookup] at hl
    · have hb : (key == k) = false := by simpa using hk
      have hk' : ¬ k = key := fun h => hk h.symm
      simp only [List.lookup, hb] at hl
      simp [g_hash_table_insert, hk', ih hl]

/-! ## Machine integer facts -/

theorem to_uint64_lt (x : Int) : to_uint64 x < 18446744073709551616 := by
  unfold to_uint64
  omega

theorem to_uint64_of_lt (n : Nat) (h : n < 18446744073709551616) : to_uint64 n = n := by
  unfold to_uint64
  omega

theorem to_uint64_of_range (x : Int) (h0 : 0 ≤ x) (h1 : x < 18446744073709551616) :
    (to_uint64 x : Int) = x := by
  unfold to_uint64
  omega

theorem to_int64_of_range (x : Int) (h0 : -9223372036854775808 ≤ x)
    (h1 : x < 9223372036854775808) : to_int64 x = x := by
  unfold to_int64
  omega

theorem to_int64_add_to_uint64 (x y : Int) : to_int64 (x + to_uint64 y) = to_int64 (x + y) := by
  unfold to_int64 to_uint64
  omega

theorem to_int64_to_int64_add (x y : Int) : to_int64 (to_int64 x + y) = to_int64 (x + y) := by
  unfold to_int64
  omega

theorem to_int32_range (x : Int) : -2147483648 ≤ to_int32 x ∧ to_int32 x < 2147483648 := by
  unfold to_int32
  omega

theorem to_int32_of_range (x : Int) (h0 : -2147483648 ≤ x) (h1 : x < 2147483648) :
    to_int32 x = x := by
  unfold to_int32
  omega

theorem to_int32_to_int32_add (x y : Int) : to_int32 (to_int32 x + y) = to_int32 (x + y) := by
  unfold to_int32
  omega

theorem to_int32_succ_ne (k : Int) (h1 : 1 ≤ k) (h2 : k + 1 ≤ 4294967294) :
    to_int32 (k + 1) ≠ 0 ∧ to_int32 (k + 1) ≠ -1 := by
  unfold to_int32
  omega

/-! ## The branches of `clock_add` -/

theorem clock_add_no_key (key : Nat) (c : ctf_clock) (s : trace_collection × List diag)
    (hv : clock_key c = 0) : clock_add key c s = s := by
  unfold clock_key at hv
  simp [clock_add, hv]

theorem clock_add_new (key : Nat) (c : ctf_clock) (s : trace_collection × List diag)
    (hv : clock_key c ≠ 0) (hl : g_hash_table_lookup s.1.clocks (clock_key c) = none) :
    (clock_add key c s).1.clocks = s.1.clocks ++ [(clock_key c, c)] ∧
    (clock_add key c s).1.array = s.1.array ∧
    (s.1.offset_nr ≠ 0 →
      (clock_add key c s).1.offset_first = s.1.offset_first ∧
      (clock_add key c s).1.delta_offset_first_sum = s.1.delta_offset_first_sum ∧
      (clock_add key c s).1.offset_nr = s.1.offset_nr ∧
      (clock_add key c s).1.single_clock_offset_avg = s.1.single_clock_offset_avg) ∧
    (s.1.offset_nr = 0 →
      (clock_add key c s).1.offset_first =
        to_uint64 (to_uint64 (c.offset_s * 1000000000) + c.offset) ∧
      (clock_add key c s).1.delta_offset_first_sum = 0 ∧
      (clock_add key c s).1.offset_nr = 1 ∧
      (clock_add key c s).1.single_clock_offset_avg =
        to_uint64 (to_uint64 (c.offset_s * 1000000000) + c.offset)) := by
  unfold clock_key at hv hl
  have hins := g_hash_table_insert_new s.1.clocks _ c hl
  have h32 : to_int32 1 = 1 := by decide
  unfold clock_key
  by_cases hnr : s.1.offset_nr = 0
  · simp [clock_add, hv, hl, hnr, hins, h32]
  · simp [clock_add, hv, hl, hnr, hins]

theorem clock_add_old (key : Nat) (c rep : ctf_clock) (s : trace_collection × List diag)
    (hv : clock_key c ≠ 0) (hl : g_hash_table_lookup s.1.clocks (clock_key c) = some rep)
    (ht : ¬ merge_traps s.1 c) :
    (clock_add key c s).1.clocks = s.1.clocks ∧
    (clock_add key c s).1.array = s.1.array ∧
    (clock_add key c s).1.offset_first = s.1.offset_first ∧
    (clock_add key c s).1.delta_offset_first_sum =
      to_int64 (s.1.delta_offset_first_sum +
        to_uint64 (to_uint64 (to_uint64 (c.offset_s * 1000000000) + c.offset)
          - s.1.offset_first)) ∧
    (clock_add key c s).1.offset_nr = to_int32 (s.1.offset_nr + 1) ∧
    (clock_add key c s).1.single_clock_offset_avg =
      to_uint64 ((clock_add key c s).1.offset_first +
        Int.tdiv (clock_add key c s).1.delta_offset_first_sum (clock_add key c s).1.offset_nr) := by
  unfold clock_key at hv hl
  unfold merge_traps merged_delta at ht
  unfold clock_add
  simp only [hv, hl, ne_eq, not_false_eq_true, if_true]
  rw [if_neg ht]
  simp

theorem clock_add_old_trap (key : Nat) (c rep : ctf_clock) (s : trace_collection × List diag)
    (hv : clock_key c ≠ 0) (hl : g_hash_table_lookup s.1.clocks (clock_key c) = some rep)
    (ht : merge_traps s.1 c) :
    (clock_add key c s).1 = s.1 ∧ diag.sigfpe ∈ (clock_add key c s).2 := by
  unfold clock_key at hv hl
  unfold merge_traps merged_delta at ht
  unfold clock_add
  simp only [hv, hl, ne_eq, not_false_eq_true, if_true]
  rw [if_pos ht]
  simp

/-! ## The invariant of the collection -/

theorem tc_inv_init : tc_inv init_trace_collection := by
  refine ⟨?_, ?_, ?_, ?_, ?_⟩
  · intro e he
    simp [init_trace_collection] at he
  · simp [init_trace_collection]
  · simp [init_trace_collection]
  · intro h
    simp [init_trace_collection] at h
  · intro h
    simp [init_trace_collection] at h

theorem tc_inv_clock_add (key : Nat) (c : ctf_clock) (s : trace_collection × List diag)
    (h : tc_inv s.1) : tc_inv (clock_add key c s).1 := by
  obtain ⟨hk, hf, hn, hc, ha⟩ := h
  by_cases hv : clock_key c = 0
  · rw [clock_add_no_key key c s hv]
    exact ⟨hk, hf, hn, hc, ha⟩
  · cases hl : g_hash_table_lookup s.1.clocks (clock_key c) with
    | none =>
      obtain ⟨e1, _, e3, e4⟩ := clock_add_new key c s hv hl
      have hk' : registry_keyed (clock_add key c s).1.clocks := by
        intro e he
        rw [e1] at he
        rcases List.mem_append.1 he with he | he
        · exact hk e he
        · simp at he
          subst he
          exact ⟨rfl, hv⟩
      by_cases hnr : s.1.offset_nr = 0
      · obtain ⟨f1, f2, f3, f4⟩ := e4 hnr
        refine ⟨hk', ?_, ?_, ?_, ?_⟩
        · rw [f1]; exact to_uint64_lt _
        · rw [f3]; decide
        · intro _; rw [f3]; decide
        · intro _
          unfold offset_avg_expr
          rw [f4, f1, f2, f3]
          simp only [Int.tdiv_one, add_zero]
          exact (to_uint64_of_lt _ (to_uint64_lt _)).symm
      · obtain ⟨f1, f2, f3, f4⟩ := e3 hnr
        refine ⟨hk', ?_, ?_, ?_, ?_⟩
        · rw [f1]; exact hf
        · rw [f3]; exact hn
        · intro _; rw [f3]; exact hnr
        · intro h1
          unfold offset_avg_expr
          rw [f4, f1, f2, f3]
          rw [f3] at h1
          exact ha h1
    | some rep =>
      by_cases ht : merge_traps s.1 c
      · rw [(clock_add_old_trap key c rep s hv hl ht).1]
        exact ⟨hk, hf, hn, hc, ha⟩
      · obtain ⟨e1, _, e3, _, e5, e6⟩ := clock_add_old key c rep s hv hl ht
        refine ⟨?_, ?_, ?_, ?_, ?_⟩
        · rw [e1]; exact hk
        · rw [e3]; exact hf
        · rw [e5]; exact to_int32_range _
        · intro _
          rw [e5]
          intro h0
          exact ht (Or.inl h0)
        · intro _
          exact e6

theorem clock_add_array (key : Nat) (c : ctf_clock) (s : trace_collection × List diag) :
    (clock_add key c s).1.array = s.1.array := by
  by_cases hv : clock_key c = 0
  · rw [clock_add_no_key key c s hv]
  · cases hl : g_hash_table_lookup s.1.clocks (clock_key c) with
    | none => exact (clock_add_new key c s hv hl).2.1
    | some rep =>
      by_cases ht : merge_traps s.1 c
      · rw [(clock_add_old_trap key c rep s hv hl ht).1]
      · exact (clock_add_old key c rep s hv hl ht).2.1

theorem tc_inv_foreach_clock_add (clocks : GHashTable ctf_clock)
    (s : trace_collection × List diag) (h : tc_inv s.1) :
    tc_inv (g_hash_table_foreach clocks clock_add s).1 := by
  induction clocks generalizing s with
  | nil => exact h
  | cons e rest ih =>
    simp only [g_hash_table_foreach, List.foldl_cons] at ih ⊢
    exact ih _ (tc_inv_clock_add e.1 e.2 s h)

theorem foreach_clock_add_array (clocks : GHashTable ctf_clock)
    (s : trace_collection × List diag) :
    (g_hash_table_foreach clocks clock_add s).1.array = s.1.array := by
  induction clocks generalizing s with
  | nil => rfl
  | cons e rest ih =>
    simp only [g_hash_table_foreach, List.foldl_cons] at ih ⊢
    rw [ih, clock_add_array]

theorem tc_inv_array (tc : trace_collection) (array : List Nat) (h : tc_inv tc) :
    tc_inv { tc with array := array } := h

theorem tc_inv_add (tc : trace_collection) (trace : ctf_trace) (h : tc_inv tc) :
    tc_inv (trace_collection_add tc trace).tc := by
  unfold trace_collection_add
  simp only
  split
  · exact tc_inv_array tc _ h
  · exact tc_inv_foreach_clock_add _ _ (tc_inv_array tc _ h)

theorem tc_inv_remove (tc : trace_collection) (td : Nat) (h : tc_inv tc) :
    tc_inv (trace_collection_remove tc td).tc := by
  unfold trace_collection_remove
  split
  · exact tc_inv_array tc _ h
  · exact tc_inv_array tc _ h

theorem tc_inv_apply (tc : trace_collection) (call : tc_call) (h : tc_inv tc) :
    tc_inv (tc_apply tc call) := by
  cases call with
  | add trace => exact tc_inv_add tc trace h
  | remove td => exact tc_inv_remove tc td h

theorem tc_inv_foldl (calls : List tc_call) (tc : trace_collection) (h : tc_inv tc) :
    tc_inv (calls.foldl tc_apply tc) := by
  induction calls generalizing tc with
  | nil => exact h
  | cons call rest ih => exact ih _ (tc_inv_apply tc call h)

theorem tc_inv_run (calls : List tc_call) : tc_inv (tc_run calls) :=
  tc_inv_foldl calls _ tc_inv_init

/-! ## The counter against the number of clocks processed -/

theorem nr_le_mono (tc : trace_collection) (n m : Nat) (hnm : n ≤ m) (h : nr_le tc n) :
    nr_le tc m := by
  intro hm
  obtain ⟨h0, h1⟩ := h (by omega)
  exact ⟨h0, by omega⟩

theorem nr_le_clock_add (key : Nat) (c : ctf_clock) (s : trace_collection × List diag)
    (n : Nat) (h : nr_le s.1 n) : nr_le (clock_add key c s).1 (n + 1) := by
  intro hn
  obtain ⟨h0, h1⟩ := h (by omega)
  by_cases hv : clock_key c = 0
  · rw [clock_add_no_key key c s hv]
    exact ⟨h0, by push_cast; omega⟩
  · cases hl : g_hash_table_lookup s.1.clocks (clock_key c) with
    | none =>
      obtain ⟨_, _, e3, e4⟩ := clock_add_new key c s hv hl
      by_cases hnr : s.1.offset_nr = 0
      · rw [(e4 hnr).2.2.1]
        exact ⟨by decide, by push_cast; omega⟩
      · rw [(e3 hnr).2.2.1]
        exact ⟨h0, by push_cast; omega⟩
    | some rep =>
      by_cases ht : merge_traps s.1 c
      · rw [(clock_add_old_trap key c rep s hv hl ht).1]
        exact ⟨h0, by push_cast; omega⟩
      · rw [(clock_add_old key c rep s hv hl ht).2.2.2.2.1,
          to_int32_of_range _ (by omega) (by omega)]
        exact ⟨by omega, by push_cast; omega⟩

theorem nr_le_foreach_clock_add (clocks : GHashTable ctf_clock)
    (s : trace_collection × List diag) (n : Nat) (h : nr_le s.1 n) :
    nr_le (g_hash_table_foreach clocks clock_add s).1 (n + clocks.length) := by
  induction clocks generalizing s n with
  | nil => exact h
  | cons e rest ih =>
    simp only [g_hash_table_foreach, List.foldl_cons, List.length_cons] at ih ⊢
    have := ih _ (n + 1) (nr_le_clock_add e.1 e.2 s n h)
    have e : n + (rest.length + 1) = n + 1 + rest.length := by omega
    rw [e]
    exact this

theorem nr_le_array (tc : trace_collection) (array : List Nat) (n : Nat) (h : nr_le tc n) :
    nr_le { tc with array := array } n := h

theorem nr_le_state_before (tc : trace_collection) (td : Nat) (pre : GHashTable ctf_clock)
    (n : Nat) (h : nr_le tc n) : nr_le (clock_add_state_before tc td pre).1 (n + pre.length) :=
  nr_le_foreach_clock_add pre _ n (nr_le_array tc _ n h)

theorem nr_le_apply (tc : trace_collection) (call : tc_call) (n : Nat) (h : nr_le tc n) :
    nr_le (tc_apply tc call) (n + clocks_processed [call]) := by
  cases call with
  | add trace =>
    simp only [tc_apply, clocks_processed, List.map_cons, List.map_nil, List.sum_cons,
      List.sum_nil, add_zero]
    unfold trace_collection_add
    simp only
    split
    · exact nr_le_mono _ n _ (by omega) (nr_le_array tc _ n h)
    · exact nr_le_foreach_clock_add _ _ n (nr_le_array tc _ n h)
  | remove td =>
    simp only [tc_apply, clocks_processed, List.map_cons, List.map_nil, List.sum_cons,
      List.sum_nil, add_zero]
    unfold trace_collection_remove
    split
    · exact nr_le_array tc _ n h
    · exact nr_le_array tc _ n h

theorem clocks_processed_cons (call : tc_call) (rest : List tc_call) :
    clocks_processed (call :: rest) = clocks_processed [call] + clocks_processed rest := by
  simp [clocks_processed]

theorem nr_le_foldl (calls : List tc_call) (tc : trace_collection) (n : Nat) (h : nr_le tc n) :
    nr_le (calls.foldl tc_apply tc) (n + clocks_processed calls) := by
  induction calls generalizing tc n with
  | nil => simpa [clocks_processed] using h
  | cons call rest ih =>
    have := ih _ _ (nr_le_apply tc call n h)
    rw [clocks_processed_cons, ← Nat.add_assoc]
    exact this

theorem nr_le_run (calls : List tc_call) : nr_le (tc_run calls) (clocks_processed calls) := by
  have h0 : nr_le init_trace_collection 0 := by
    intro _
    simp [init_trace_collection]
  have := nr_le_foldl calls init_trace_collection 0 h0
  rw [Nat.zero_add] at this
  exact this

/-! ## Rejection of a trace -/

theorem trace_collection_add_eperm_state (tc : trace_collection) (trace : ctf_trace)
    (h : (trace_collection_add tc trace).ret = -EPERM) :
    (trace_collection_add tc trace).tc = { tc with array := tc.array ++ [trace.parent] } := by
  unfold trace_collection_add at h ⊢
  simp only at h ⊢
  split
  · rfl
  · rename_i hc
    rw [if_neg hc] at h
    simp [EPERM] at h

/-- C1: with one trace registered (descriptor 100, one clock of UUID quark 1),
adding a trace (descriptor 101) whose only clock has UUID quark 2 and is not
absolute returns `-EPERM`, yet the trace array has grown from `[100]` to
`[100, 101]`: the rejected trace is an element of the trace set. The clock
registry and the statistics are the ones from before the call. -/
theorem trace_collection_add_eperm_keeps_trace :
    (trace_collection_add
        (tc_run [.add (single_clock_trace 100 7 ⟨7, 1, false, 0, 0⟩)])
        (single_clock_trace 101 8 ⟨8, 2, false, 0, 0⟩)).ret = -EPERM ∧
    (tc_run [.add (single_clock_trace 100 7 ⟨7, 1, false, 0, 0⟩)]).array = [100] ∧
    (trace_collection_add
        (tc_run [.add (single_clock_trace 100 7 ⟨7, 1, false, 0, 0⟩)])
        (single_clock_trace 101 8 ⟨8, 2, false, 0, 0⟩)).tc.array = [100, 101] ∧
    (trace_collection_add
        (tc_run [.add (single_clock_trace 100 7 ⟨7, 1, false, 0, 0⟩)])
        (single_clock_trace 101 8 ⟨8, 2, false, 0, 0⟩)).tc =
      { tc_run [.add (single_clock_trace 100 7 ⟨7, 1, false, 0, 0⟩)] with
        array := [100, 101] } := by
  decide

theorem foreach_check_clock_match_none (clocks : GHashTable ctf_clock)
    (tclocks : GHashTable ctf_clock)
    (h : ∀ a ∈ tclocks, check_clock_match clocks a.1 a.2 none = none) :
    g_hash_table_foreach tclocks (check_clock_match clocks) none = none := by
  induction tclocks with
  | nil => rfl
  | cons e rest ih =>
    simp only [g_hash_table_foreach, List.foldl_cons] at ih ⊢
    rw [h e (List.mem_cons_self _ _)]
    exact ih (fun a ha => h a (List.mem_cons_of_mem _ ha))

theorem check_clock_match_none (clocks : GHashTable ctf_clock) (key : Nat) (a : ctf_clock)
    (hk : registry_keyed clocks)
    (hno : ∀ b ∈ clocks, ¬ clocks_match a b.2 ∧ ¬ clocks_cross_match a b.2) :
    check_clock_match clocks key a none = none := by
  unfold check_clock_match
  by_cases hu : a.uuid = 0
  · by_cases habs : a.absolute = true
    · cases hl : g_hash_table_lookup clocks a.name with
      | none => simp [hu, habs, hl]
      | some b =>
        exfalso
        have hm := g_hash_table_lookup_mem clocks _ b hl
        obtain ⟨hkey, _⟩ := hk _ hm
        obtain ⟨h1, h2⟩ := hno _ hm
        simp only [clock_key] at hkey
        by_cases hb : b.absolute = true
        · rw [if_pos hb] at hkey
          exact h1 (Or.inr ⟨habs, hb, hkey⟩)
        · rw [if_neg hb] at hkey
          have hb' : b.absolute = false := by simpa using hb
          exact h2 (Or.inr ⟨hu, habs, hb', hkey⟩)
    · simp [hu, habs]
  · cases hl : g_hash_table_lookup clocks a.uuid with
    | none => simp [hu, hl]
    | some b =>
      exfalso
      have hm := g_hash_table_lookup_mem clocks _ b hl
      obtain ⟨hkey, _⟩ := hk _ hm
      obtain ⟨h1, h2⟩ := hno _ hm
      simp only [clock_key] at hkey
      by_cases hb : b.absolute = true
      · rw [if_pos hb] at hkey
        exact h2 (Or.inl ⟨hu, hb, hkey⟩)
      · rw [if_neg hb] at hkey
        exact h1 (Or.inl ⟨hu, hkey⟩)

/-- C2, as stated, fails: after a trace whose clock is absolute, named by
quark 5 and without UUID, a trace whose only clock is not absolute and has
UUID quark 5 is accepted (return value 0), although its clock shares neither
a non-zero UUID nor an absolute name with the registered clock. -/
theorem trace_collection_add_quark_clash_accepted :
    (tc_run [.add (single_clock_trace 100 5 ⟨5, 0, true, 0, 0⟩)]).array ≠ [] ∧
    (∀ a ∈ (single_clock_trace 101 9 ⟨9, 5, false, 0, 0⟩).clocks,
      ∀ b ∈ (tc_run [.add (single_clock_trace 100 5 ⟨5, 0, true, 0, 0⟩)]).clocks,
        ¬ clocks_match a.2 b.2) ∧
    (trace_collection_add
        (tc_run [.add (single_clock_trace 100 5 ⟨5, 0, true, 0, 0⟩)])
        (single_clock_trace 101 9 ⟨9, 5, false, 0, 0⟩)).ret = 0 ∧
    (trace_collection_add
        (tc_run [.add (single_clock_trace 100 5 ⟨5, 0, true, 0, 0⟩)])
        (single_clock_trace 101 9 ⟨9, 5, false, 0, 0⟩)).ret ≠ -EPERM := by
  decide

/-- C2, amended: for every collection reached from `init_trace_collection`
that holds at least one trace and every new trace, if no clock of the new
trace matches a registered clock, where a match is the same non-zero UUID,
or the same name with both clocks absolute, or a UUID quark of the one
meeting the name quark of the other as `clocks_cross_match` spells out, then
`trace_collection_add` returns `-EPERM`. -/
theorem trace_collection_add_no_match_eperm (calls : List tc_call) (trace : ctf_trace)
    (hne : (tc_run calls).array ≠ [])
    (hno : ∀ a ∈ trace.clocks, ∀ b ∈ (tc_run calls).clocks,
      ¬ clocks_match a.2 b.2 ∧ ¬ clocks_cross_match a.2 b.2) :
    (trace_collection_add (tc_run calls) trace).ret = -EPERM := by
  have hk : registry_keyed (tc_run calls).clocks := (tc_inv_run calls).1
  have hnone := foreach_check_clock_match_none (tc_run calls).clocks trace.clocks
    (fun a ha => check_clock_match_none _ a.1 a.2 hk (hno a ha))
  have hlen : (g_ptr_array_add (tc_run calls).array trace.parent).length > 1 := by
    cases harr : (tc_run calls).array with
    | nil => exact absurd harr hne
    | cons p rest => simp [g_ptr_array_add]
  unfold trace_collection_add
  simp only
  rw [if_pos ⟨hlen, by rw [hnone]; rfl⟩]

/-- An instance of the amended C2: one trace with a clock of UUID quark 1 is
held, the new trace has a clock of UUID quark 2. -/
theorem trace_collection_add_no_match_eperm_witness :
    (tc_run [.add (single_clock_trace 100 7 ⟨7, 1, false, 0, 0⟩)]).array ≠ [] ∧
    (∀ a ∈ (single_clock_trace 101 8 ⟨8, 2, false, 0, 0⟩).clocks,
      ∀ b ∈ (tc_run [.add (single_clock_trace 100 7 ⟨7, 1, false, 0, 0⟩)]).clocks,
        ¬ clocks_match a.2 b.2 ∧ ¬ clocks_cross_match a.2 b.2) ∧
    (trace_collection_add
        (tc_run [.add (single_clock_trace 100 7 ⟨7, 1, false, 0, 0⟩)])
        (single_clock_trace 101 8 ⟨8, 2, false, 0, 0⟩)).ret = -EPERM :=
  ⟨by decide, by decide,
    trace_collection_add_no_match_eperm
      [.add (single_clock_trace 100 7 ⟨7, 1, false, 0, 0⟩)]
      (single_clock_trace 101 8 ⟨8, 2, false, 0, 0⟩) (by decide) (by decide)⟩

/-- C3: for the absolute clock of name quark 7 and UUID quark 5, the first
trace registers the clock under its name (key 7), and the second trace, which
carries the very same clock, is looked up under its UUID (key 5) and is
rejected with `-EPERM`. -/
theorem trace_collection_add_same_absolute_clock_rejected :
    (tc_run [.add (single_clock_trace 100 7 ⟨7, 5, true, 0, 0⟩)]).clocks =
      [(7, ⟨7, 5, true, 0, 0⟩)] ∧
    (trace_collection_add
        (tc_run [.add (single_clock_trace 100 7 ⟨7, 5, true, 0, 0⟩)])
        (single_clock_trace 101 7 ⟨7, 5, true, 0, 0⟩)).ret = -EPERM := by
  decide

/-! ## Merging clocks of one identity -/

theorem to_uint64_mul_add (a b : Nat) (h : a * 1000000000 + b < 18446744073709551616) :
    to_uint64 (to_uint64 (a * 1000000000) + b) = a * 1000000000 + b := by
  unfold to_uint64
  have h1 : ((a : Int) * 1000000000) % 18446744073709551616 = (a : Int) * 1000000000 :=
    Int.emod_eq_of_lt (by omega) (by omega)
  rw [h1]
  have h2 : ((a : Int) * 1000000000).toNat = a * 1000000000 := by omega
  rw [h2]
  have h3 : (((a * 1000000000 : Nat) : Int) + (b : Int)) % 18446744073709551616 =
      ((a * 1000000000 : Nat) : Int) + (b : Int) :=
    Int.emod_eq_of_lt (by omega) (by omega)
  rw [h3]
  omega

theorem total_offset_uint64 (c : ctf_clock) (h : total_offset c < 18446744073709551616) :
    to_uint64 (to_uint64 (c.offset_s * 1000000000) + c.offset) = total_offset c :=
  to_uint64_mul_add c.offset_s c.offset h

theorem same_id_first (u : GQuark) (td key : Nat) (c : ctf_clock) (hu : u ≠ 0)
    (hid : c.uuid = u ∧ c.absolute = false)
    (hoff : total_offset c < 18446744073709551616) :
    (trace_collection_add init_trace_collection (single_clock_trace td key c)).ret = 0 ∧
    same_id_state (trace_collection_add init_trace_collection (single_clock_trace td key c)).tc
      u (total_offset c) 0 1 := by
  obtain ⟨h1, h2⟩ := hid
  have hkey : clock_key c = u := by simp [clock_key, h1, h2]
  have hv : clock_key c ≠ 0 := by rw [hkey]; exact hu
  have hr : trace_collection_add init_trace_collection (single_clock_trace td key c) =
      { ret := 0
        tc := (clock_add key c (⟨[td], [], 0, 0, 0, 0⟩, [])).1
        err := (clock_add key c (⟨[td], [], 0, 0, 0, 0⟩, [])).2 } := by
    simp [trace_collection_add, init_trace_collection, single_clock_trace, g_ptr_array_add,
      g_hash_table_foreach]
  rw [hr]
  obtain ⟨e1, e2, _, e4⟩ := clock_add_new key c (⟨[td], [], 0, 0, 0, 0⟩, []) hv rfl
  obtain ⟨f1, f2, f3, f4⟩ := e4 rfl
  simp only at e1 e2 f1 f2 f3 f4
  refine ⟨rfl, ?_, ?_, ?_, ?_, ?_, ?_⟩
  · simp only
    rw [e1, hkey]
    simp [g_hash_table_lookup, List.lookup]
  · simp only
    rw [e2]
    simp
  · simp only
    rw [f1, total_offset_uint64 c hoff]
  · simp only
    rw [f2]
    rfl
  · simp only
    rw [f3]
    decide
  · simp only
    rw [f4, total_offset_uint64 c hoff]
    have : to_int64 0 = 0 := by decide
    rw [this]
    have : to_int32 1 = 1 := by decide
    rw [this]
    simp only [Int.tdiv_one, add_zero]
    exact (to_uint64_of_lt _ hoff).symm

theorem same_id_step (tc : trace_collection) (u : GQuark) (o1 : Nat) (D k : Int)
    (td key : Nat) (c : ctf_clock) (hu : u ≠ 0)
    (hs : same_id_state tc u o1 D k)
    (hk : 1 ≤ k ∧ k + 1 ≤ 4294967294)
    (hid : c.uuid = u ∧ c.absolute = false)
    (hoff : total_offset c < 18446744073709551616) :
    (trace_collection_add tc (single_clock_trace td key c)).ret = 0 ∧
    same_id_state (trace_collection_add tc (single_clock_trace td key c)).tc
      u o1 (D + ((total_offset c : Int) - (o1 : Int))) (k + 1) := by
  obtain ⟨h1, h2⟩ := hid
  obtain ⟨s1, s2, s3, s4, s5, _⟩ := hs
  have hkey : clock_key c = u := by simp [clock_key, h1, h2]
  have hv : clock_key c ≠ 0 := by rw [hkey]; exact hu
  obtain ⟨rep, hrep⟩ := Option.ne_none_iff_exists'.1 s1
  have hchk : check_clock_match tc.clocks key c none = some rep := by
    simp [check_clock_match, h1, hu, hrep]
  have hr : trace_collection_add tc (single_clock_trace td key c) =
      { ret := 0
        tc := (clock_add key c ({ tc with array := tc.array ++ [td] }, [])).1
        err := (clock_add key c ({ tc with array := tc.array ++ [td] }, [])).2 } := by
    simp [trace_collection_add, single_clock_trace, g_ptr_array_add, g_hash_table_foreach, hchk]
  rw [hr]
  have hl : g_hash_table_lookup
      (({ tc with array := tc.array ++ [td] }, ([] : List diag)).1).clocks (clock_key c) =
      some rep := by
    rw [hkey]; exact hrep
  have hnext : to_int32 (tc.offset_nr + 1) = to_int32 (k + 1) := by
    rw [s5, to_int32_to_int32_add]
  obtain ⟨n0, n1⟩ := to_int32_succ_ne k hk.1 hk.2
  have ht : ¬ merge_traps (({ tc with array := tc.array ++ [td] }, ([] : List diag)).1) c := by
    unfold merge_traps
    simp only
    rw [hnext]
    rintro (h0 | ⟨h0, _⟩)
    · exact n0 h0
    · exact n1 h0
  obtain ⟨e1, e2, e3, e4, e5, e6⟩ := clock_add_old key c rep _ hv hl ht
  simp only at e1 e2 e3 e4 e5
  rw [hnext] at e5
  have hd : (clock_add key c ({ tc with array := tc.array ++ [td] }, [])).1.delta_offset_first_sum
      = to_int64 (D + ((total_offset c : Int) - (o1 : Int))) := by
    rw [e4, total_offset_uint64 c hoff, s3, s4, to_int64_add_to_uint64, to_int64_to_int64_add]
  refine ⟨rfl, ?_, ?_, ?_, ?_, ?_, ?_⟩
  · simp only
    rw [e1]; exact s1
  · simp only
    rw [e2]; simp
  · simp only
    rw [e3]; exact s3
  · exact hd
  · simp only
    rw [e5]
  · simp only
    rw [e6, hd, e5, e3, s3]

theorem same_id_run (u : GQuark) (o1 : Nat) (hu : u ≠ 0) (xs : List (Nat × Nat × ctf_clock)) :
    ∀ (tc : trace_collection) (D k : Int), same_id_state tc u o1 D k →
      1 ≤ k → k + xs.length ≤ 4294967294 →
      (∀ y ∈ xs, y.2.2.uuid = u ∧ y.2.2.absolute = false) →
      (∀ y ∈ xs, total_offset y.2.2 < 18446744073709551616) →
      (∀ r ∈ tc_rets tc (single_clock_calls xs), r = 0) ∧
      same_id_state ((single_clock_calls xs).foldl tc_apply tc) u o1
        (D + delta_sum o1 xs) (k + xs.length) := by
  induction xs with
  | nil =>
    intro tc D k hs _ _ _ _
    refine ⟨?_, ?_⟩
    · intro r hr
      simp [single_clock_calls, tc_rets] at hr
    · simpa [single_clock_calls, delta_sum] using hs
  | cons y rest ih =>
    intro tc D k hs hk1 hk2 hid hoff
    have hlen : (((y :: rest).length : Nat) : Int) = (rest.length : Int) + 1 := by simp
    rw [hlen] at hk2
    obtain ⟨hret, hs'⟩ := same_id_step tc u o1 D k y.1 y.2.1 y.2.2 hu hs ⟨hk1, by omega⟩
      (hid y (List.mem_cons_self _ _)) (hoff y (List.mem_cons_self _ _))
    obtain ⟨hrets, hfin⟩ := ih _ _ _ hs' (by omega) (by omega)
      (fun z hz => hid z (List.mem_cons_of_mem _ hz))
      (fun z hz => hoff z (List.mem_cons_of_mem _ hz))
    refine ⟨?_, ?_⟩
    · intro r hr
      simp only [single_clock_calls, List.map_cons, tc_rets, List.mem_cons] at hr
      rcases hr with hr | hr
      · rw [hr]; exact hret
      · exact hrets r hr
    · simp only [single_clock_calls, List.map_cons, List.foldl_cons, tc_apply]
      have e1 : D + delta_sum o1 (y :: rest) =
          D + ((total_offset y.2.2 : Int) - (o1 : Int)) + delta_sum o1 rest := by
        simp [delta_sum]; ring
      have e2 : k + ((y :: rest).length : Int) = k + 1 + (rest.length : Int) := by
        simp; ring
      rw [e1, e2]
      exact hfin

theorem tdiv_bounds (S n lo hi : Int) (hn : 0 < n) (hlo : 0 ≤ lo) (hhi : 0 ≤ hi)
    (h1 : -(lo * n) ≤ S) (h2 : S ≤ hi * n) : -lo ≤ Int.tdiv S n ∧ Int.tdiv S n ≤ hi := by
  by_cases hS : 0 ≤ S
  · rw [Int.tdiv_eq_ediv hS (le_of_lt hn)]
    have := Int.ediv_nonneg hS (le_of_lt hn)
    have := Int.ediv_le_of_le_mul hn h2
    omega
  · have hneg : S = -(-S) := by ring
    rw [hneg, Int.neg_tdiv, Int.tdiv_eq_ediv (by omega) (le_of_lt hn)]
    have h3 : 0 ≤ (-S) / n := Int.ediv_nonneg (by omega) (le_of_lt hn)
    have h4 : (-S) / n ≤ lo := Int.ediv_le_of_le_mul hn (by omega)
    omega

theorem delta_sum_bounds (o1 : Nat)
    (xs : List (Nat × Nat × ctf_clock))
    (hoff : ∀ y ∈ xs, total_offset y.2.2 < 18446744073709551616) :
    -((o1 : Int) * xs.length) ≤ delta_sum o1 xs ∧
    delta_sum o1 xs ≤ (18446744073709551615 - (o1 : Int)) * xs.length := by
  induction xs with
  | nil => simp [delta_sum]
  | cons y rest ih =>
    obtain ⟨i1, i2⟩ := ih (fun z hz => hoff z (List.mem_cons_of_mem _ hz))
    have hy := hoff y (List.mem_cons_self _ _)
    have e : delta_sum o1 (y :: rest) =
        ((total_offset y.2.2 : Int) - (o1 : Int)) + delta_sum o1 rest := by
      simp [delta_sum]
    have el : (((y :: rest).length : Nat) : Int) = (rest.length : Int) + 1 := by simp
    rw [e, el]
    constructor
    · have : (o1 : Int) * ((rest.length : Int) + 1) = (o1 : Int) * rest.length + o1 := by ring
      rw [this]
      omega
    · have : (18446744073709551615 - (o1 : Int)) * ((rest.length : Int) + 1) =
          (18446744073709551615 - (o1 : Int)) * rest.length + (18446744073709551615 - (o1 : Int)) := by
        ring
      rw [this]
      omega

/-- C4, as stated, fails: a single trace whose clock has
`offset_s = 18446744074` and `offset = 0` is added to a fresh collection; the
total offset is 18446744074000000000 ns, but the product
`offset_s * 1000000000ULL` wraps at `2^64` and `offset_first` (and the
average) is 290448384. -/
theorem clock_add_offset_first_wraps :
    total_offset ⟨7, 1, false, 18446744074, 0⟩ = 18446744074000000000 ∧
    (tc_run (single_clock_calls [(100, 7, ⟨7, 1, false, 18446744074, 0⟩)])).offset_first
      = 290448384 ∧
    (tc_run (single_clock_calls [(100, 7, ⟨7, 1, false, 18446744074, 0⟩)])).offset_first
      ≠ total_offset ⟨7, 1, false, 18446744074, 0⟩ ∧
    (tc_run (single_clock_calls
      [(100, 7, ⟨7, 1, false, 18446744074, 0⟩)])).single_clock_offset_avg
      ≠ total_offset ⟨7, 1, false, 18446744074, 0⟩ := by
  decide

/-- C4, amended: `n` traces with a single non-absolute clock of the same
non-zero UUID are added to a fresh collection, the first with total offset
`o_1`; if `n` is below `2^31` (the counter is an `int`), every total offset
`offset_s * 10^9 + offset` is below `2^64` and the exact sum of the
differences `o_i - o_1` (for `i >= 2`) lies in the `int64_t` range, then
every add returns 0 and the final statistics are `offset_first = o_1`,
`delta_offset_first_sum` = that sum, `offset_nr = n` and
`single_clock_offset_avg = o_1 + delta_offset_first_sum / n` with the
quotient truncated towards zero. -/
theorem same_identity_adds_statistics (u : GQuark) (x : Nat × Nat × ctf_clock)
    (xs : List (Nat × Nat × ctf_clock)) (hu : u ≠ 0)
    (hcount : (x :: xs).length < 2147483648)
    (hid : ∀ y ∈ x :: xs, y.2.2.uuid = u ∧ y.2.2.absolute = false)
    (hoff : ∀ y ∈ x :: xs, total_offset y.2.2 < 18446744073709551616)
    (hlo : -9223372036854775808 ≤ delta_sum (total_offset x.2.2) xs)
    (hhi : delta_sum (total_offset x.2.2) xs < 9223372036854775808) :
    (∀ r ∈ tc_rets init_trace_collection (single_clock_calls (x :: xs)), r = 0) ∧
    (tc_run (single_clock_calls (x :: xs))).offset_first = total_offset x.2.2 ∧
    (tc_run (single_clock_calls (x :: xs))).delta_offset_first_sum =
      delta_sum (total_offset x.2.2) xs ∧
    (tc_run (single_clock_calls (x :: xs))).offset_nr = ((x :: xs).length : Int) ∧
    ((tc_run (single_clock_calls (x :: xs))).single_clock_offset_avg : Int) =
      (total_offset x.2.2 : Int) +
        Int.tdiv (delta_sum (total_offset x.2.2) xs) ((x :: xs).length : Int) := by
  have hx := hoff x (List.mem_cons_self _ _)
  have hlen : (x :: xs).length = xs.length + 1 := List.length_cons x xs
  obtain ⟨hret0, hs0⟩ := same_id_first u x.1 x.2.1 x.2.2 hu (hid x (List.mem_cons_self _ _)) hx
  obtain ⟨hrets, s1, s2, s3, s4, s5, s6⟩ := same_id_run u (total_offset x.2.2) hu xs _ 0 1 hs0
    (by decide) (by omega)
    (fun z hz => hid z (List.mem_cons_of_mem _ hz))
    (fun z hz => hoff z (List.mem_cons_of_mem _ hz))
  have hrun : tc_run (single_clock_calls (x :: xs)) =
      (single_clock_calls xs).foldl tc_apply
        (trace_collection_add init_trace_collection (single_clock_trace x.1 x.2.1 x.2.2)).tc := by
    simp [tc_run, single_clock_calls, tc_apply]
  have hD : to_int64 (0 + delta_sum (total_offset x.2.2) xs) =
      delta_sum (total_offset x.2.2) xs := by
    rw [zero_add]
    exact to_int64_of_range _ hlo hhi
  have hn : (1 : Int) + (xs.length : Int) = ((x :: xs).length : Int) := by
    simp; ring
  have hn32 : to_int32 ((1 : Int) + (xs.length : Int)) = ((x :: xs).length : Int) := by
    rw [hn]
    exact to_int32_of_range _ (by omega) (by omega)
  obtain ⟨b1, b2⟩ := delta_sum_bounds (total_offset x.2.2) xs
    (fun z hz => hoff z (List.mem_cons_of_mem _ hz))
  have hpos : (0 : Int) < ((x :: xs).length : Int) := by omega
  obtain ⟨t1, t2⟩ := tdiv_bounds (delta_sum (total_offset x.2.2) xs) ((x :: xs).length : Int)
    (total_offset x.2.2 : Int) (18446744073709551615 - (total_offset x.2.2 : Int)) hpos
    (by omega) (by omega)
    (by
      have : (total_offset x.2.2 : Int) * ((x :: xs).length : Int) =
          (total_offset x.2.2 : Int) * xs.length + (total_offset x.2.2 : Int) := by
        rw [← hn]; ring
      rw [this]; omega)
    (by
      have : (18446744073709551615 - (total_offset x.2.2 : Int)) * ((x :: xs).length : Int) =
          (18446744073709551615 - (total_offset x.2.2 : Int)) * xs.length +
            (18446744073709551615 - (total_offset x.2.2 : Int)) := by
        rw [← hn]; ring
      rw [this]; omega)
  rw [hrun]
  refine ⟨?_, s3, ?_, ?_, ?_⟩
  · intro r hr
    simp only [single_clock_calls, List.map_cons, tc_rets, List.mem_cons] at hr
    rcases hr with hr | hr
    · rw [hr]; exact hret0
    · exact hrets r hr
  · rw [s4, hD]
  · rw [s5, hn32]
  · rw [s6, hD, hn32]
    exact to_uint64_of_range _ (by omega) (by omega)

/-- An instance of the amended C4: three traces with total offsets 0, 500 and
1000 ns. -/
theorem same_identity_adds_statistics_witness :
    ((1 : GQuark) ≠ 0 ∧
      [((100 : Nat), (7 : Nat), (⟨7, 1, false, 0, 0⟩ : ctf_clock)),
          (101, 7, ⟨7, 1, false, 0, 500⟩), (102, 7, ⟨7, 1, false, 0, 1000⟩)].length
        < 2147483648 ∧
      (∀ y ∈ [((100 : Nat), (7 : Nat), (⟨7, 1, false, 0, 0⟩ : ctf_clock)),
          (101, 7, ⟨7, 1, false, 0, 500⟩), (102, 7, ⟨7, 1, false, 0, 1000⟩)],
        y.2.2.uuid = 1 ∧ y.2.2.absolute = false) ∧
      (∀ y ∈ [((100 : Nat), (7 : Nat), (⟨7, 1, false, 0, 0⟩ : ctf_clock)),
          (101, 7, ⟨7, 1, false, 0, 500⟩), (102, 7, ⟨7, 1, false, 0, 1000⟩)],
        total_offset y.2.2 < 18446744073709551616) ∧
      delta_sum (total_offset ⟨7, 1, false, 0, 0⟩)
        [(101, 7, ⟨7, 1, false, 0, 500⟩), (102, 7, ⟨7, 1, false, 0, 1000⟩)] = 1500) ∧
    ((∀ r ∈ tc_rets init_trace_collection (single_clock_calls
        [(100, 7, ⟨7, 1, false, 0, 0⟩), (101, 7, ⟨7, 1, false, 0, 500⟩),
          (102, 7, ⟨7, 1, false, 0, 1000⟩)]), r = 0) ∧
      (tc_run (single_clock_calls
        [(100, 7, ⟨7, 1, false, 0, 0⟩), (101, 7, ⟨7, 1, false, 0, 500⟩),
          (102, 7, ⟨7, 1, false, 0, 1000⟩)])).offset_first =
        total_offset ⟨7, 1, false, 0, 0⟩ ∧
      (tc_run (single_clock_calls
        [(100, 7, ⟨7, 1, false, 0, 0⟩), (101, 7, ⟨7, 1, false, 0, 500⟩),
          (102, 7, ⟨7, 1, false, 0, 1000⟩)])).delta_offset_first_sum =
        delta_sum (total_offset ⟨7, 1, false, 0, 0⟩)
          [(101, 7, ⟨7, 1, false, 0, 500⟩), (102, 7, ⟨7, 1, false, 0, 1000⟩)] ∧
      (tc_run (single_clock_calls
        [(100, 7, ⟨7, 1, false, 0, 0⟩), (101, 7, ⟨7, 1, false, 0, 500⟩),
          (102, 7, ⟨7, 1, false, 0, 1000⟩)])).offset_nr = 3 ∧
      ((tc_run (single_clock_calls
        [(100, 7, ⟨7, 1, false, 0, 0⟩), (101, 7, ⟨7, 1, false, 0, 500⟩),
          (102, 7, ⟨7, 1, false, 0, 1000⟩)])).single_clock_offset_avg : Int) =
        (total_offset ⟨7, 1, false, 0, 0⟩ : Int) +
          Int.tdiv (delta_sum (total_offset ⟨7, 1, false, 0, 0⟩)
            [(101, 7, ⟨7, 1, false, 0, 500⟩), (102, 7, ⟨7, 1, false, 0, 1000⟩)]) 3) :=
  ⟨⟨by decide, by decide, by decide, by decide, by decide⟩,
    same_identity_adds_statistics 1 (100, 7, ⟨7, 1, false, 0, 0⟩)
      [(101, 7, ⟨7, 1, false, 0, 500⟩), (102, 7, ⟨7, 1, false, 0, 1000⟩)]
      (by decide) (by decide) (by decide) (by decide) (by decide) (by decide)⟩

/-- The two examples of the averaging: total offsets 0 and 500 ns give the
average 250 ns; total offsets 0, 500 and 1000 ns give the sum 1500, the
count 3 and the average 500 ns. -/
theorem same_identity_examples :
    (tc_run (single_clock_calls
      [(100, 7, ⟨7, 1, false, 0, 0⟩), (101, 7, ⟨7, 1, false, 0, 500⟩)])).single_clock_offset_avg
      = 250 ∧
    (tc_run (single_clock_calls
      [(100, 7, ⟨7, 1, false, 0, 0⟩), (101, 7, ⟨7, 1, false, 0, 500⟩),
        (102, 7, ⟨7, 1, false, 0, 1000⟩)])).delta_offset_first_sum = 1500 ∧
    (tc_run (single_clock_calls
      [(100, 7, ⟨7, 1, false, 0, 0⟩), (101, 7, ⟨7, 1, false, 0, 500⟩),
        (102, 7, ⟨7, 1, false, 0, 1000⟩)])).offset_nr = 3 ∧
    (tc_run (single_clock_calls
      [(100, 7, ⟨7, 1, false, 0, 0⟩), (101, 7, ⟨7, 1, false, 0, 500⟩),
        (102, 7, ⟨7, 1, false, 0, 1000⟩)])).single_clock_offset_avg = 500 := by
  decide

/-! ## The stored average -/

/-- C5, as stated, fails: two traces of the identity 1 are added, with total
offsets 0 and `2^63 + 5` ns. The counter is 2, `offset_first` is 0 and the
delta sum, an `int64_t`, is `5 - 2^63`; the quotient by 2 is negative, the
sum is taken in `uint64_t`, and the stored average 13835058055282163715 is
not the integer `offset_first + delta_offset_first_sum / offset_nr`. -/
theorem single_clock_offset_avg_wraps :
    (tc_run [.add (single_clock_trace 100 7 ⟨7, 1, false, 0, 0⟩),
      .add (single_clock_trace 101 7 ⟨7, 1, false, 0, 9223372036854775813⟩)]).offset_nr = 2 ∧
    (tc_run [.add (single_clock_trace 100 7 ⟨7, 1, false, 0, 0⟩),
      .add (single_clock_trace 101 7 ⟨7, 1, false, 0, 9223372036854775813⟩)]).offset_first = 0 ∧
    (tc_run [.add (single_clock_trace 100 7 ⟨7, 1, false, 0, 0⟩),
      .add (single_clock_trace 101 7
        ⟨7, 1, false, 0, 9223372036854775813⟩)]).delta_offset_first_sum
      = -9223372036854775803 ∧
    (tc_run [.add (single_clock_trace 100 7 ⟨7, 1, false, 0, 0⟩),
      .add (single_clock_trace 101 7
        ⟨7, 1, false, 0, 9223372036854775813⟩)]).single_clock_offset_avg
      = 13835058055282163715 ∧
    ((tc_run [.add (single_clock_trace 100 7 ⟨7, 1, false, 0, 0⟩),
      .add (single_clock_trace 101 7
        ⟨7, 1, false, 0, 9223372036854775813⟩)]).single_clock_offset_avg : Int) ≠
      ((tc_run [.add (single_clock_trace 100 7 ⟨7, 1, false, 0, 0⟩),
        .add (single_clock_trace 101 7
          ⟨7, 1, false, 0, 9223372036854775813⟩)]).offset_first : Int) +
        Int.tdiv
          (tc_run [.add (single_clock_trace 100 7 ⟨7, 1, false, 0, 0⟩),
            .add (single_clock_trace 101 7
              ⟨7, 1, false, 0, 9223372036854775813⟩)]).delta_offset_first_sum
          (tc_run [.add (single_clock_trace 100 7 ⟨7, 1, false, 0, 0⟩),
            .add (single_clock_trace 101 7
              ⟨7, 1, false, 0, 9223372036854775813⟩)]).offset_nr := by
  decide

/-- C5, amended: in every collection reached from `init_trace_collection` by
`trace_collection_add` and `trace_collection_remove` calls, whatever they
returned and whatever clocks the traces carry, if `offset_nr >= 1` then
`single_clock_offset_avg` is the value of
`offset_first + delta_offset_first_sum / offset_nr` as the program evaluates
it (truncating quotient, sum in `uint64_t`): it is that integer reduced
modulo `2^64`, and it is that integer itself whenever the integer lies in
the `uint64_t` range. -/
theorem single_clock_offset_avg_invariant (calls : List tc_call)
    (h : 1 ≤ (tc_run calls).offset_nr) :
    (tc_run calls).single_clock_offset_avg = offset_avg_expr (tc_run calls) ∧
    ((tc_run calls).single_clock_offset_avg : Int) =
      (((tc_run calls).offset_first : Int) +
        Int.tdiv (tc_run calls).delta_offset_first_sum (tc_run calls).offset_nr)
        % 18446744073709551616 ∧
    (0 ≤ ((tc_run calls).offset_first : Int) +
        Int.tdiv (tc_run calls).delta_offset_first_sum (tc_run calls).offset_nr →
      ((tc_run calls).offset_first : Int) +
        Int.tdiv (tc_run calls).delta_offset_first_sum (tc_run calls).offset_nr
        < 18446744073709551616 →
      ((tc_run calls).single_clock_offset_avg : Int) =
        ((tc_run calls).offset_first : Int) +
          Int.tdiv (tc_run calls).delta_offset_first_sum (tc_run calls).offset_nr) := by
  have havg := (tc_inv_run calls).2.2.2.2 h
  refine ⟨havg, ?_, ?_⟩
  · rw [havg]
    unfold offset_avg_expr to_uint64
    omega
  · intro h0 h1
    rw [havg]
    exact to_uint64_of_range _ h0 h1

/-- An instance of the amended C5: a run with two identities in the first
trace, a merge, a rejected trace and a removal; the average is 250. -/
theorem single_clock_offset_avg_invariant_witness :
    1 ≤ (tc_run [.add ⟨100, [(7, ⟨7, 1, false, 0, 0⟩), (8, ⟨8, 2, false, 3, 0⟩)]⟩,
        .add (single_clock_trace 101 7 ⟨7, 1, false, 0, 500⟩),
        .add (single_clock_trace 102 9 ⟨9, 3, false, 0, 0⟩),
        .remove 100]).offset_nr ∧
    (tc_run [.add ⟨100, [(7, ⟨7, 1, false, 0, 0⟩), (8, ⟨8, 2, false, 3, 0⟩)]⟩,
        .add (single_clock_trace 101 7 ⟨7, 1, false, 0, 500⟩),
        .add (single_clock_trace 102 9 ⟨9, 3, false, 0, 0⟩),
        .remove 100]).single_clock_offset_avg =
      offset_avg_expr (tc_run [.add ⟨100, [(7, ⟨7, 1, false, 0, 0⟩), (8, ⟨8, 2, false, 3, 0⟩)]⟩,
        .add (single_clock_trace 101 7 ⟨7, 1, false, 0, 500⟩),
        .add (single_clock_trace 102 9 ⟨9, 3, false, 0, 0⟩),
        .remove 100]) ∧
    (tc_run [.add ⟨100, [(7, ⟨7, 1, false, 0, 0⟩), (8, ⟨8, 2, false, 3, 0⟩)]⟩,
        .add (single_clock_trace 101 7 ⟨7, 1, false, 0, 500⟩),
        .add (single_clock_trace 102 9 ⟨9, 3, false, 0, 0⟩),
        .remove 100]).single_clock_offset_avg = 250 :=
  ⟨by decide,
    (single_clock_offset_avg_invariant
      [.add ⟨100, [(7, ⟨7, 1, false, 0, 0⟩), (8, ⟨8, 2, false, 3, 0⟩)]⟩,
        .add (single_clock_trace 101 7 ⟨7, 1, false, 0, 500⟩),
        .add (single_clock_trace 102 9 ⟨9, 3, false, 0, 0⟩),
        .remove 100] (by decide)).1,
    by decide⟩

/-! ## The offset warning -/

/-- C6: the representative of identity 1 has total offset 0 and the merged
clock has total offset 10001 ns, so the difference is 10001 ns in absolute
value, and no line is written to `stderr`; with the two offsets exchanged
the warning is written. -/
theorem clock_add_no_warning_for_larger_offset :
    (trace_collection_add
        (tc_run [.add (single_clock_trace 100 7 ⟨7, 1, false, 0, 0⟩)])
        (single_clock_trace 101 7 ⟨7, 1, false, 0, 10001⟩)).ret = 0 ∧
    (trace_collection_add
        (tc_run [.add (single_clock_trace 100 7 ⟨7, 1, false, 0, 0⟩)])
        (single_clock_trace 101 7 ⟨7, 1, false, 0, 10001⟩)).err = [] ∧
    (trace_collection_add
        (tc_run [.add (single_clock_trace 100 7 ⟨7, 1, false, 0, 10001⟩)])
        (single_clock_trace 101 7 ⟨7, 1, false, 0, 0⟩)).err =
      [diag.warning_offset_differs 7 10001] := by
  decide

/-! ## A second clock identity -/

theorem foreach_append {α σ : Type} (pre post : GHashTable α) (f : Nat → α → σ → σ) (s : σ) :
    g_hash_table_foreach (pre ++ post) f s =
      g_hash_table_foreach post f (g_hash_table_foreach pre f s) := by
  simp [g_hash_table_foreach, List.foldl_append]

theorem tc_inv_state_before (tc : trace_collection) (td : Nat) (pre : GHashTable ctf_clock)
    (h : tc_inv tc) : tc_inv (clock_add_state_before tc td pre).1 :=
  tc_inv_foreach_clock_add pre _ (tc_inv_array tc _ h)

/-- C7, as stated, fails: the first trace of a collection carries two clocks
of different identities (UUID quarks 1 and 2). When the second one is
processed the registry holds identity 1 only and key 2 is not registered; the
add returns 0 and the registry goes from one entry to two: the clock is
inserted. -/
theorem clock_add_second_identity_inserted :
    (clock_add_state_before init_trace_collection 100 [(7, ⟨7, 1, false, 0, 0⟩)]).1.clocks =
      [(1, ⟨7, 1, false, 0, 0⟩)] ∧
    g_hash_table_lookup
      (clock_add_state_before init_trace_collection 100 [(7, ⟨7, 1, false, 0, 0⟩)]).1.clocks
      (clock_key ⟨8, 2, false, 5, 0⟩) = none ∧
    (clock_add 8 ⟨8, 2, false, 5, 0⟩
      (clock_add_state_before init_trace_collection 100 [(7, ⟨7, 1, false, 0, 0⟩)])).1.clocks =
      [(1, ⟨7, 1, false, 0, 0⟩), (2, ⟨8, 2, false, 5, 0⟩)] ∧
    (trace_collection_add init_trace_collection
      ⟨100, [(7, ⟨7, 1, false, 0, 0⟩), (8, ⟨8, 2, false, 5, 0⟩)]⟩).ret = 0 ∧
    (trace_collection_add init_trace_collection
      ⟨100, [(7, ⟨7, 1, false, 0, 0⟩), (8, ⟨8, 2, false, 5, 0⟩)]⟩).tc.clocks ≠
      (clock_add_state_before init_trace_collection 100 [(7, ⟨7, 1, false, 0, 0⟩)]).1.clocks := by
  decide

/-- C7, amended: a trace `td` with clock table `pre ++ (key, c) :: post` is
added to a collection reached from `init_trace_collection`, and the call gets
past the correlation check. If, when `clock_add` processes `c`, the identity
key of `c` is non-zero and not registered while the registry is not empty,
then the call returns 0, its result is the one of carrying on with `post`,
the four running statistics are unchanged by `c`, the single-clock error
line is written, and the registry after `c` is the registry before `c`
followed by one new entry: `c` under its key. -/
theorem clock_add_second_identity (calls : List tc_call) (td key : Nat) (c : ctf_clock)
    (pre post : GHashTable ctf_clock)
    (hpass : (trace_collection_add (tc_run calls) ⟨td, pre ++ (key, c) :: post⟩).ret ≠ -EPERM)
    (hv : clock_key c ≠ 0)
    (hnew : g_hash_table_lookup (clock_add_state_before (tc_run calls) td pre).1.clocks
      (clock_key c) = none)
    (hne : (clock_add_state_before (tc_run calls) td pre).1.clocks ≠ []) :
    (trace_collection_add (tc_run calls) ⟨td, pre ++ (key, c) :: post⟩).ret = 0 ∧
    (trace_collection_add (tc_run calls) ⟨td, pre ++ (key, c) :: post⟩).tc =
      (g_hash_table_foreach post clock_add
        (clock_add key c (clock_add_state_before (tc_run calls) td pre))).1 ∧
    (clock_add key c (clock_add_state_before (tc_run calls) td pre)).1.clocks =
      (clock_add_state_before (tc_run calls) td pre).1.clocks ++ [(clock_key c, c)] ∧
    (clock_add key c (clock_add_state_before (tc_run calls) td pre)).1.offset_first =
      (clock_add_state_before (tc_run calls) td pre).1.offset_first ∧
    (clock_add key c (clock_add_state_before (tc_run calls) td pre)).1.delta_offset_first_sum =
      (clock_add_state_before (tc_run calls) td pre).1.delta_offset_first_sum ∧
    (clock_add key c (clock_add_state_before (tc_run calls) td pre)).1.offset_nr =
      (clock_add_state_before (tc_run calls) td pre).1.offset_nr ∧
    (clock_add key c (clock_add_state_before (tc_run calls) td pre)).1.single_clock_offset_avg =
      (clock_add_state_before (tc_run calls) td pre).1.single_clock_offset_avg ∧
    (clock_add key c (clock_add_state_before (tc_run calls) td pre)).2 =
      (clock_add_state_before (tc_run calls) td pre).2 ++ [diag.error_single_clock] := by
  have hinv := tc_inv_state_before (tc_run calls) td pre (tc_inv_run calls)
  have hnr : (clock_add_state_before (tc_run calls) td pre).1.offset_nr ≠ 0 := by
    have := hinv.2.2.2.1 hne
    omega
  obtain ⟨e1, _, e3, _⟩ := clock_add_new key c _ hv hnew
  obtain ⟨f1, f2, f3, f4⟩ := e3 hnr
  have herr : (clock_add key c (clock_add_state_before (tc_run calls) td pre)).2 =
      (clock_add_state_before (tc_run calls) td pre).2 ++ [diag.error_single_clock] := by
    have hsz : g_hash_table_size (clock_add_state_before (tc_run calls) td pre).1.clocks > 0 := by
      unfold g_hash_table_size
      exact List.length_pos.2 hne
    unfold clock_key at hv hnew
    simp [clock_add, hv, hnew, hsz]
  have hsplit : ∀ s : trace_collection × List diag,
      g_hash_table_foreach (pre ++ (key, c) :: post) clock_add s =
        g_hash_table_foreach post clock_add
          (clock_add key c (g_hash_table_foreach pre clock_add s)) := by
    intro s
    rw [foreach_append]
    simp [g_hash_table_foreach]
  have hret : (trace_collection_add (tc_run calls) ⟨td, pre ++ (key, c) :: post⟩).ret = 0 ∧
      (trace_collection_add (tc_run calls) ⟨td, pre ++ (key, c) :: post⟩).tc =
        (g_hash_table_foreach post clock_add
          (clock_add key c (clock_add_state_before (tc_run calls) td pre))).1 := by
    unfold trace_collection_add at hpass ⊢
    simp only at hpass ⊢
    split
    · rename_i hc
      rw [if_pos hc] at hpass
      exact absurd rfl hpass
    · refine ⟨rfl, ?_⟩
      simp only
      rw [hsplit]
      rfl
  exact ⟨hret.1, hret.2, e1, f1, f2, f3, f4, herr⟩

/-- An instance of the amended C7: the second trace carries a clock of the
registered identity 1 and then a clock of the new identity 2. -/
theorem clock_add_second_identity_witness :
    ((trace_collection_add (tc_run [.add (single_clock_trace 100 7 ⟨7, 1, false, 0, 0⟩)])
        ⟨101, [(7, ⟨7, 1, false, 0, 500⟩)] ++ (8, ⟨8, 2, false, 5, 0⟩) :: []⟩).ret ≠ -EPERM ∧
      clock_key ⟨8, 2, false, 5, 0⟩ ≠ 0 ∧
      g_hash_table_lookup
        (clock_add_state_before (tc_run [.add (single_clock_trace 100 7 ⟨7, 1, false, 0, 0⟩)])
          101 [(7, ⟨7, 1, false, 0, 500⟩)]).1.clocks (clock_key ⟨8, 2, false, 5, 0⟩) = none ∧
      (clock_add_state_before (tc_run [.add (single_clock_trace 100 7 ⟨7, 1, false, 0, 0⟩)])
          101 [(7, ⟨7, 1, false, 0, 500⟩)]).1.clocks ≠ []) ∧
    (trace_collection_add (tc_run [.add (single_clock_trace 100 7 ⟨7, 1, false, 0, 0⟩)])
        ⟨101, [(7, ⟨7, 1, false, 0, 500⟩)] ++ (8, ⟨8, 2, false, 5, 0⟩) :: []⟩).ret = 0 ∧
    (clock_add 8 ⟨8, 2, false, 5, 0⟩
      (clock_add_state_before (tc_run [.add (single_clock_trace 100 7 ⟨7, 1, false, 0, 0⟩)])
          101 [(7, ⟨7, 1, false, 0, 500⟩)])).1.clocks =
      (clock_add_state_before (tc_run [.add (single_clock_trace 100 7 ⟨7, 1, false, 0, 0⟩)])
          101 [(7, ⟨7, 1, false, 0, 500⟩)]).1.clocks ++
        [(clock_key ⟨8, 2, false, 5, 0⟩, ⟨8, 2, false, 5, 0⟩)] ∧
    (clock_add 8 ⟨8, 2, false, 5, 0⟩
      (clock_add_state_before (tc_run [.add (single_clock_trace 100 7 ⟨7, 1, false, 0, 0⟩)])
          101 [(7, ⟨7, 1, false, 0, 500⟩)])).1.single_clock_offset_avg = 250 :=
  ⟨⟨by decide, by decide, by decide, by decide⟩,
    (clock_add_second_identity [.add (single_clock_trace 100 7 ⟨7, 1, false, 0, 0⟩)]
      101 8 ⟨8, 2, false, 5, 0⟩ [(7, ⟨7, 1, false, 0, 500⟩)] []
      (by decide) (by decide) (by decide) (by decide)).1,
    (clock_add_second_identity [.add (single_clock_trace 100 7 ⟨7, 1, false, 0, 0⟩)]
      101 8 ⟨8, 2, false, 5, 0⟩ [(7, ⟨7, 1, false, 0, 500⟩)] []
      (by decide) (by decide) (by decide) (by decide)).2.2.1,
    by decide⟩

/-! ## Removing a trace -/

theorem g_ptr_array_remove_absent (array : List Nat) (data : Nat) (h : data ∉ array) :
    g_ptr_array_remove array data = (false, array) := by
  induction array with
  | nil => rfl
  | cons p rest ih =>
    have hp : ¬ p = data := fun e => h (by simp [e])
    have hrest : data ∉ rest := fun e => h (List.mem_cons_of_mem _ e)
    simp [g_ptr_array_remove, hp, ih hrest]

/-- C8: for every collection and every trace descriptor that is not in its
array, `trace_collection_remove` returns `-1` and the array, hence its length
and its elements in order, is unchanged (and so is the whole collection). -/
theorem trace_collection_remove_absent (tc : trace_collection) (td : Nat)
    (h : td ∉ tc.array) :
    (trace_collection_remove tc td).ret = -1 ∧
    (trace_collection_remove tc td).tc.array = tc.array ∧
    (trace_collection_remove tc td).tc.array.length = tc.array.length ∧
    (trace_collection_remove tc td).tc = tc := by
  unfold trace_collection_remove
  rw [g_ptr_array_remove_absent tc.array td h]
  simp

/-- An instance of C8: descriptor 103 is removed from a collection holding 100
and 101. -/
theorem trace_collection_remove_absent_witness :
    103 ∉ (tc_run [.add (single_clock_trace 100 7 ⟨7, 1, false, 0, 0⟩),
        .add (single_clock_trace 101 7 ⟨7, 1, false, 0, 500⟩)]).array ∧
    (trace_collection_remove (tc_run [.add (single_clock_trace 100 7 ⟨7, 1, false, 0, 0⟩),
        .add (single_clock_trace 101 7 ⟨7, 1, false, 0, 500⟩)]) 103).ret = -1 ∧
    (trace_collection_remove (tc_run [.add (single_clock_trace 100 7 ⟨7, 1, false, 0, 0⟩),
        .add (single_clock_trace 101 7 ⟨7, 1, false, 0, 500⟩)]) 103).tc.array = [100, 101] :=
  ⟨by decide,
    (trace_collection_remove_absent (tc_run [.add (single_clock_trace 100 7 ⟨7, 1, false, 0, 0⟩),
        .add (single_clock_trace 101 7 ⟨7, 1, false, 0, 500⟩)]) 103 (by decide)).1,
    (trace_collection_remove_absent (tc_run [.add (single_clock_trace 100 7 ⟨7, 1, false, 0, 0⟩),
        .add (single_clock_trace 101 7 ⟨7, 1, false, 0, 500⟩)]) 103 (by decide)).2.1⟩

/-! ## Structure types: field lookup -/

theorem struct_add_fields_snoc (s : type_class_struct) (l : List (GQuark × type_class))
    (a : GQuark × type_class) :
    struct_add_fields s (l ++ [a]) = struct_type_add_field (struct_add_fields s l) a.1 a.2 := by
  simp [struct_add_fields, List.foldl_append]

theorem struct_add_fields_fields (s : type_class_struct) (l : List (GQuark × type_class)) :
    (struct_add_fields s l).fields =
      s.fields ++ l.map (fun a => { name := a.1, type_class := a.2 }) := by
  induction l using List.reverseRecOn with
  | nil => simp [struct_add_fields]
  | append_singleton l a ih =>
    rw [struct_add_fields_snoc]
    simp [struct_type_add_field, ih]

theorem struct_type_new_empty (name : GQuark) (reg : type_class → Int) (s0 : type_class_struct)
    (h : struct_type_new name reg = some s0) :
    s0.fields = [] ∧ s0.fields_by_name = [] ∧ s0.p.alignment = 1 := by
  unfold struct_type_new at h
  simp only at h
  split at h
  · split at h
    · simp at h
    · simp only [Option.some.injEq] at h
      subst h
      exact ⟨rfl, rfl, rfl⟩
  · simp only [Option.some.injEq] at h
    subst h
    exact ⟨rfl, rfl, rfl⟩

theorem struct_lookup_snoc (s0 : type_class_struct) (h0 : s0.fields = [])
    (l : List (GQuark × type_class)) (a : GQuark × type_class) (n : GQuark) :
    g_hash_table_lookup (struct_add_fields s0 (l ++ [a])).fields_by_name n =
      if n = a.1 then some l.length
      else g_hash_table_lookup (struct_add_fields s0 l).fields_by_name n := by
  rw [struct_add_fields_snoc]
  simp only [struct_type_add_field]
  rw [g_hash_table_lookup_insert, struct_add_fields_fields, h0]
  simp

theorem struct_lookup_absent (s0 : type_class_struct) (h0 : s0.fields = [])
    (h1 : s0.fields_by_name = []) (l : List (GQuark × type_class)) (n : GQuark)
    (hn : n ∉ l.map Prod.fst) :
    g_hash_table_lookup (struct_add_fields s0 l).fields_by_name n = none := by
  induction l using List.reverseRecOn with
  | nil => simp [struct_add_fields, h1, g_hash_table_lookup, List.lookup]
  | append_singleton l a ih =>
    rw [struct_lookup_snoc s0 h0]
    simp only [List.map_append, List.map_cons, List.map_nil, List.mem_append,
      List.mem_singleton, not_or] at hn
    rw [if_neg hn.2]
    exact ih hn.1

theorem struct_lookup_valid (s0 : type_class_struct) (h0 : s0.fields = [])
    (h1 : s0.fields_by_name = []) (l : List (GQuark × type_class)) (n : GQuark) (i : Nat)
    (hl : g_hash_table_lookup (struct_add_fields s0 l).fields_by_name n = some i) :
    ∃ a, l[i]? = some a ∧ a.1 = n := by
  induction l using List.reverseRecOn with
  | nil => simp [struct_add_fields, h1, g_hash_table_lookup, List.lookup] at hl
  | append_singleton l a ih =>
    rw [struct_lookup_snoc s0 h0] at hl
    by_cases hn : n = a.1
    · rw [if_pos hn] at hl
      simp only [Option.some.injEq] at hl
      subst hl
      exact ⟨a, by simp, hn.symm⟩
    · rw [if_neg hn] at hl
      obtain ⟨b, hb, hbn⟩ := ih hl
      have hi : i < l.length := by
        by_contra hc
        rw [List.getElem?_eq_none (by omega)] at hb
        simp at hb
      exact ⟨b, by rw [List.getElem?_append_left hi]; exact hb, hbn⟩

theorem struct_lookup_present (s0 : type_class_struct) (h0 : s0.fields = [])
    (l : List (GQuark × type_class)) (n : GQuark) (hn : n ∈ l.map Prod.fst) :
    ∃ i, g_hash_table_lookup (struct_add_fields s0 l).fields_by_name n = some i := by
  induction l using List.reverseRecOn with
  | nil => simp at hn
  | append_singleton l a ih =>
    rw [struct_lookup_snoc s0 h0]
    by_cases hna : n = a.1
    · exact ⟨l.length, by rw [if_pos hna]⟩
    · rw [if_neg hna]
      simp only [List.map_append, List.map_cons, List.map_nil, List.mem_append,
        List.mem_singleton] at hn
      rcases hn with hn | hn
      · exact ih hn
      · exact absurd hn hna

theorem struct_lookup_last (s0 : type_class_struct) (h0 : s0.fields = [])
    (l : List (GQuark × type_class)) (i : Nat) (a : GQuark × type_class)
    (hi : l[i]? = some a)
    (hlast : ∀ j b, i < j → l[j]? = some b → b.1 ≠ a.1) :
    g_hash_table_lookup (struct_add_fields s0 l).fields_by_name a.1 = some i := by
  induction l using List.reverseRecOn with
  | nil => simp at hi
  | append_singleton l x ih =>
    rw [struct_lookup_snoc s0 h0]
    by_cases hlt : i < l.length
    · rw [List.getElem?_append_left hlt] at hi
      have hx : x.1 ≠ a.1 := hlast l.length x hlt (by simp)
      rw [if_neg (fun e => hx e.symm)]
      refine ih hi ?_
      intro j b hij hb
      have hj : j < l.length := by
        by_contra hc
        rw [List.getElem?_eq_none (by omega)] at hb
        simp at hb
      exact hlast j b hij (by rw [List.getElem?_append_left hj]; exact hb)
    · have hlen : i = l.length := by
        by_contra hc
        rw [List.getElem?_eq_none (by simp; omega)] at hi
        simp at hi
      subst hlen
      simp only [List.getElem?_concat_length, Option.some.injEq] at hi
      subst hi
      simp

/-- C9, as stated, fails: in the structure with the single field of name
quark 1, looking up quark 2, which was never added, returns 0, and looking up
quark 1, the name of the first field, returns 0 too. -/
theorem struct_type_lookup_absent_same_as_first :
    struct_type_new 9 (fun _ => 0) =
      some { p := { name := 9, alignment := 1 }, fields_by_name := [], fields := [] } ∧
    (2 : GQuark) ∉ [((1 : GQuark), ({ name := 3, alignment := 8 } : type_class))].map Prod.fst ∧
    struct_type_lookup_field_index
      (struct_add_fields { p := { name := 9, alignment := 1 }, fields_by_name := [], fields := [] }
        [(1, { name := 3, alignment := 8 })]) 2 = 0 ∧
    struct_type_lookup_field_index
      (struct_add_fields { p := { name := 9, alignment := 1 }, fields_by_name := [], fields := [] }
        [(1, { name := 3, alignment := 8 })]) 1 = 0 ∧
    ¬ (struct_type_lookup_field_index
      (struct_add_fields { p := { name := 9, alignment := 1 }, fields_by_name := [], fields := [] }
        [(1, { name := 3, alignment := 8 })]) 2 ≠
      struct_type_lookup_field_index
      (struct_add_fields { p := { name := 9, alignment := 1 }, fields_by_name := [], fields := [] }
        [(1, { name := 3, alignment := 8 })]) 1) := by
  decide

/-- C9, amended: for every structure built from a new structure by
`struct_type_add_field` calls and every name never passed to one of them,
`struct_type_lookup_field_index` returns 0. For an added name whose last add
is the call at position `i`, the lookup returns `i`; so the result for the
unknown name differs from it when `i >= 1`, and is equal to it when `i = 0`:
not found is told apart from every valid index except index 0. -/
theorem struct_type_lookup_absent (name : GQuark) (reg : type_class → Int)
    (s0 : type_class_struct) (adds : List (GQuark × type_class)) (n : GQuark)
    (hnew : struct_type_new name reg = some s0) (habs : n ∉ adds.map Prod.fst) :
    struct_type_lookup_field_index (struct_add_fields s0 adds) n = 0 ∧
    ∀ i a, adds[i]? = some a → (∀ j b, i < j → adds[j]? = some b → b.1 ≠ a.1) →
      struct_type_lookup_field_index (struct_add_fields s0 adds) a.1 = i ∧
      (0 < i → struct_type_lookup_field_index (struct_add_fields s0 adds) a.1 ≠
        struct_type_lookup_field_index (struct_add_fields s0 adds) n) ∧
      (i = 0 → struct_type_lookup_field_index (struct_add_fields s0 adds) a.1 =
        struct_type_lookup_field_index (struct_add_fields s0 adds) n) := by
  obtain ⟨h0, h1, _⟩ := struct_type_new_empty name reg s0 hnew
  have hn : struct_type_lookup_field_index (struct_add_fields s0 adds) n = 0 := by
    unfold struct_type_lookup_field_index
    rw [struct_lookup_absent s0 h0 h1 adds n habs]
  refine ⟨hn, ?_⟩
  intro i a hi hlast
  have ha : struct_type_lookup_field_index (struct_add_fields s0 adds) a.1 = i := by
    unfold struct_type_lookup_field_index
    rw [struct_lookup_last s0 h0 adds i a hi hlast]
  rw [ha, hn]
  exact ⟨rfl, fun h => by omega, fun h => h⟩

/-- An instance of the amended C9: fields named by quarks 1 and 2, unknown
quark 5. -/
theorem struct_type_lookup_absent_witness :
    (struct_type_new 9 (fun _ => 0) =
        some { p := { name := 9, alignment := 1 }, fields_by_name := [], fields := [] } ∧
      (5 : GQuark) ∉ [((1 : GQuark), ({ name := 3, alignment := 8 } : type_class)),
        (2, { name := 4, alignment := 32 })].map Prod.fst) ∧
    struct_type_lookup_field_index
      (struct_add_fields { p := { name := 9, alignment := 1 }, fields_by_name := [], fields := [] }
        [(1, { name := 3, alignment := 8 }), (2, { name := 4, alignment := 32 })]) 5 = 0 ∧
    struct_type_lookup_field_index
      (struct_add_fields { p := { name := 9, alignment := 1 }, fields_by_name := [], fields := [] }
        [(1, { name := 3, alignment := 8 }), (2, { name := 4, alignment := 32 })]) 2 = 1 :=
  ⟨⟨by decide, by decide⟩,
    (struct_type_lookup_absent 9 (fun _ => 0)
      { p := { name := 9, alignment := 1 }, fields_by_name := [], fields := [] }
      [(1, { name := 3, alignment := 8 }), (2, { name := 4, alignment := 32 })] 5
      (by decide) (by decide)).1,
    ((struct_type_lookup_absent 9 (fun _ => 0)
      { p := { name := 9, alignment := 1 }, fields_by_name := [], fields := [] }
      [(1, { name := 3, alignment := 8 }), (2, { name := 4, alignment := 32 })] 5
      (by decide) (by decide)).2 1 (2, { name := 4, alignment := 32 }) (by decide)
      (by
        intro j b hj hb
        have : ([((1 : GQuark), ({ name := 3, alignment := 8 } : type_class)),
            (2, { name := 4, alignment := 32 })])[j]? = none :=
          List.getElem?_eq_none (by simp; omega)
        rw [this] at hb
        simp at hb)).1⟩

/-- C10: for every structure built from a new structure by any sequence of
`struct_type_add_field` calls, names possibly repeated, and every name `n`
passed to one of them, `struct_type_lookup_field_index` returns an index
below the number of fields, `struct_type_get_field_from_index` at that index
yields a field whose name is `n`, and when the added names are pairwise
distinct the index is the position of the call that added `n`. -/
theorem struct_type_lookup_round_trip (name : GQuark) (reg : type_class → Int)
    (s0 : type_class_struct) (adds : List (GQuark × type_class)) (n : GQuark)
    (hnew : struct_type_new name reg = some s0) (hn : n ∈ adds.map Prod.fst) :
    struct_type_lookup_field_index (struct_add_fields s0 adds) n <
      (struct_add_fields s0 adds).fields.length ∧
    (struct_type_get_field_from_index (struct_add_fields s0 adds)
      (struct_type_lookup_field_index (struct_add_fields s0 adds) n)).map field.name = some n ∧
    ((adds.map Prod.fst).Nodup → ∀ i, (adds.map Prod.fst)[i]? = some n →
      struct_type_lookup_field_index (struct_add_fields s0 adds) n = i) := by
  obtain ⟨h0, h1, _⟩ := struct_type_new_empty name reg s0 hnew
  obtain ⟨k, hk⟩ := struct_lookup_present s0 h0 adds n hn
  obtain ⟨a, hak, han⟩ := struct_lookup_valid s0 h0 h1 adds n k hk
  have hidx : struct_type_lookup_field_index (struct_add_fields s0 adds) n = k := by
    unfold struct_type_lookup_field_index
    rw [hk]
  have hklt : k < adds.length := by
    by_contra hc
    rw [List.getElem?_eq_none (by omega)] at hak
    simp at hak
  rw [hidx]
  refine ⟨?_, ?_, ?_⟩
  · rw [struct_add_fields_fields, h0]
    simpa using hklt
  · unfold struct_type_get_field_from_index
    rw [struct_add_fields_fields, h0]
    simp [hak, han]
  · intro hnd i hi
    have hkn : (adds.map Prod.fst)[k]? = some n := by simp [hak, han]
    have hilt : i < (adds.map Prod.fst).length := by
      by_contra hc
      rw [List.getElem?_eq_none (by omega)] at hi
      simp at hi
    have hklt' : k < (adds.map Prod.fst).length := by simpa using hklt
    have e1 : (adds.map Prod.fst)[k] = n := by
      rw [List.getElem?_eq_getElem hklt'] at hkn
      simpa using hkn
    have e2 : (adds.map Prod.fst)[i] = n := by
      rw [List.getElem?_eq_getElem hilt] at hi
      simpa using hi
    exact (List.Nodup.getElem_inj_iff hnd).1 (e1.trans e2.symm)

/-- An instance of C10: the name of quark 1 is added at positions 0 and 2. -/
theorem struct_type_lookup_round_trip_witness :
    (struct_type_new 9 (fun _ => 0) =
        some { p := { name := 9, alignment := 1 }, fields_by_name := [], fields := [] } ∧
      (1 : GQuark) ∈ [((1 : GQuark), ({ name := 3, alignment := 8 } : type_class)),
        (2, { name := 4, alignment := 32 }), (1, { name := 5, alignment := 16 })].map Prod.fst) ∧
    struct_type_lookup_field_index
      (struct_add_fields { p := { name := 9, alignment := 1 }, fields_by_name := [], fields := [] }
        [(1, { name := 3, alignment := 8 }), (2, { name := 4, alignment := 32 }),
          (1, { name := 5, alignment := 16 })]) 1 <
      (struct_add_fields { p := { name := 9, alignment := 1 }, fields_by_name := [], fields := [] }
        [(1, { name := 3, alignment := 8 }), (2, { name := 4, alignment := 32 }),
          (1, { name := 5, alignment := 16 })]).fields.length ∧
    (struct_type_get_field_from_index
      (struct_add_fields { p := { name := 9, alignment := 1 }, fields_by_name := [], fields := [] }
        [(1, { name := 3, alignment := 8 }), (2, { name := 4, alignment := 32 }),
          (1, { name := 5, alignment := 16 })])
      (struct_type_lookup_field_index
        (struct_add_fields
          { p := { name := 9, alignment := 1 }, fields_by_name := [], fields := [] }
          [(1, { name := 3, alignment := 8 }), (2, { name := 4, alignment := 32 }),
            (1, { name := 5, alignment := 16 })]) 1)).map field.name = some 1 :=
  ⟨⟨by decide, by decide⟩,
    (struct_type_lookup_round_trip 9 (fun _ => 0)
      { p := { name := 9, alignment := 1 }, fields_by_name := [], fields := [] }
      [(1, { name := 3, alignment := 8 }), (2, { name := 4, alignment := 32 }),
        (1, { name := 5, alignment := 16 })] 1 (by decide) (by decide)).1,
    (struct_type_lookup_round_trip 9 (fun _ => 0)
      { p := { name := 9, alignment := 1 }, fields_by_name := [], fields := [] }
      [(1, { name := 3, alignment := 8 }), (2, { name := 4, alignment := 32 }),
        (1, { name := 5, alignment := 16 })] 1 (by decide) (by decide)).2.1⟩

/-! ## Structure types: alignment -/

theorem struct_add_fields_alignment (s : type_class_struct) (l : List (GQuark × type_class)) :
    (struct_add_fields s l).p.alignment =
      (l.map (fun a => a.2.alignment)).foldl max s.p.alignment := by
  induction l generalizing s with
  | nil => rfl
  | cons a rest ih =>
    simp only [struct_add_fields, List.foldl_cons, List.map_cons] at ih ⊢
    rw [ih]
    rfl

theorem foldl_max_le (l : List Nat) (m : Nat) : m ≤ l.foldl max m := by
  induction l generalizing m with
  | nil => exact le_refl _
  | cons a rest ih =>
    simp only [List.foldl_cons]
    exact le_trans (le_max_left m a) (ih _)

/-- C11: a structure returned by `struct_type_new` has alignment 1; after any
sequence of `struct_type_add_field` calls with child types of alignments
`a_1 .. a_k` its alignment is `max(1, a_1, ..., a_k)` (the maximum folded
from 1 over the children in order); a single `struct_type_add_field` sets the
alignment to the maximum of the previous alignment and the child's, which is
never below the previous alignment. -/
theorem struct_type_alignment_max (name : GQuark) (reg : type_class → Int)
    (s0 : type_class_struct) (adds : List (GQuark × type_class))
    (hnew : struct_type_new name reg = some s0) :
    s0.p.alignment = 1 ∧
    (struct_add_fields s0 adds).p.alignment =
      (adds.map (fun a => a.2.alignment)).foldl max 1 ∧
    (∀ a ∈ adds, a.2.alignment ≤ (struct_add_fields s0 adds).p.alignment) ∧
    1 ≤ (struct_add_fields s0 adds).p.alignment ∧
    (∀ (s : type_class_struct) (field_name : GQuark) (t : type_class),
      (struct_type_add_field s field_name t).p.alignment = max s.p.alignment t.alignment ∧
      s.p.alignment ≤ (struct_type_add_field s field_name t).p.alignment) := by
  obtain ⟨_, _, h1⟩ := struct_type_new_empty name reg s0 hnew
  have hal := struct_add_fields_alignment s0 adds
  rw [h1] at hal
  refine ⟨h1, hal, ?_, ?_, ?_⟩
  · rw [hal]
    clear hal
    generalize (1 : Nat) = m
    induction adds generalizing m with
    | nil => intro a ha; simp at ha
    | cons x rest ih =>
      intro a ha
      simp only [List.map_cons, List.foldl_cons]
      rcases List.mem_cons.1 ha with e | e
      · subst e
        exact le_trans (le_max_right m a.2.alignment) (foldl_max_le _ _)
      · exact ih _ a e
  · rw [hal]
    exact foldl_max_le _ _
  · intro s field_name t
    exact ⟨rfl, le_max_left _ _⟩

/-- An instance of C11: children of alignments 8, 32 and 16 give the
alignment 32. -/
theorem struct_type_alignment_max_witness :
    struct_type_new 9 (fun _ => 0) =
      some { p := { name := 9, alignment := 1 }, fields_by_name := [], fields := [] } ∧
    (struct_add_fields { p := { name := 9, alignment := 1 }, fields_by_name := [], fields := [] }
      [(1, { name := 3, alignment := 8 }), (2, { name := 4, alignment := 32 }),
        (1, { name := 5, alignment := 16 })]).p.alignment =
      ([((1 : GQuark), ({ name := 3, alignment := 8 } : type_class)),
        (2, { name := 4, alignment := 32 }),
        (1, { name := 5, alignment := 16 })].map (fun a => a.2.alignment)).foldl max 1 ∧
    (struct_add_fields { p := { name := 9, alignment := 1 }, fields_by_name := [], fields := [] }
      [(1, { name := 3, alignment := 8 }), (2, { name := 4, alignment := 32 }),
        (1, { name := 5, alignment := 16 })]).p.alignment = 32 :=
  ⟨by decide,
    (struct_type_alignment_max 9 (fun _ => 0)
      { p := { name := 9, alignment := 1 }, fields_by_name := [], fields := [] }
      [(1, { name := 3, alignment := 8 }), (2, { name := 4, alignment := 32 }),
        (1, { name := 5, alignment := 16 })] (by decide)).2.1,
    by decide⟩

/-! ## Removing a trace that is held -/

theorem g_ptr_array_remove_present (array : List Nat) (data : Nat) (h : data ∈ array) :
    ∃ pre post, array = pre ++ data :: post ∧ data ∉ pre ∧
      g_ptr_array_remove array data = (true, pre ++ post) := by
  induction array with
  | nil => simp at h
  | cons p rest ih =>
    by_cases hp : p = data
    · subst hp
      exact ⟨[], rest, rfl, by simp, by simp [g_ptr_array_remove]⟩
    · have hrest : data ∈ rest := by
        rcases List.mem_cons.1 h with e | e
        · exact absurd e.symm hp
        · exact e
      obtain ⟨pre, post, e1, e2, e3⟩ := ih hrest
      refine ⟨p :: pre, post, by rw [e1]; rfl, ?_, ?_⟩
      · intro hm
        rcases List.mem_cons.1 hm with e | e
        · exact hp e.symm
        · exact e2 e
      · simp [g_ptr_array_remove, hp, e3]

/-- C19: for every collection and every trace descriptor that occurs in its
array, `trace_collection_remove` returns 0 and removes exactly the first
occurrence: the array was `pre ++ td :: post` with `td` not in `pre` and is
`pre ++ post` afterwards, one element shorter and in the same order. The
clock registry and the four running statistics are unchanged. -/
theorem trace_collection_remove_present (tc : trace_collection) (td : Nat)
    (h : td ∈ tc.array) :
    (trace_collection_remove tc td).ret = 0 ∧
    (∃ pre post, tc.array = pre ++ td :: post ∧ td ∉ pre ∧
      (trace_collection_remove tc td).tc.array = pre ++ post) ∧
    (trace_collection_remove tc td).tc.array.length + 1 = tc.array.length ∧
    (trace_collection_remove tc td).tc.clocks = tc.clocks ∧
    (trace_collection_remove tc td).tc.offset_first = tc.offset_first ∧
    (trace_collection_remove tc td).tc.delta_offset_first_sum = tc.delta_offset_first_sum ∧
    (trace_collection_remove tc td).tc.offset_nr = tc.offset_nr ∧
    (trace_collection_remove tc td).tc.single_clock_offset_avg = tc.single_clock_offset_avg := by
  obtain ⟨pre, post, e1, e2, e3⟩ := g_ptr_array_remove_present tc.array td h
  have hr : trace_collection_remove tc td =
      { ret := 0, tc := { tc with array := pre ++ post }, err := [] } := by
    unfold trace_collection_remove
    rw [e3]
    simp
  rw [hr]
  refine ⟨rfl, ⟨pre, post, e1, e2, rfl⟩, ?_, rfl, rfl, rfl, rfl, rfl⟩
  rw [e1]
  simp
  omega

/-- An instance of C19: descriptor 100, held twice, is removed from a
collection holding 100, 101 and 100 again; the clock it brought stays
registered and the average stays 250. -/
theorem trace_collection_remove_present_witness :
    100 ∈ (tc_run [.add (single_clock_trace 100 7 ⟨7, 1, false, 0, 0⟩),
        .add (single_clock_trace 101 7 ⟨7, 1, false, 0, 500⟩),
        .add (single_clock_trace 100 7 ⟨7, 1, false, 0, 250⟩)]).array ∧
    (trace_collection_remove (tc_run [.add (single_clock_trace 100 7 ⟨7, 1, false, 0, 0⟩),
        .add (single_clock_trace 101 7 ⟨7, 1, false, 0, 500⟩),
        .add (single_clock_trace 100 7 ⟨7, 1, false, 0, 250⟩)]) 100).ret = 0 ∧
    (trace_collection_remove (tc_run [.add (single_clock_trace 100 7 ⟨7, 1, false, 0, 0⟩),
        .add (single_clock_trace 101 7 ⟨7, 1, false, 0, 500⟩),
        .add (single_clock_trace 100 7 ⟨7, 1, false, 0, 250⟩)]) 100).tc.clocks =
      (tc_run [.add (single_clock_trace 100 7 ⟨7, 1, false, 0, 0⟩),
        .add (single_clock_trace 101 7 ⟨7, 1, false, 0, 500⟩),
        .add (single_clock_trace 100 7 ⟨7, 1, false, 0, 250⟩)]).clocks ∧
    (trace_collection_remove (tc_run [.add (single_clock_trace 100 7 ⟨7, 1, false, 0, 0⟩),
        .add (single_clock_trace 101 7 ⟨7, 1, false, 0, 500⟩),
        .add (single_clock_trace 100 7 ⟨7, 1, false, 0, 250⟩)]) 100).tc.array = [101, 100] :=
  ⟨by decide,
    (trace_collection_remove_present (tc_run [.add (single_clock_trace 100 7 ⟨7, 1, false, 0, 0⟩),
        .add (single_clock_trace 101 7 ⟨7, 1, false, 0, 500⟩),
        .add (single_clock_trace 100 7 ⟨7, 1, false, 0, 250⟩)]) 100 (by decide)).1,
    (trace_collection_remove_present (tc_run [.add (single_clock_trace 100 7 ⟨7, 1, false, 0, 0⟩),
        .add (single_clock_trace 101 7 ⟨7, 1, false, 0, 500⟩),
        .add (single_clock_trace 100 7 ⟨7, 1, false, 0, 250⟩)]) 100 (by decide)).2.2.2.1,
    by decide⟩

/-! ## The divisor of the average -/

theorem same_id_counter (u : GQuark) (x : Nat × Nat × ctf_clock) (n : Nat) (hu : u ≠ 0)
    (hid : x.2.2.uuid = u ∧ x.2.2.absolute = false)
    (hoff : total_offset x.2.2 < 18446744073709551616)
    (hn : n + 1 ≤ 4294967294) :
    (tc_run (single_clock_calls (x :: List.replicate n x))).clocks ≠ [] ∧
    (tc_run (single_clock_calls (x :: List.replicate n x))).offset_nr =
      to_int32 ((n : Int) + 1) := by
  obtain ⟨_, hs0⟩ := same_id_first u x.1 x.2.1 x.2.2 hu hid hoff
  have hmem : ∀ y ∈ List.replicate n x, y = x := fun y hy => List.eq_of_mem_replicate hy
  have hlen : (List.replicate n x).length = n := List.length_replicate n x
  obtain ⟨_, s1, _, _, _, s5, _⟩ := same_id_run u (total_offset x.2.2) hu (List.replicate n x)
    _ 0 1 hs0 (by decide) (by rw [hlen]; omega)
    (fun z hz => by rw [hmem z hz]; exact hid)
    (fun z hz => by rw [hmem z hz]; exact hoff)
  have hrun : tc_run (single_clock_calls (x :: List.replicate n x)) =
      (single_clock_calls (List.replicate n x)).foldl tc_apply
        (trace_collection_add init_trace_collection (single_clock_trace x.1 x.2.1 x.2.2)).tc := by
    simp only [tc_run, single_clock_calls, List.map_cons, List.foldl_cons, tc_apply]
  rw [hrun]
  refine ⟨?_, ?_⟩
  · intro hempty
    rw [hempty] at s1
    exact s1 rfl
  · rw [s5, hlen, add_comm]

/-- C20, as stated, fails: `2^31` traces, each with one clock of the
identity 1, are added to a fresh collection. The registry is not empty and
the counter, an `int` incremented at every merge, has gone from `2^31 - 1`
to `-2^31` in the last merge: it is below 1, and the divisor of that merge
was not at least 2. -/
theorem clock_add_counter_overflows :
    (tc_run (single_clock_calls ((100, 7, ⟨7, 1, false, 0, 0⟩) ::
      List.replicate 2147483647 (100, 7, ⟨7, 1, false, 0, 0⟩)))).clocks ≠ [] ∧
    (tc_run (single_clock_calls ((100, 7, ⟨7, 1, false, 0, 0⟩) ::
      List.replicate 2147483647 (100, 7, ⟨7, 1, false, 0, 0⟩)))).offset_nr = -2147483648 ∧
    ¬ 1 ≤ (tc_run (single_clock_calls ((100, 7, ⟨7, 1, false, 0, 0⟩) ::
      List.replicate 2147483647 (100, 7, ⟨7, 1, false, 0, 0⟩)))).offset_nr := by
  have h := same_id_counter 1 (100, 7, ⟨7, 1, false, 0, 0⟩) 2147483647
    (by decide) (by decide) (by decide) (by decide)
  have h32 : to_int32 (((2147483647 : Nat) : Int) + 1) = -2147483648 := by decide
  have hnr := h.2.trans h32
  refine ⟨h.1, hnr, ?_⟩
  rw [hnr]
  decide

/-- C20, amended: in every collection reached from `init_trace_collection` by
`trace_collection_add` and `trace_collection_remove` calls whose traces carry
fewer than `2^31` clocks in total, a non-empty clock registry implies
`offset_nr >= 1`. Hence, whenever `clock_add` processes a clock of an
identity that is already registered (the clocks `pre` of the trace being
added have been processed before it) and the clocks processed so far, this
one included, are still fewer than `2^31`, the division does not trap, the
counter after its increment, which is the divisor of the average, is the
old counter plus one and is at least 2, and the average stored is the
quotient by that divisor. -/
theorem clock_add_divisor_positive (calls : List tc_call)
    (hb : clocks_processed calls < 2147483648) :
    ((tc_run calls).clocks ≠ [] → 1 ≤ (tc_run calls).offset_nr) ∧
    ∀ (td key : Nat) (pre : GHashTable ctf_clock) (c rep : ctf_clock),
      clocks_processed calls + pre.length + 1 < 2147483648 →
      clock_key c ≠ 0 →
      g_hash_table_lookup (clock_add_state_before (tc_run calls) td pre).1.clocks
        (clock_key c) = some rep →
      ¬ merge_traps (clock_add_state_before (tc_run calls) td pre).1 c ∧
      (clock_add key c (clock_add_state_before (tc_run calls) td pre)).1.offset_nr =
        (clock_add_state_before (tc_run calls) td pre).1.offset_nr + 1 ∧
      2 ≤ (clock_add key c (clock_add_state_before (tc_run calls) td pre)).1.offset_nr ∧
      (clock_add key c (clock_add_state_before (tc_run calls) td pre)).1.single_clock_offset_avg =
        to_uint64
          ((clock_add key c (clock_add_state_before (tc_run calls) td pre)).1.offset_first +
            Int.tdiv
              (clock_add key c
                (clock_add_state_before (tc_run calls) td pre)).1.delta_offset_first_sum
              ((clock_add_state_before (tc_run calls) td pre).1.offset_nr + 1)) := by
  refine ⟨?_, ?_⟩
  · intro hne
    have h0 := (tc_inv_run calls).2.2.2.1 hne
    obtain ⟨h1, _⟩ := nr_le_run calls hb
    omega
  · intro td key pre c rep hcount hv hl
    have hinv := tc_inv_state_before (tc_run calls) td pre (tc_inv_run calls)
    have hne : (clock_add_state_before (tc_run calls) td pre).1.clocks ≠ [] := by
      intro hempty
      rw [hempty] at hl
      simp [g_hash_table_lookup, List.lookup] at hl
    have h0 := hinv.2.2.2.1 hne
    obtain ⟨h1, h2⟩ := nr_le_state_before (tc_run calls) td pre _ (nr_le_run calls) (by omega)
    have h32 : to_int32 ((clock_add_state_before (tc_run calls) td pre).1.offset_nr + 1) =
        (clock_add_state_before (tc_run calls) td pre).1.offset_nr + 1 :=
      to_int32_of_range _ (by omega) (by push_cast at h2; omega)
    have ht : ¬ merge_traps (clock_add_state_before (tc_run calls) td pre).1 c := by
      unfold merge_traps
      rw [h32]
      omega
    obtain ⟨_, _, _, _, e5, e6⟩ := clock_add_old key c rep _ hv hl ht
    rw [h32] at e5
    refine ⟨ht, e5, by rw [e5]; omega, ?_⟩
    rw [e6, e5]

/-- An instance of the amended C20: the second trace brings a clock of the
registered identity 1; the divisor is 2. -/
theorem clock_add_divisor_positive_witness :
    (clocks_processed [.add (single_clock_trace 100 7 ⟨7, 1, false, 0, 0⟩)] < 2147483648 ∧
      clocks_processed [.add (single_clock_trace 100 7 ⟨7, 1, false, 0, 0⟩)] +
        ([] : GHashTable ctf_clock).length + 1 < 2147483648 ∧
      clock_key ⟨7, 1, false, 0, 500⟩ ≠ 0 ∧
      g_hash_table_lookup
        (clock_add_state_before (tc_run [.add (single_clock_trace 100 7 ⟨7, 1, false, 0, 0⟩)])
          101 []).1.clocks (clock_key ⟨7, 1, false, 0, 500⟩) =
        some ⟨7, 1, false, 0, 0⟩) ∧
    (tc_run [.add (single_clock_trace 100 7 ⟨7, 1, false, 0, 0⟩)]).clocks ≠ [] ∧
    1 ≤ (tc_run [.add (single_clock_trace 100 7 ⟨7, 1, false, 0, 0⟩)]).offset_nr ∧
    2 ≤ (clock_add 7 ⟨7, 1, false, 0, 500⟩
      (clock_add_state_before (tc_run [.add (single_clock_trace 100 7 ⟨7, 1, false, 0, 0⟩)])
        101 [])).1.offset_nr :=
  ⟨⟨by decide, by decide, by decide, by decide⟩, by decide,
    (clock_add_divisor_positive [.add (single_clock_trace 100 7 ⟨7, 1, false, 0, 0⟩)]
      (by decide)).1 (by decide),
    ((clock_add_divisor_positive [.add (single_clock_trace 100 7 ⟨7, 1, false, 0, 0⟩)]
      (by decide)).2
      101 7 [] ⟨7, 1, false, 0, 500⟩ ⟨7, 1, false, 0, 0⟩ (by decide) (by decide)
      (by decide)).2.2.1⟩

/-! ## The copy of a structure -/

theorem foldl_recording_type_class_copy (fields : List field) (dest src : Nat)
    (fdest fsrc : format (List hook_call)) (log : List hook_call) :
    fields.foldl (fun s f => recording_type_class_copy f.type_class dest fdest src fsrc s) log =
      log ++ fields.map (fun f => hook_call.type_class_copy f.type_class) := by
  induction fields generalizing log with
  | nil => simp
  | cons f rest ih =>
    simp only [List.foldl_cons, List.map_cons]
    rw [ih]
    simp [recording_type_class_copy]

/-- C12: for every structure built from a new structure by
`struct_type_add_field` calls with child types `t_0 .. t_(k-1)`, `struct_copy`
run with recording hooks adds to the record exactly: `struct_begin` on the
source, `struct_begin` on the destination, the copy of `t_0`, ..., the copy
of `t_(k-1)` in the order of the adds, `struct_end` on the source,
`struct_end` on the destination; for `k = 0` just the two begins and the two
ends. -/
theorem struct_copy_calls (name : GQuark) (reg : type_class → Int)
    (s0 : type_class_struct) (adds : List (GQuark × type_class))
    (hnew : struct_type_new name reg = some s0) (dest src : Nat) (log : List hook_call) :
    struct_copy recording_type_class_copy dest (recording_format copy_side.destination)
        src (recording_format copy_side.source) (struct_add_fields s0 adds) log =
      log ++ [hook_call.struct_begin copy_side.source src,
          hook_call.struct_begin copy_side.destination dest] ++
        adds.map (fun a => hook_call.type_class_copy a.2) ++
        [hook_call.struct_end copy_side.source src,
          hook_call.struct_end copy_side.destination dest] ∧
    struct_copy recording_type_class_copy dest (recording_format copy_side.destination)
        src (recording_format copy_side.source) s0 log =
      log ++ [hook_call.struct_begin copy_side.source src,
          hook_call.struct_begin copy_side.destination dest,
          hook_call.struct_end copy_side.source src,
          hook_call.struct_end copy_side.destination dest] := by
  obtain ⟨h0, _, _⟩ := struct_type_new_empty name reg s0 hnew
  constructor
  · unfold struct_copy
    simp only
    rw [foldl_recording_type_class_copy, struct_add_fields_fields, h0]
    simp [recording_format, List.map_map, Function.comp_def]
  · unfold struct_copy
    simp only
    rw [foldl_recording_type_class_copy, h0]
    simp [recording_format]

/-- An instance of C12: two fields, of type classes of quarks 3 and 4. -/
theorem struct_copy_calls_witness :
    struct_type_new 9 (fun _ => 0) =
      some { p := { name := 9, alignment := 1 }, fields_by_name := [], fields := [] } ∧
    struct_copy recording_type_class_copy 20 (recording_format copy_side.destination)
        10 (recording_format copy_side.source)
        (struct_add_fields
          { p := { name := 9, alignment := 1 }, fields_by_name := [], fields := [] }
          [(1, { name := 3, alignment := 8 }), (2, { name := 4, alignment := 32 })]) [] =
      [] ++ [hook_call.struct_begin copy_side.source 10,
          hook_call.struct_begin copy_side.destination 20] ++
        [((1 : GQuark), ({ name := 3, alignment := 8 } : type_class)),
          (2, { name := 4, alignment := 32 })].map (fun a => hook_call.type_class_copy a.2) ++
        [hook_call.struct_end copy_side.source 10,
          hook_call.struct_end copy_side.destination 20] :=
  ⟨by decide,
    (struct_copy_calls 9 (fun _ => 0)
      { p := { name := 9, alignment := 1 }, fields_by_name := [], fields := [] }
      [(1, { name := 3, alignment := 8 }), (2, { name := 4, alignment := 32 })]
      (by decide) 20 10 []).1⟩

/-! ## Variant types: instantiation -/

theorem check_enum_tag_ok (variant_declaration : declaration_variant)
    (enum_tag : definition_enum) :
    ¬ check_enum_tag variant_declaration enum_tag < 0 ↔
      (variant_declaration.untagged_variant.fields.length =
          enum_get_nr_enumerators enum_tag.declaration ∧
        ∀ f ∈ variant_declaration.untagged_variant.fields,
          (enum_quark_to_range_set enum_tag.declaration f.name).isSome) := by
  unfold check_enum_tag
  simp only
  by_cases hlen : variant_declaration.untagged_variant.fields.length =
      enum_get_nr_enumerators enum_tag.declaration
  · by_cases hany : (variant_declaration.untagged_variant.fields.any
        (fun field_declaration =>
          (enum_quark_to_range_set enum_tag.declaration field_declaration.name).isNone)) = true
    · have hex := List.any_eq_true.1 hany
      obtain ⟨f, hf, hnone⟩ := hex
      simp only [hlen, ne_eq, not_true_eq_false, if_false, hany, if_true, EPERM]
      constructor
      · intro h; exact absurd (by decide : (-1 : Int) < 0) h
      · intro h
        have := h.2 f hf
        rw [Option.isNone_iff_eq_none] at hnone
        rw [hnone] at this
        simp at this
    · simp only [hlen, ne_eq, not_true_eq_false, if_false, hany]
      constructor
      · intro _
        refine ⟨trivial, ?_⟩
        intro f hf
        by_contra hc
        apply hany
        exact List.any_eq_true.2 ⟨f, hf, by
          cases h : enum_quark_to_range_set enum_tag.declaration f.name with
          | none => rfl
          | some v => rw [h] at hc; simp at hc⟩
      · intro _
        decide
  · simp [hlen, EPERM]

theorem variant_definition_new_some (env : variant_env) (variant_declaration : declaration_variant)
    (parent_scope : Option definition_scope) (field_name : GQuark) (index : Int)
    (variant : definition_variant)
    (hnew : _variant_definition_new env variant_declaration parent_scope field_name index =
      some variant) :
    ∃ enum_tag,
      env.lookup_definition (env.new_definition_scope parent_scope field_name).scope_path
        variant_declaration.tag_name parent_scope = some enum_tag ∧
      ¬ check_enum_tag variant_declaration enum_tag < 0 ∧
      variant =
        { p := { declaration := declaration_ref variant_declaration.p, index := index, ref := 1 }
          declaration := { variant_declaration with p := declaration_ref variant_declaration.p }
          scope := env.new_definition_scope parent_scope field_name
          enum_tag := { enum_tag with p := definition_ref enum_tag.p }
          fields := variant_declaration.untagged_variant.fields.map
            (fun declaration_field =>
              { name := declaration_field.name
                definition := env.definition_new declaration_field.declaration
                  (env.new_definition_scope parent_scope field_name) declaration_field.name 0 })
          current_field := none } := by
  unfold _variant_definition_new at hnew
  simp only at hnew
  cases hl : env.lookup_definition (env.new_definition_scope parent_scope field_name).scope_path
      variant_declaration.tag_name parent_scope with
  | none => rw [hl] at hnew; simp at hnew
  | some enum_tag =>
    rw [hl] at hnew
    simp only at hnew
    by_cases hc : check_enum_tag variant_declaration enum_tag < 0
    · rw [if_pos hc] at hnew; simp at hnew
    · rw [if_neg hc] at hnew
      simp only [Option.some.injEq] at hnew
      exact ⟨enum_tag, rfl, hc, hnew.symm⟩

/-- C13: for every tagged-variant declaration, if its tag path resolves in the
parent scope to an enumeration definition, `_variant_definition_new` returns
a definition if and only if the number of declared choices equals the
enumerator count of the enumeration and every declared choice name is the
tag of an enumerator; if the tag path does not resolve, it returns no
definition. -/
theorem variant_definition_new_iff (env : variant_env) (variant_declaration : declaration_variant)
    (parent_scope : Option definition_scope) (field_name : GQuark) (index : Int) :
    (∀ enum_tag,
      env.lookup_definition (env.new_definition_scope parent_scope field_name).scope_path
        variant_declaration.tag_name parent_scope = some enum_tag →
      ((_variant_definition_new env variant_declaration parent_scope field_name index).isSome ↔
        (variant_declaration.untagged_variant.fields.length =
            enum_get_nr_enumerators enum_tag.declaration ∧
          ∀ f ∈ variant_declaration.untagged_variant.fields,
            (enum_quark_to_range_set enum_tag.declaration f.name).isSome))) ∧
    (env.lookup_definition (env.new_definition_scope parent_scope field_name).scope_path
        variant_declaration.tag_name parent_scope = none →
      _variant_definition_new env variant_declaration parent_scope field_name index = none) := by
  constructor
  · intro enum_tag hl
    rw [← check_enum_tag_ok]
    unfold _variant_definition_new
    simp only
    rw [hl]
    simp only
    by_cases hc : check_enum_tag variant_declaration enum_tag < 0
    · rw [if_pos hc]
      simp [hc]
    · rw [if_neg hc]
      simp [hc]
  · intro hl
    unfold _variant_definition_new
    simp only
    rw [hl]

/-- An instance of C13: two choices against the two enumerators of the same
names succeed; a third choice fails; a choice name that is no enumerator tag
fails; a tag path that does not resolve fails. -/
theorem variant_definition_new_iff_witness :
    (sample_env [1, 2] [2]).lookup_definition
        ((sample_env [1, 2] [2]).new_definition_scope none 5).scope_path
        [50] none = some (sample_enum [1, 2] [2]) ∧
    (_variant_definition_new (sample_env [1, 2] [2])
      (variant_declaration_new
        (untagged_add_fields (untagged_variant_declaration_new (fun _ => 0) none)
          [(1, int_declaration), (2, int_declaration)]) [50]) none 5 0).isSome ∧
    ¬ (_variant_definition_new (sample_env [1, 2] [2])
      (variant_declaration_new
        (untagged_add_fields (untagged_variant_declaration_new (fun _ => 0) none)
          [(1, int_declaration), (2, int_declaration), (3, int_declaration)]) [50])
      none 5 0).isSome ∧
    ¬ (_variant_definition_new (sample_env [1, 2] [2])
      (variant_declaration_new
        (untagged_add_fields (untagged_variant_declaration_new (fun _ => 0) none)
          [(1, int_declaration), (4, int_declaration)]) [50]) none 5 0).isSome ∧
    _variant_definition_new (sample_env [1, 2] [2]) unresolved_variant none 5 0 = none :=
  ⟨by decide,
    ((variant_definition_new_iff (sample_env [1, 2] [2])
      (variant_declaration_new
        (untagged_add_fields (untagged_variant_declaration_new (fun _ => 0) none)
          [(1, int_declaration), (2, int_declaration)]) [50]) none 5 0).1
      (sample_enum [1, 2] [2]) (by decide)).2 ⟨by decide, by decide⟩,
    fun h => absurd
      (((variant_definition_new_iff (sample_env [1, 2] [2])
        (variant_declaration_new
          (untagged_add_fields (untagged_variant_declaration_new (fun _ => 0) none)
            [(1, int_declaration), (2, int_declaration), (3, int_declaration)]) [50])
        none 5 0).1 (sample_enum [1, 2] [2]) (by decide)).1 h).1 (by decide),
    fun h => absurd
      (((variant_definition_new_iff (sample_env [1, 2] [2])
        (variant_declaration_new
          (untagged_add_fields (untagged_variant_declaration_new (fun _ => 0) none)
            [(1, int_declaration), (4, int_declaration)]) [50])
        none 5 0).1 (sample_enum [1, 2] [2]) (by decide)).1 h).2 (by decide),
    (variant_definition_new_iff (sample_env [1, 2] [2]) unresolved_variant none 5 0).2
      (by decide)⟩

/-- C16: for every successful `_variant_definition_new` on a declaration
with `k` choices, the fields array of the definition returned has length
`k`, and its element `i` carries the name of choice `i` and the result of the
`definition_new` of that choice's declaration called with the variant's own
scope, that name and index 0; the scope is the one made from the parent
scope and the field name. The enumeration found plays no part in it. -/
theorem variant_definition_new_fields (env : variant_env)
    (variant_declaration : declaration_variant) (parent_scope : Option definition_scope)
    (field_name : GQuark) (index : Int) (variant : definition_variant)
    (hnew : _variant_definition_new env variant_declaration parent_scope field_name index =
      some variant) :
    variant.fields.length = variant_declaration.untagged_variant.fields.length ∧
    variant.scope = env.new_definition_scope parent_scope field_name ∧
    (∀ (i : Nat) (c : declaration_field),
      variant_declaration.untagged_variant.fields[i]? = some c →
      variant.fields[i]? =
        some ({ name := c.name
                definition := env.definition_new c.declaration variant.scope c.name 0 } :
          definition_field)) ∧
    variant.fields = variant_declaration.untagged_variant.fields.map
      (fun c => ({ name := c.name
                   definition := env.definition_new c.declaration variant.scope c.name 0 } :
        definition_field)) := by
  obtain ⟨enum_tag, _, _, hv⟩ :=
    variant_definition_new_some env variant_declaration parent_scope field_name index variant hnew
  subst hv
  refine ⟨by simp, rfl, ?_, rfl⟩
  intro i c hc
  simp [hc]

/-- An instance of C16: two choices, both materialised, while the enumeration
holds the tag of the second. -/
theorem variant_definition_new_fields_witness :
    _variant_definition_new (sample_env [1, 2] [2]) sample_declaration none 5 0 =
      some sample_variant ∧
    sample_variant.fields.length = sample_declaration.untagged_variant.fields.length ∧
    sample_variant.fields = sample_declaration.untagged_variant.fields.map
      (fun c => ({ name := c.name
                   definition := (sample_env [1, 2] [2]).definition_new c.declaration
                     sample_variant.scope c.name 0 } : definition_field)) :=
  ⟨by decide,
    (variant_definition_new_fields (sample_env [1, 2] [2]) sample_declaration none 5 0
      sample_variant (by decide)).1,
    (variant_definition_new_fields (sample_env [1, 2] [2]) sample_declaration none 5 0
      sample_variant (by decide)).2.2.2⟩

/-- C17: the variant `nesting_declaration` has one choice, of name 1, which is
itself a tagged variant whose tag path resolves nowhere, and the enumeration
has the one enumerator of tag 1. Instantiating the choice fails
(`_variant_definition_new` on it returns no definition), yet the
instantiation of the outer variant returns a definition, whose only child
field holds the `NULL` child definition. -/
theorem variant_definition_new_null_child :
    _variant_definition_new (sample_env [1] [1]) unresolved_variant
      (some { scope_path := [5] }) 1 0 = none ∧
    (nested_env [1] [1] unresolved_variant).definition_new
      (declaration_ref unresolved_variant.p) { scope_path := [5] } 1 0 = none ∧
    (_variant_definition_new (nested_env [1] [1] unresolved_variant)
      nesting_declaration none 5 0).isSome ∧
    (_variant_definition_new (nested_env [1] [1] unresolved_variant)
      nesting_declaration none 5 0).map (fun v => v.fields) =
      some [{ name := 1, definition := none }] := by
  decide

/-! ## Variant types: adding a choice -/

theorem untagged_add_fields_p (u : declaration_untagged_variant)
    (adds : List (GQuark × declaration)) : (untagged_add_fields u adds).p = u.p := by
  induction adds generalizing u with
  | nil => rfl
  | cons a rest ih =>
    simp only [untagged_add_fields, List.foldl_cons] at ih ⊢
    rw [ih]
    rfl

/-- C18: for every untagged-variant declaration and every child declaration,
`untagged_variant_declaration_add_field` appends the choice (the name and the
child declaration, on which a reference is taken) as the last element of the
choices, maps the name to that last index in the tag map, and leaves the
embedded declaration, hence the alignment, unchanged; after any sequence of
such calls on a declaration made by `untagged_variant_declaration_new` the
alignment is 1. -/
theorem untagged_variant_add_field_frame (u : declaration_untagged_variant)
    (field_name : GQuark) (d : declaration) :
    (untagged_variant_declaration_add_field u field_name d).fields =
      u.fields ++ [{ name := field_name, declaration := declaration_ref d }] ∧
    (untagged_variant_declaration_add_field u field_name d).fields.length = u.fields.length + 1 ∧
    (untagged_variant_declaration_add_field u field_name d).fields[u.fields.length]? =
      some { name := field_name, declaration := declaration_ref d } ∧
    g_hash_table_lookup (untagged_variant_declaration_add_field u field_name d).fields_by_tag
      field_name = some u.fields.length ∧
    (untagged_variant_declaration_add_field u field_name d).p.alignment = u.p.alignment ∧
    (∀ (new_declaration_scope : Option Nat → Nat) (parent_scope : Option Nat)
      (adds : List (GQuark × declaration)),
      (untagged_variant_declaration_new new_declaration_scope parent_scope).p.alignment = 1 ∧
      (untagged_add_fields (untagged_variant_declaration_new new_declaration_scope parent_scope)
        adds).p.alignment = 1) := by
  refine ⟨rfl, by simp [untagged_variant_declaration_add_field], ?_, ?_, rfl, ?_⟩
  · simp [untagged_variant_declaration_add_field]
  · simp only [untagged_variant_declaration_add_field]
    rw [g_hash_table_lookup_insert]
    simp
  · intro nds parent adds
    refine ⟨rfl, ?_⟩
    rw [untagged_add_fields_p]
    rfl

/-! ## Variant types: the tag map -/

theorem untagged_add_fields_snoc (u : declaration_untagged_variant)
    (l : List (GQuark × declaration)) (a : GQuark × declaration) :
    untagged_add_fields u (l ++ [a]) =
      untagged_variant_declaration_add_field (untagged_add_fields u l) a.1 a.2 := by
  simp [untagged_add_fields, List.foldl_append]

theorem untagged_add_fields_fields (u : declaration_untagged_variant)
    (l : List (GQuark × declaration)) :
    (untagged_add_fields u l).fields =
      u.fields ++ l.map (fun a => { name := a.1, declaration := declaration_ref a.2 }) := by
  induction l using List.reverseRecOn with
  | nil => simp [untagged_add_fields]
  | append_singleton l a ih =>
    rw [untagged_add_fields_snoc]
    simp [untagged_variant_declaration_add_field, ih]

theorem untagged_lookup_snoc (u0 : declaration_untagged_variant) (h0 : u0.fields = [])
    (l : List (GQuark × declaration)) (a : GQuark × declaration) (n : GQuark) :
    g_hash_table_lookup (untagged_add_fields u0 (l ++ [a])).fields_by_tag n =
      if n = a.1 then some l.length
      else g_hash_table_lookup (untagged_add_fields u0 l).fields_by_tag n := by
  rw [untagged_add_fields_snoc]
  simp only [untagged_variant_declaration_add_field]
  rw [g_hash_table_lookup_insert, untagged_add_fields_fields, h0]
  simp

theorem untagged_lookup_absent (u0 : declaration_untagged_variant) (h0 : u0.fields = [])
    (h1 : u0.fields_by_tag = []) (l : List (GQuark × declaration)) (n : GQuark)
    (hn : n ∉ l.map Prod.fst) :
    g_hash_table_lookup (untagged_add_fields u0 l).fields_by_tag n = none := by
  induction l using List.reverseRecOn with
  | nil => simp [untagged_add_fields, h1, g_hash_table_lookup, List.lookup]
  | append_singleton l a ih =>
    rw [untagged_lookup_snoc u0 h0]
    simp only [List.map_append, List.map_cons, List.map_nil, List.mem_append,
      List.mem_singleton, not_or] at hn
    rw [if_neg hn.2]
    exact ih hn.1

theorem untagged_lookup_valid (u0 : declaration_untagged_variant) (h0 : u0.fields = [])
    (h1 : u0.fields_by_tag = []) (l : List (GQuark × declaration)) (n : GQuark) (i : Nat)
    (hl : g_hash_table_lookup (untagged_add_fields u0 l).fields_by_tag n = some i) :
    ∃ a, l[i]? = some a ∧ a.1 = n := by
  induction l using List.reverseRecOn with
  | nil => simp [untagged_add_fields, h1, g_hash_table_lookup, List.lookup] at hl
  | append_singleton l a ih =>
    rw [untagged_lookup_snoc u0 h0] at hl
    by_cases hn : n = a.1
    · rw [if_pos hn] at hl
      simp only [Option.some.injEq] at hl
      subst hl
      exact ⟨a, by simp, hn.symm⟩
    · rw [if_neg hn] at hl
      obtain ⟨b, hb, hbn⟩ := ih hl
      have hi : i < l.length := by
        by_contra hc
        rw [List.getElem?_eq_none (by omega)] at hb
        simp at hb
      exact ⟨b, by rw [List.getElem?_append_left hi]; exact hb, hbn⟩

theorem untagged_lookup_present (u0 : declaration_untagged_variant) (h0 : u0.fields = [])
    (l : List (GQuark × declaration)) (n : GQuark) (hn : n ∈ l.map Prod.fst) :
    ∃ i, g_hash_table_lookup (untagged_add_fields u0 l).fields_by_tag n = some i := by
  induction l using List.reverseRecOn with
  | nil => simp at hn
  | append_singleton l a ih =>
    rw [untagged_lookup_snoc u0 h0]
    by_cases hna : n = a.1
    · exact ⟨l.length, by rw [if_pos hna]⟩
    · rw [if_neg hna]
      simp only [List.map_append, List.map_cons, List.map_nil, List.mem_append,
        List.mem_singleton] at hn
      rcases hn with hn | hn
      · exact ih hn
      · exact absurd hn hna

theorem enum_tag_mem_keys (enum_declaration : declaration_enum) (q : GQuark)
    (h : (enum_quark_to_range_set enum_declaration q).isSome) :
    q ∈ enum_declaration.quark_to_range_set.map Prod.fst := by
  obtain ⟨v, hv⟩ := Option.isSome_iff_exists.1 h
  have hm := g_hash_table_lookup_mem _ _ _ hv
  exact List.mem_map.2 ⟨(q, v), hm, rfl⟩

/-- Distinct choice names that are all enumerator tags, as many as there are
enumerators: every enumerator tag is a choice name. -/
theorem enum_tag_is_choice (enum_declaration : declaration_enum) (names : List GQuark)
    (hd : names.Nodup)
    (hall : ∀ n ∈ names, (enum_quark_to_range_set enum_declaration n).isSome)
    (hlen : names.length = enum_get_nr_enumerators enum_declaration) (t : GQuark)
    (ht : (enum_quark_to_range_set enum_declaration t).isSome) : t ∈ names := by
  have hsub : names ⊆ enum_declaration.quark_to_range_set.map Prod.fst :=
    fun n hn => enum_tag_mem_keys enum_declaration n (hall n hn)
  have hle : (enum_declaration.quark_to_range_set.map Prod.fst).length ≤ names.length := by
    rw [hlen]
    simp [enum_get_nr_enumerators, g_hash_table_size]
  have hp := (List.subperm_of_subset hd hsub).perm_of_length_le hle
  exact hp.mem_iff.2 (enum_tag_mem_keys enum_declaration t ht)

/-- The active field: a variant declaration is built by `untagged_variant_declaration_new`,
`untagged_variant_declaration_add_field` calls with pairwise distinct names
and `variant_declaration_new`, and `_variant_definition_new` returns a
definition for it. Whenever the bound enumeration holds exactly one tag `t`
that is the tag of one of its enumerators, `variant_get_current_field`
returns the child field at the position at which the choice of name `t` was
added, whose name is `t`, and caches that position; the field returned is
the same whatever `current_field` cached before. -/
theorem variant_get_current_field_at (env : variant_env)
    (new_declaration_scope : Option Nat → Nat) (declaration_scope : Option Nat)
    (adds : List (GQuark × declaration)) (tag_path : List GQuark)
    (parent_scope : Option definition_scope) (field_name : GQuark) (index : Int)
    (variant : definition_variant) (t : GQuark)
    (hnew : _variant_definition_new env
      (variant_declaration_new
        (untagged_add_fields
          (untagged_variant_declaration_new new_declaration_scope declaration_scope) adds)
        tag_path) parent_scope field_name index = some variant)
    (hdistinct : (adds.map Prod.fst).Nodup)
    (htag : (enum_quark_to_range_set variant.enum_tag.declaration t).isSome) :
    ∃ (i : Nat) (f : definition_field),
      (adds.map Prod.fst)[i]? = some t ∧ variant.fields[i]? = some f ∧ f.name = t ∧
      ∀ cached : Option Nat,
        variant_get_current_field
          { variant with
            enum_tag := { variant.enum_tag with value := [t] }
            current_field := cached } =
        some (f, { variant with
                   enum_tag := { variant.enum_tag with value := [t] }
                   current_field := some i }) := by
  obtain ⟨enum_tag, _, hc, hv⟩ := variant_definition_new_some env _ parent_scope field_name
    index variant hnew
  obtain ⟨hlen, hall⟩ := (check_enum_tag_ok _ enum_tag).1 hc
  have hfields : (variant_declaration_new
      (untagged_add_fields
        (untagged_variant_declaration_new new_declaration_scope declaration_scope) adds)
      tag_path).untagged_variant.fields =
      adds.map (fun a => { name := a.1, declaration := declaration_ref a.2 }) := by
    simp only [variant_declaration_new]
    rw [untagged_add_fields_fields]
    rfl
  rw [hfields] at hlen hall
  have henum : variant.enum_tag.declaration = enum_tag.declaration := by rw [hv]
  rw [henum] at htag
  have hmem : t ∈ adds.map Prod.fst := by
    refine enum_tag_is_choice enum_tag.declaration (adds.map Prod.fst) hdistinct ?_ ?_ t htag
    · intro n hn
      obtain ⟨a, ha, han⟩ := List.mem_map.1 hn
      have := hall { name := a.1, declaration := declaration_ref a.2 }
        (List.mem_map.2 ⟨a, ha, rfl⟩)
      rw [← han]
      exact this
    · simpa using hlen
  obtain ⟨i, hi⟩ := untagged_lookup_present
    (untagged_variant_declaration_new new_declaration_scope declaration_scope) rfl adds t hmem
  obtain ⟨a, hai, hat⟩ := untagged_lookup_valid
    (untagged_variant_declaration_new new_declaration_scope declaration_scope) rfl rfl adds t i hi
  have hvf : variant.fields[i]? =
      some { name := a.1
             definition := env.definition_new (declaration_ref a.2)
               (env.new_definition_scope parent_scope field_name) a.1 0 } := by
    rw [hv]
    simp only
    rw [hfields]
    simp [hai]
  have hmap : variant.declaration.untagged_variant.fields_by_tag =
      (untagged_add_fields
        (untagged_variant_declaration_new new_declaration_scope declaration_scope)
        adds).fields_by_tag := by
    rw [hv]
    rfl
  refine ⟨i, _, by simp [hai, hat], hvf, hat, ?_⟩
  intro cached
  unfold variant_get_current_field
  simp only [List.length_singleton, if_true, List.getElem?_cons_zero]
  rw [hmap, hi]
  simp only
  rw [hvf]

/-- C14: a variant declaration is built by `untagged_variant_declaration_new`,
`untagged_variant_declaration_add_field` calls with pairwise distinct names
and `variant_declaration_new`, and `_variant_definition_new` returns a
definition for it. Whenever the bound enumeration holds exactly one tag `t`
that is the tag of one of its enumerators, then, whatever `current_field`
cached before, `variant_get_current_field` returns a field whose name is
`t`; it is the child field at the position at which the choice of name `t`
was added, that position is cached, and the field is the one returned with
an empty cache. -/
theorem variant_get_current_field_active (env : variant_env)
    (new_declaration_scope : Option Nat → Nat) (declaration_scope : Option Nat)
    (adds : List (GQuark × declaration)) (tag_path : List GQuark)
    (parent_scope : Option definition_scope) (field_name : GQuark) (index : Int)
    (variant : definition_variant) (t : GQuark)
    (hnew : _variant_definition_new env
      (variant_declaration_new
        (untagged_add_fields
          (untagged_variant_declaration_new new_declaration_scope declaration_scope) adds)
        tag_path) parent_scope field_name index = some variant)
    (hdistinct : (adds.map Prod.fst).Nodup)
    (htag : (enum_quark_to_range_set variant.enum_tag.declaration t).isSome)
    (cached : Option Nat) :
    (variant_get_current_field
      { variant with
        enum_tag := { variant.enum_tag with value := [t] }
        current_field := cached }).map (fun r => r.1.name) = some t ∧
    (∀ i : Nat, (adds.map Prod.fst)[i]? = some t →
      (variant_get_current_field
        { variant with
          enum_tag := { variant.enum_tag with value := [t] }
          current_field := cached }).map (fun r => r.1) = variant.fields[i]? ∧
      (variant_get_current_field
        { variant with
          enum_tag := { variant.enum_tag with value := [t] }
          current_field := cached }).map (fun r => r.2.current_field) = some (some i)) ∧
    (variant_get_current_field
      { variant with
        enum_tag := { variant.enum_tag with value := [t] }
        current_field := cached }).map (fun r => r.1) =
      (variant_get_current_field
        { variant with
          enum_tag := { variant.enum_tag with value := [t] }
          current_field := none }).map (fun r => r.1) := by
  obtain ⟨i0, f, hi0, hf, hname, hall⟩ := variant_get_current_field_at env new_declaration_scope
    declaration_scope adds tag_path parent_scope field_name index variant t hnew hdistinct htag
  rw [hall cached, hall none]
  refine ⟨by simp [hname], ?_, rfl⟩
  intro i hi
  have hilt : i < (adds.map Prod.fst).length := by
    by_contra hc
    rw [List.getElem?_eq_none (by omega)] at hi
    simp at hi
  have hi0lt : i0 < (adds.map Prod.fst).length := by
    by_contra hc
    rw [List.getElem?_eq_none (by omega)] at hi0
    simp at hi0
  have e1 : (adds.map Prod.fst)[i] = t := by
    rw [List.getElem?_eq_getElem hilt] at hi
    simpa using hi
  have e2 : (adds.map Prod.fst)[i0] = t := by
    rw [List.getElem?_eq_getElem hi0lt] at hi0
    simpa using hi0
  have hii : i = i0 := (List.Nodup.getElem_inj_iff hdistinct).1 (e1.trans e2.symm)
  subst hii
  simp [hf]

/-- An instance of C14: the sample variant, whose enumeration has the tags 1
and 2; the tag has changed to 2 while the first field is cached, and the
second field, of name 2, is returned and cached. -/
theorem variant_get_current_field_active_witness :
    (_variant_definition_new (sample_env [1, 2] [2])
        (variant_declaration_new
          (untagged_add_fields (untagged_variant_declaration_new (fun _ => 0) none)
            [(1, int_declaration), (2, int_declaration)]) [50]) none 5 0 = some sample_variant ∧
      ([((1 : GQuark), int_declaration), (2, int_declaration)].map Prod.fst).Nodup ∧
      (enum_quark_to_range_set sample_variant.enum_tag.declaration 2).isSome ∧
      ([((1 : GQuark), int_declaration), (2, int_declaration)].map Prod.fst)[1]? = some 2) ∧
    (variant_get_current_field
      { sample_variant with
        enum_tag := { sample_variant.enum_tag with value := [2] }
        current_field := some 0 }).map (fun r => r.1.name) = some 2 ∧
    (variant_get_current_field
      { sample_variant with
        enum_tag := { sample_variant.enum_tag with value := [2] }
        current_field := some 0 }).map (fun r => r.1) = sample_variant.fields[1]? ∧
    (variant_get_current_field
      { sample_variant with
        enum_tag := { sample_variant.enum_tag with value := [2] }
        current_field := some 0 }).map (fun r => r.2.current_field) = some (some 1) :=
  ⟨⟨by decide, by decide, by decide, by decide⟩,
    (variant_get_current_field_active (sample_env [1, 2] [2]) (fun _ => 0) none
      [(1, int_declaration), (2, int_declaration)] [50] none 5 0 sample_variant 2
      (by decide) (by decide) (by decide) (some 0)).1,
    ((variant_get_current_field_active (sample_env [1, 2] [2]) (fun _ => 0) none
      [(1, int_declaration), (2, int_declaration)] [50] none 5 0 sample_variant 2
      (by decide) (by decide) (by decide) (some 0)).2.1 1 (by decide)).1,
    ((variant_get_current_field_active (sample_env [1, 2] [2]) (fun _ => 0) none
      [(1, int_declaration), (2, int_declaration)] [50] none 5 0 sample_variant 2
      (by decide) (by decide) (by decide) (some 0)).2.1 1 (by decide)).2⟩

/-! ## The copy of a variant -/

/-- C15, as stated, fails. A variant without choices is instantiated against
an enumeration without enumerators whose value holds the one tag 5: the
definition has no child field, `variant_get_current_field` has no element to
point to and `variant_copy` calls the copy of no child. And the variant
`nesting_declaration`, whose only child could not be instantiated, is bound
to an enumeration that holds the one tag 1: the active field has the `NULL`
child definition and `variant_copy` calls the copy of no child. -/
theorem variant_copy_without_child :
    (_variant_definition_new (sample_env [] [5]) empty_declaration none 5 0).isSome ∧
    (_variant_definition_new (sample_env [] [5]) empty_declaration none 5 0).map
      (fun v => (v.enum_tag.value, v.fields)) = some ([5], []) ∧
    (_variant_definition_new (sample_env [] [5]) empty_declaration none 5 0).bind
      (fun v => variant_copy recording_definition_copy 20
        (some (recording_format copy_side.destination)) 10
        (recording_format copy_side.source) v []) = none ∧
    (_variant_definition_new (nested_env [1] [1] unresolved_variant)
      nesting_declaration none 5 0).map (fun v => (v.enum_tag.value, v.fields)) =
      some ([1], [{ name := 1, definition := none }]) ∧
    (_variant_definition_new (nested_env [1] [1] unresolved_variant)
      nesting_declaration none 5 0).bind
      (fun v => variant_copy recording_definition_copy 20
        (some (recording_format copy_side.destination)) 10
        (recording_format copy_side.source) v []) = none := by
  decide

/-- C15, amended: for every variant definition whose enumeration holds
exactly one current tag, and whose fields array has, at the index computed
for that tag, an element that carries a child definition,
`variant_get_current_field` returns that element (the active field), and
`variant_copy` run with recording hooks for a source and a destination
format adds to the record exactly: `variant_begin` on the source,
`variant_begin` on the destination, the copy of the child definition of the
active field, `variant_end` on the source, `variant_end` on the
destination; no other child is copied. -/
theorem variant_copy_calls (variant : definition_variant) (t : GQuark)
    (f : definition_field) (child : definition) (dest src : Nat) (log : List hook_call)
    (hval : variant.enum_tag.value = [t])
    (hfield : variant.fields[variant_tag_index variant t]? = some f)
    (hchild : f.definition = some child) :
    variant_get_current_field variant =
      some (f, { variant with current_field := some (variant_tag_index variant t) }) ∧
    variant_copy recording_definition_copy dest (some (recording_format copy_side.destination))
        src (recording_format copy_side.source) variant log =
      some (log ++ [hook_call.variant_begin copy_side.source src,
          hook_call.variant_begin copy_side.destination dest,
          hook_call.definition_copy child,
          hook_call.variant_end copy_side.source src,
          hook_call.variant_end copy_side.destination dest],
        { variant with current_field := some (variant_tag_index variant t) }) := by
  have hcur : variant_get_current_field variant =
      some (f, { variant with current_field := some (variant_tag_index variant t) }) := by
    unfold variant_get_current_field
    simp only [hval, List.length_singleton, if_true, List.getElem?_cons_zero]
    unfold variant_tag_index at hfield
    rw [hfield]
    rfl
  refine ⟨hcur, ?_⟩
  unfold variant_copy
  simp only
  rw [hcur]
  simp only
  rw [hchild]
  simp [recording_format, recording_definition_copy]

/-- An instance of the amended C15: the sample variant, whose enumeration
holds the tag 2; the child of the second field is the one copied. -/
theorem variant_copy_calls_witness :
    (sample_variant.enum_tag.value = [2] ∧
      sample_variant.fields[variant_tag_index sample_variant 2]? =
        some { name := 2
               definition := some
                 { declaration :=
                     { id := ctf_type_id.CTF_TYPE_INTEGER, alignment := 8, ref := 2 }
                   index := 0, ref := 1 } }) ∧
    variant_copy recording_definition_copy 20 (some (recording_format copy_side.destination))
        10 (recording_format copy_side.source) sample_variant [] =
      some ([] ++ [hook_call.variant_begin copy_side.source 10,
          hook_call.variant_begin copy_side.destination 20,
          hook_call.definition_copy
            { declaration := { id := ctf_type_id.CTF_TYPE_INTEGER, alignment := 8, ref := 2 }
              index := 0, ref := 1 },
          hook_call.variant_end copy_side.source 10,
          hook_call.variant_end copy_side.destination 20],
        { sample_variant with current_field := some (variant_tag_index sample_variant 2) }) :=
  ⟨⟨by decide, by decide⟩,
    (variant_copy_calls sample_variant 2
      { name := 2
        definition := some
          { declaration := { id := ctf_type_id.CTF_TYPE_INTEGER, alignment := 8, ref := 2 }
            index := 0, ref := 1 } }
      { declaration := { id := ctf_type_id.CTF_TYPE_INTEGER, alignment := 8, ref := 2 }
        index := 0, ref := 1 }
      20 10 [] (by decide) (by decide) (by decide)).2⟩

/-! ## The average against the exact mean -/

theorem same_key_first (v : GQuark) (td key : Nat) (c : ctf_clock) (hv : v ≠ 0)
    (hkey : clock_key c = v) (hoff : total_offset c < 18446744073709551616) :
    (trace_collection_add init_trace_collection (single_clock_trace td key c)).ret = 0 ∧
    same_key_state (trace_collection_add init_trace_collection (single_clock_trace td key c)).tc
      v c 0 1 := by
  have hv' : clock_key c ≠ 0 := by rw [hkey]; exact hv
  have hr : trace_collection_add init_trace_collection (single_clock_trace td key c) =
      { ret := 0
        tc := (clock_add key c (⟨[td], [], 0, 0, 0, 0⟩, [])).1
        err := (clock_add key c (⟨[td], [], 0, 0, 0, 0⟩, [])).2 } := by
    simp [trace_collection_add, init_trace_collection, single_clock_trace, g_ptr_array_add,
      g_hash_table_foreach]
  rw [hr]
  obtain ⟨e1, e2, _, e4⟩ := clock_add_new key c (⟨[td], [], 0, 0, 0, 0⟩, []) hv' rfl
  obtain ⟨f1, f2, f3, f4⟩ := e4 rfl
  simp only at e1 e2 f1 f2 f3 f4
  refine ⟨rfl, ?_, ?_, ?_, ?_, ?_, ?_⟩
  · simp only
    rw [e1, hkey]
    rfl
  · simp only
    rw [e2]
    simp
  · simp only
    rw [f1, total_offset_uint64 c hoff]
  · simp only
    rw [f2]
    rfl
  · simp only
    rw [f3]
    decide
  · simp only
    rw [f4, total_offset_uint64 c hoff]
    have : to_int64 0 = 0 := by decide
    rw [this]
    have : to_int32 1 = 1 := by decide
    rw [this]
    simp only [Int.tdiv_one, add_zero]
    exact (to_uint64_of_lt _ hoff).symm

theorem same_key_step (tc : trace_collection) (v : GQuark) (c1 : ctf_clock) (D k : Int)
    (td key : Nat) (c : ctf_clock) (hv : v ≠ 0)
    (hs : same_key_state tc v c1 D k) (hk : 1 ≤ k ∧ k + 1 ≤ 4294967294)
    (hkey : clock_key c = v)
    (hoff : total_offset c < 18446744073709551616) :
    ((trace_collection_add tc (single_clock_trace td key c)).ret = 0 ↔
      correlates v c1 key c) ∧
    ((trace_collection_add tc (single_clock_trace td key c)).ret = 0 →
      same_key_state (trace_collection_add tc (single_clock_trace td key c)).tc
        v c1 (D + ((total_offset c : Int) - (total_offset c1 : Int))) (k + 1)) := by
  obtain ⟨s1, s2, s3, s4, s5, _⟩ := hs
  have hv' : clock_key c ≠ 0 := by rw [hkey]; exact hv
  have hlen : (g_ptr_array_add tc.array td).length > 1 := by
    cases harr : tc.array with
    | nil => exact absurd harr s2
    | cons p rest => simp [g_ptr_array_add]
  have hiff : (trace_collection_add tc (single_clock_trace td key c)).ret = 0 ↔
      correlates v c1 key c := by
    unfold correlates
    unfold trace_collection_add
    simp only [single_clock_trace, g_hash_table_foreach, List.foldl_cons, List.foldl_nil]
    rw [s1]
    cases hm : check_clock_match [(v, c1)] key c none with
    | none =>
      rw [if_pos ⟨hlen, rfl⟩]
      simp [EPERM]
    | some m =>
      rw [if_neg (by simp)]
      simp
  refine ⟨hiff, ?_⟩
  intro hret
  have hr : (trace_collection_add tc (single_clock_trace td key c)).tc =
      (clock_add key c ({ tc with array := tc.array ++ [td] }, [])).1 := by
    unfold trace_collection_add at hret ⊢
    simp only [single_clock_trace, g_hash_table_foreach, List.foldl_cons, List.foldl_nil]
      at hret ⊢
    split
    · rename_i hc
      rw [if_pos hc] at hret
      simp [EPERM] at hret
    · rfl
  rw [hr]
  have hl : g_hash_table_lookup
      (({ tc with array := tc.array ++ [td] }, ([] : List diag)).1).clocks (clock_key c) =
      some c1 := by
    simp only
    rw [hkey, s1]
    simp [g_hash_table_lookup, List.lookup]
  have hnext : to_int32 (tc.offset_nr + 1) = to_int32 (k + 1) := by
    rw [s5, to_int32_to_int32_add]
  obtain ⟨n0, n1⟩ := to_int32_succ_ne k hk.1 hk.2
  have ht : ¬ merge_traps (({ tc with array := tc.array ++ [td] }, ([] : List diag)).1) c := by
    unfold merge_traps
    simp only
    rw [hnext]
    rintro (h0 | ⟨h0, _⟩)
    · exact n0 h0
    · exact n1 h0
  obtain ⟨e1, e2, e3, e4, e5, e6⟩ := clock_add_old key c c1 _ hv' hl ht
  simp only at e1 e2 e3 e4 e5
  rw [hnext] at e5
  have hd : (clock_add key c ({ tc with array := tc.array ++ [td] }, [])).1.delta_offset_first_sum
      = to_int64 (D + ((total_offset c : Int) - (total_offset c1 : Int))) := by
    rw [e4, total_offset_uint64 c hoff, s3, s4, to_int64_add_to_uint64, to_int64_to_int64_add]
  refine ⟨?_, ?_, ?_, hd, ?_, ?_⟩
  · rw [e1]; exact s1
  · rw [e2]; simp
  · rw [e3]; exact s3
  · rw [e5]
  · rw [e6, hd, e5, e3, s3]

theorem same_key_run (v : GQuark) (c1 : ctf_clock) (hv : v ≠ 0)
    (xs : List (Nat × Nat × ctf_clock)) :
    ∀ (tc : trace_collection) (D k : Int), same_key_state tc v c1 D k →
      1 ≤ k → k + xs.length ≤ 4294967294 →
      (∀ y ∈ xs, clock_key y.2.2 = v) →
      (∀ y ∈ xs, total_offset y.2.2 < 18446744073709551616) →
      ((∀ r ∈ tc_rets tc (single_clock_calls xs), r = 0) ↔
        (∀ y ∈ xs, correlates v c1 y.2.1 y.2.2)) ∧
      ((∀ r ∈ tc_rets tc (single_clock_calls xs), r = 0) →
        same_key_state ((single_clock_calls xs).foldl tc_apply tc) v c1
          (D + delta_sum (total_offset c1) xs) (k + xs.length)) := by
  induction xs with
  | nil =>
    intro tc D k hs _ _ _ _
    refine ⟨by simp [single_clock_calls, tc_rets], ?_⟩
    intro _
    simpa [single_clock_calls, delta_sum] using hs
  | cons y rest ih =>
    intro tc D k hs hk1 hk2 hkey hoff
    have hlen : (((y :: rest).length : Nat) : Int) = (rest.length : Int) + 1 := by simp
    rw [hlen] at hk2
    have hk1' : 1 ≤ k + 1 := by omega
    have hk2' : k + 1 + (rest.length : Int) ≤ 4294967294 := by omega
    obtain ⟨hiff, hstep⟩ := same_key_step tc v c1 D k y.1 y.2.1 y.2.2 hv hs ⟨hk1, by omega⟩
      (hkey y (List.mem_cons_self _ _)) (hoff y (List.mem_cons_self _ _))
    have hrets : ∀ r, r ∈ tc_rets tc (single_clock_calls (y :: rest)) ↔
        r = (trace_collection_add tc (single_clock_trace y.1 y.2.1 y.2.2)).ret ∨
        r ∈ tc_rets (trace_collection_add tc (single_clock_trace y.1 y.2.1 y.2.2)).tc
          (single_clock_calls rest) := by
      intro r
      simp [single_clock_calls, tc_rets, tc_apply]
    have e1 : D + delta_sum (total_offset c1) (y :: rest) =
        D + ((total_offset y.2.2 : Int) - (total_offset c1 : Int)) +
          delta_sum (total_offset c1) rest := by
      simp [delta_sum]; ring
    have e2 : k + ((y :: rest).length : Int) = k + 1 + (rest.length : Int) := by
      simp; ring
    have hfold : (single_clock_calls (y :: rest)).foldl tc_apply tc =
        (single_clock_calls rest).foldl tc_apply
          (trace_collection_add tc (single_clock_trace y.1 y.2.1 y.2.2)).tc := by
      simp [single_clock_calls, tc_apply]
    constructor
    · constructor
      · intro hall y' hy'
        have hret := hall _ ((hrets _).2 (Or.inl rfl))
        rcases List.mem_cons.1 hy' with e | e
        · rw [e]; exact hiff.1 hret
        · have hih := ih _ _ _ (hstep hret) hk1' hk2'
            (fun z hz => hkey z (List.mem_cons_of_mem _ hz))
            (fun z hz => hoff z (List.mem_cons_of_mem _ hz))
          exact hih.1.1 (fun r hr => hall r ((hrets r).2 (Or.inr hr))) y' e
      · intro hall r hr
        have hret := hiff.2 (hall y (List.mem_cons_self _ _))
        rcases (hrets r).1 hr with e | e
        · rw [e]; exact hret
        · have hih := ih _ _ _ (hstep hret) hk1' hk2'
            (fun z hz => hkey z (List.mem_cons_of_mem _ hz))
            (fun z hz => hoff z (List.mem_cons_of_mem _ hz))
          exact hih.1.2 (fun z hz => hall z (List.mem_cons_of_mem _ hz)) r e
    · intro hall
      have hret := hall _ ((hrets _).2 (Or.inl rfl))
      have hih := ih _ _ _ (hstep hret) hk1' hk2'
        (fun z hz => hkey z (List.mem_cons_of_mem _ hz))
        (fun z hz => hoff z (List.mem_cons_of_mem _ hz))
      rw [hfold, e1, e2]
      exact hih.2 (fun r hr => hall r ((hrets r).2 (Or.inr hr)))

theorem offset_sum_cons (x : Nat × Nat × ctf_clock) (xs : List (Nat × Nat × ctf_clock)) :
    (offset_sum (x :: xs) : Int) =
      ((x :: xs).length : Int) * (total_offset x.2.2 : Int) +
        delta_sum (total_offset x.2.2) xs := by
  have h : ∀ (o1 : Nat) (l : List (Nat × Nat × ctf_clock)),
      (offset_sum l : Int) = (l.length : Int) * (o1 : Int) + delta_sum o1 l := by
    intro o1 l
    induction l with
    | nil => simp [offset_sum, delta_sum]
    | cons y rest ih =>
      have e1 : (offset_sum (y :: rest) : Int) =
          (total_offset y.2.2 : Int) + (offset_sum rest : Int) := by
        simp [offset_sum]
      have e2 : delta_sum o1 (y :: rest) =
          ((total_offset y.2.2 : Int) - (o1 : Int)) + delta_sum o1 rest := by
        simp [delta_sum]
      have e3 : (((y :: rest).length : Nat) : Int) = (rest.length : Int) + 1 := by simp
      rw [e1, e2, e3, ih]
      ring
  have e1 : (offset_sum (x :: xs) : Int) =
      (total_offset x.2.2 : Int) + (offset_sum xs : Int) := by
    simp [offset_sum]
  have e3 : (((x :: xs).length : Nat) : Int) = (xs.length : Int) + 1 := by simp
  rw [e1, e3, h (total_offset x.2.2) xs]
  ring

theorem delta_sum_perm (o1 : Nat) (xs xs' : List (Nat × Nat × ctf_clock))
    (h : xs.Perm xs') : delta_sum o1 xs = delta_sum o1 xs' := by
  unfold delta_sum
  exact (h.map _).sum_eq

theorem tdiv_close (S n : Int) (hn : 0 < n) :
    -n < n * Int.tdiv S n - S ∧ n * Int.tdiv S n - S < n := by
  by_cases hS : 0 ≤ S
  · rw [Int.tdiv_eq_ediv hS (le_of_lt hn)]
    have h1 := Int.emod_add_ediv S n
    have h2 := Int.emod_nonneg S (ne_of_gt hn)
    have h3 := Int.emod_lt_of_pos S hn
    constructor <;> linarith
  · have hneg : S = -(-S) := by ring
    rw [hneg, Int.neg_tdiv, Int.tdiv_eq_ediv (by omega) (le_of_lt hn)]
    have h1 := Int.emod_add_ediv (-S) n
    have h2 := Int.emod_nonneg (-S) (ne_of_gt hn)
    have h3 := Int.emod_lt_of_pos (-S) hn
    constructor <;> linarith

theorem mean_close (A o1 S n q T : Int) (hn : 0 < n) (hA : A = o1 + q)
    (hT : T = n * o1 + S) (h1 : -n < n * q - S) (h2 : n * q - S < n) :
    abs ((A : ℚ) - (T : ℚ) / (n : ℚ)) < 1 := by
  have hnq : (0 : ℚ) < (n : ℚ) := by exact_mod_cast hn
  have e : (A : ℚ) - (T : ℚ) / (n : ℚ) = ((n * q - S : Int) : ℚ) / (n : ℚ) := by
    rw [hA, hT]
    push_cast
    field_simp
    ring
  rw [e, abs_lt]
  have h1q : (-(n : ℚ)) < ((n * q - S : Int) : ℚ) := by exact_mod_cast h1
  have h2q : ((n * q - S : Int) : ℚ) < (n : ℚ) := by exact_mod_cast h2
  constructor
  · rw [lt_div_iff₀ hnq]; linarith
  · rw [div_lt_iff₀ hnq]; linarith

theorem mean_exact (A o1 S n q T : Int) (hn : 0 < n) (hA : A = o1 + q)
    (hT : T = n * o1 + S) (h : n * q = S) : (A : ℚ) = (T : ℚ) / (n : ℚ) := by
  have hnq : (n : ℚ) ≠ 0 := by exact_mod_cast (ne_of_gt hn)
  rw [hA, hT, ← h]
  push_cast
  field_simp
  ring

/-- The stored average of a collection in `same_key_state`, when nothing
overflows: the first offset plus the truncated quotient of the delta sum. -/
theorem same_key_state_avg (tc : trace_collection) (v : GQuark) (x : Nat × Nat × ctf_clock)
    (xs : List (Nat × Nat × ctf_clock))
    (hs : same_key_state tc v x.2.2 (0 + delta_sum (total_offset x.2.2) xs) (1 + xs.length))
    (hcount : (x :: xs).length < 2147483648)
    (hoff : ∀ y ∈ x :: xs, total_offset y.2.2 < 18446744073709551616)
    (hlo : -9223372036854775808 ≤ delta_sum (total_offset x.2.2) xs)
    (hhi : delta_sum (total_offset x.2.2) xs < 9223372036854775808) :
    (tc.single_clock_offset_avg : Int) =
      (total_offset x.2.2 : Int) +
        Int.tdiv (delta_sum (total_offset x.2.2) xs) ((x :: xs).length : Int) := by
  obtain ⟨_, _, _, _, _, s6⟩ := hs
  have hx := hoff x (List.mem_cons_self _ _)
  have hD : to_int64 (0 + delta_sum (total_offset x.2.2) xs) =
      delta_sum (total_offset x.2.2) xs := by
    rw [zero_add]
    exact to_int64_of_range _ hlo hhi
  have hn : (1 : Int) + (xs.length : Int) = ((x :: xs).length : Int) := by
    simp; ring
  have hn32 : to_int32 ((1 : Int) + (xs.length : Int)) = ((x :: xs).length : Int) := by
    rw [hn]
    exact to_int32_of_range _ (by omega) (by omega)
  obtain ⟨b1, b2⟩ := delta_sum_bounds (total_offset x.2.2) xs
    (fun z hz => hoff z (List.mem_cons_of_mem _ hz))
  have hpos : (0 : Int) < ((x :: xs).length : Int) := by omega
  obtain ⟨t1, t2⟩ := tdiv_bounds (delta_sum (total_offset x.2.2) xs) ((x :: xs).length : Int)
    (total_offset x.2.2 : Int) (18446744073709551615 - (total_offset x.2.2 : Int)) hpos
    (by omega) (by omega)
    (by
      have : (total_offset x.2.2 : Int) * ((x :: xs).length : Int) =
          (total_offset x.2.2 : Int) * xs.length + (total_offset x.2.2 : Int) := by
        rw [← hn]; ring
      rw [this]; omega)
    (by
      have : (18446744073709551615 - (total_offset x.2.2 : Int)) * ((x :: xs).length : Int) =
          (18446744073709551615 - (total_offset x.2.2 : Int)) * xs.length +
            (18446744073709551615 - (total_offset x.2.2 : Int)) := by
        rw [← hn]; ring
      rw [this]; omega)
  rw [s6, hD, hn32]
  exact to_uint64_of_range _ (by omega) (by omega)

theorem same_key_final (v : GQuark) (x : Nat × Nat × ctf_clock)
    (xs : List (Nat × Nat × ctf_clock)) (hv : v ≠ 0)
    (hcount : (x :: xs).length ≤ 4294967294)
    (hkey : ∀ y ∈ x :: xs, clock_key y.2.2 = v)
    (hoff : ∀ y ∈ x :: xs, total_offset y.2.2 < 18446744073709551616) :
    ((∀ r ∈ tc_rets init_trace_collection (single_clock_calls (x :: xs)), r = 0) ↔
      (∀ y ∈ xs, correlates v x.2.2 y.2.1 y.2.2)) ∧
    ((∀ r ∈ tc_rets init_trace_collection (single_clock_calls (x :: xs)), r = 0) →
      same_key_state (tc_run (single_clock_calls (x :: xs))) v x.2.2
        (0 + delta_sum (total_offset x.2.2) xs) (1 + xs.length)) := by
  obtain ⟨hret0, hs0⟩ := same_key_first v x.1 x.2.1 x.2.2 hv
    (hkey x (List.mem_cons_self _ _)) (hoff x (List.mem_cons_self _ _))
  have hlen : (x :: xs).length = xs.length + 1 := List.length_cons x xs
  obtain ⟨hiff, hstate⟩ := same_key_run v x.2.2 hv xs _ 0 1 hs0 (by decide) (by omega)
    (fun z hz => hkey z (List.mem_cons_of_mem _ hz))
    (fun z hz => hoff z (List.mem_cons_of_mem _ hz))
  have hrun : tc_run (single_clock_calls (x :: xs)) =
      (single_clock_calls xs).foldl tc_apply
        (trace_collection_add init_trace_collection (single_clock_trace x.1 x.2.1 x.2.2)).tc := by
    simp [tc_run, single_clock_calls, tc_apply]
  have hrets : ∀ r, r ∈ tc_rets init_trace_collection (single_clock_calls (x :: xs)) ↔
      r = (trace_collection_add init_trace_collection
        (single_clock_trace x.1 x.2.1 x.2.2)).ret ∨
      r ∈ tc_rets (trace_collection_add init_trace_collection
        (single_clock_trace x.1 x.2.1 x.2.2)).tc (single_clock_calls xs) := by
    intro r
    simp [single_clock_calls, tc_rets, tc_apply]
  have hall : (∀ r ∈ tc_rets init_trace_collection (single_clock_calls (x :: xs)), r = 0) ↔
      (∀ r ∈ tc_rets (trace_collection_add init_trace_collection
        (single_clock_trace x.1 x.2.1 x.2.2)).tc (single_clock_calls xs), r = 0) := by
    constructor
    · intro h r hr
      exact h r ((hrets r).2 (Or.inr hr))
    · intro h r hr
      rcases (hrets r).1 hr with e | e
      · rw [e]; exact hret0
      · exact h r e
  refine ⟨hall.trans hiff, ?_⟩
  intro h
  rw [hrun]
  exact hstate (hall.1 h)

/-- C21: `n` traces that each carry one clock of the same identity (the same
non-zero registry key) are added to a fresh collection and every add
succeeds. Assuming exact integer arithmetic (`n` is below `2^31`, the range of
the `int` counter, every total offset is below `2^64` and the exact sum of
the differences `o_i - o_1` lies in the `int64_t` range),
`single_clock_offset_avg` differs from the exact rational mean of the total
offsets by strictly less than 1, it equals the mean whenever `n` divides the
sum of the differences, and for every reordering of the traces after the
first the adds succeed again and the average is the same. -/
theorem single_clock_offset_avg_near_mean (v : GQuark) (x : Nat × Nat × ctf_clock)
    (xs : List (Nat × Nat × ctf_clock)) (hv : v ≠ 0)
    (hcount : (x :: xs).length < 2147483648)
    (hkey : ∀ y ∈ x :: xs, clock_key y.2.2 = v)
    (hadd : ∀ r ∈ tc_rets init_trace_collection (single_clock_calls (x :: xs)), r = 0)
    (hoff : ∀ y ∈ x :: xs, total_offset y.2.2 < 18446744073709551616)
    (hlo : -9223372036854775808 ≤ delta_sum (total_offset x.2.2) xs)
    (hhi : delta_sum (total_offset x.2.2) xs < 9223372036854775808) :
    abs (((tc_run (single_clock_calls (x :: xs))).single_clock_offset_avg : ℚ) -
      exact_mean (x :: xs)) < 1 ∧
    ((((x :: xs).length : Nat) : Int) ∣ delta_sum (total_offset x.2.2) xs →
      ((tc_run (single_clock_calls (x :: xs))).single_clock_offset_avg : ℚ) =
        exact_mean (x :: xs)) ∧
    (∀ xs' : List (Nat × Nat × ctf_clock), xs.Perm xs' →
      (∀ r ∈ tc_rets init_trace_collection (single_clock_calls (x :: xs')), r = 0) ∧
      (tc_run (single_clock_calls (x :: xs'))).single_clock_offset_avg =
        (tc_run (single_clock_calls (x :: xs))).single_clock_offset_avg) := by
  obtain ⟨hiff, hstate⟩ := same_key_final v x xs hv (by omega) hkey hoff
  have havg := same_key_state_avg _ v x xs (hstate hadd) hcount hoff hlo hhi
  have hpos : (0 : Int) < (((x :: xs).length : Nat) : Int) := by
    simp only [List.length_cons]
    omega
  have hsum := offset_sum_cons x xs
  have hmean : exact_mean (x :: xs) =
      ((offset_sum (x :: xs) : Int) : ℚ) / ((((x :: xs).length : Nat) : Int) : ℚ) := by
    unfold exact_mean
    push_cast
    rfl
  have hcast : ((tc_run (single_clock_calls (x :: xs))).single_clock_offset_avg : ℚ) =
      (((tc_run (single_clock_calls (x :: xs))).single_clock_offset_avg : Int) : ℚ) := by
    push_cast
    rfl
  obtain ⟨c1, c2⟩ := tdiv_close (delta_sum (total_offset x.2.2) xs)
    (((x :: xs).length : Nat) : Int) hpos
  refine ⟨?_, ?_, ?_⟩
  · rw [hmean, hcast]
    exact mean_close _ _ _ _ _ _ hpos havg hsum c1 c2
  · intro hdvd
    rw [hmean, hcast]
    exact mean_exact _ _ _ _ _ _ hpos havg hsum (Int.mul_tdiv_cancel' hdvd)
  · intro xs' hperm
    have hkey' : ∀ y ∈ x :: xs', clock_key y.2.2 = v := by
      intro y hy
      rcases List.mem_cons.1 hy with e | e
      · exact hkey y (by rw [e]; exact List.mem_cons_self _ _)
      · exact hkey y (List.mem_cons_of_mem _ (hperm.mem_iff.2 e))
    have hoff' : ∀ y ∈ x :: xs', total_offset y.2.2 < 18446744073709551616 := by
      intro y hy
      rcases List.mem_cons.1 hy with e | e
      · exact hoff y (by rw [e]; exact List.mem_cons_self _ _)
      · exact hoff y (List.mem_cons_of_mem _ (hperm.mem_iff.2 e))
    have hcount' : (x :: xs').length < 2147483648 := by
      simp only [List.length_cons, ← hperm.length_eq]
      simpa using hcount
    obtain ⟨hiff', hstate'⟩ := same_key_final v x xs' hv (by omega) hkey' hoff'
    have hadd' : ∀ r ∈ tc_rets init_trace_collection (single_clock_calls (x :: xs')),
        r = 0 :=
      hiff'.2 (fun y hy => hiff.1 hadd y (hperm.mem_iff.2 hy))
    have hds := delta_sum_perm (total_offset x.2.2) xs xs' hperm
    have havg' := same_key_state_avg _ v x xs' (hstate' hadd') hcount' hoff'
      (by rw [← hds]; exact hlo) (by rw [← hds]; exact hhi)
    refine ⟨hadd', ?_⟩
    have hlen : ((x :: xs').length : Int) = ((x :: xs).length : Int) := by
      simp [hperm.length_eq]
    rw [← hds, hlen, ← havg] at havg'
    exact_mod_cast havg'

/-- An instance of C21: three traces with total offsets 0, 500 and 1001 ns;
the average is 500 and the mean 1501/3, and adding the last two traces in
the other order gives the same average. -/
theorem single_clock_offset_avg_near_mean_witness :
    ((1 : GQuark) ≠ 0 ∧
      [((100 : Nat), (7 : Nat), (⟨7, 1, false, 0, 0⟩ : ctf_clock)),
          (101, 7, ⟨7, 1, false, 0, 500⟩), (102, 7, ⟨7, 1, false, 0, 1001⟩)].length
        < 2147483648 ∧
      (∀ y ∈ [((100 : Nat), (7 : Nat), (⟨7, 1, false, 0, 0⟩ : ctf_clock)),
          (101, 7, ⟨7, 1, false, 0, 500⟩), (102, 7, ⟨7, 1, false, 0, 1001⟩)],
        clock_key y.2.2 = 1) ∧
      (∀ r ∈ tc_rets init_trace_collection (single_clock_calls
          [(100, 7, ⟨7, 1, false, 0, 0⟩), (101, 7, ⟨7, 1, false, 0, 500⟩),
            (102, 7, ⟨7, 1, false, 0, 1001⟩)]), r = 0) ∧
      (∀ y ∈ [((100 : Nat), (7 : Nat), (⟨7, 1, false, 0, 0⟩ : ctf_clock)),
          (101, 7, ⟨7, 1, false, 0, 500⟩), (102, 7, ⟨7, 1, false, 0, 1001⟩)],
        total_offset y.2.2 < 18446744073709551616) ∧
      delta_sum (total_offset ⟨7, 1, false, 0, 0⟩)
        [(101, 7, ⟨7, 1, false, 0, 500⟩), (102, 7, ⟨7, 1, false, 0, 1001⟩)] = 1501 ∧
      (tc_run (single_clock_calls
        [(100, 7, ⟨7, 1, false, 0, 0⟩), (101, 7, ⟨7, 1, false, 0, 500⟩),
          (102, 7, ⟨7, 1, false, 0, 1001⟩)])).single_clock_offset_avg = 500) ∧
    abs (((tc_run (single_clock_calls
        [(100, 7, ⟨7, 1, false, 0, 0⟩), (101, 7, ⟨7, 1, false, 0, 500⟩),
          (102, 7, ⟨7, 1, false, 0, 1001⟩)])).single_clock_offset_avg : ℚ) -
      exact_mean [(100, 7, ⟨7, 1, false, 0, 0⟩), (101, 7, ⟨7, 1, false, 0, 500⟩),
        (102, 7, ⟨7, 1, false, 0, 1001⟩)]) < 1 ∧
    (tc_run (single_clock_calls
        [(100, 7, ⟨7, 1, false, 0, 0⟩), (102, 7, ⟨7, 1, false, 0, 1001⟩),
          (101, 7, ⟨7, 1, false, 0, 500⟩)])).single_clock_offset_avg =
      (tc_run (single_clock_calls
        [(100, 7, ⟨7, 1, false, 0, 0⟩), (101, 7, ⟨7, 1, false, 0, 500⟩),
          (102, 7, ⟨7, 1, false, 0, 1001⟩)])).single_clock_offset_avg :=
  ⟨⟨by decide, by decide, by decide, by decide, by decide, by decide, by decide⟩,
    (single_clock_offset_avg_near_mean 1 (100, 7, ⟨7, 1, false, 0, 0⟩)
      [(101, 7, ⟨7, 1, false, 0, 500⟩), (102, 7, ⟨7, 1, false, 0, 1001⟩)]
      (by decide) (by decide) (by decide) (by decide) (by decide) (by decide) (by decide)).1,
    ((single_clock_offset_avg_near_mean 1 (100, 7, ⟨7, 1, false, 0, 0⟩)
      [(101, 7, ⟨7, 1, false, 0, 500⟩), (102, 7, ⟨7, 1, false, 0, 1001⟩)]
      (by decide) (by decide) (by decide) (by decide) (by decide) (by decide) (by decide)).2.2
      [(102, 7, ⟨7, 1, false, 0, 1001⟩), (101, 7, ⟨7, 1, false, 0, 500⟩)]
      (List.Perm.swap _ _ _)).2⟩

/-! ## Variant types: a tag without entry in the tag map -/

/-- C22, as stated, fails: the two choices of `repeated_declaration` share the
name 1 and the enumeration has the tags 1 and 2, so the instantiation
succeeds. With the current tag 2, which has no entry in the tag map,
`variant_get_current_field` returns the field at index 0 (the integer
child); with the current tag 1, the name of the first declared choice, the
tag map holds the position of the last add of that name and the field at
index 1 (the floating point child) is returned. -/
theorem variant_get_current_field_repeated_name :
    (_variant_definition_new (sample_env [1, 2] [2]) repeated_declaration none 5 0).isSome ∧
    (_variant_definition_new (sample_env [1, 2] [2]) repeated_declaration none 5 0).map
      (fun v => (v.enum_tag.value,
        g_hash_table_lookup v.declaration.untagged_variant.fields_by_tag 2)) =
      some ([2], none) ∧
    ((_variant_definition_new (sample_env [1, 2] [2]) repeated_declaration none 5 0).bind
      variant_get_current_field).map (fun r => (r.1, r.2.current_field)) =
      some ({ name := 1
              definition := some
                { declaration := { id := ctf_type_id.CTF_TYPE_INTEGER, alignment := 8, ref := 2 }
                  index := 0, ref := 1 } }, some 0) ∧
    (_variant_definition_new (sample_env [1, 2] [1]) repeated_declaration none 5 0).map
      (fun v => (v.enum_tag.value, v.declaration.untagged_variant.fields.map
        (fun c => c.name))) = some ([1], [1, 1]) ∧
    ((_variant_definition_new (sample_env [1, 2] [1]) repeated_declaration none 5 0).bind
      variant_get_current_field).map (fun r => (r.1, r.2.current_field)) =
      some ({ name := 1
              definition := some
                { declaration := { id := ctf_type_id.CTF_TYPE_FLOAT, alignment := 32, ref := 2 }
                  index := 0, ref := 1 } }, some 1) ∧
    ((_variant_definition_new (sample_env [1, 2] [2]) repeated_declaration none 5 0).bind
      variant_get_current_field).map (fun r => (r.1, r.2.current_field)) ≠
    ((_variant_definition_new (sample_env [1, 2] [1]) repeated_declaration none 5 0).bind
      variant_get_current_field).map (fun r => (r.1, r.2.current_field)) := by
  decide

/-- C22, amended: a variant declaration with at least one choice is built by
`untagged_variant_declaration_new`, `untagged_variant_declaration_add_field`
calls and `variant_declaration_new`, and `_variant_definition_new` returns a
definition for it. When the single current tag `t` of the bound enumeration
has no entry in the tag map, `variant_get_current_field` does not fail: it
returns the child field at index 0, the one of the first declared choice,
and caches index 0, whatever was cached before. If the name of the first
declared choice is not declared again by a later choice, this is exactly
what is returned when the current tag is that name. -/
theorem variant_get_current_field_unknown_tag (env : variant_env)
    (new_declaration_scope : Option Nat → Nat) (declaration_scope : Option Nat)
    (a0 : GQuark × declaration) (rest : List (GQuark × declaration))
    (tag_path : List GQuark) (parent_scope : Option definition_scope) (field_name : GQuark)
    (index : Int) (variant : definition_variant) (t : GQuark) (cached : Option Nat)
    (hnew : _variant_definition_new env
      (variant_declaration_new
        (untagged_add_fields
          (untagged_variant_declaration_new new_declaration_scope declaration_scope)
          (a0 :: rest))
        tag_path) parent_scope field_name index = some variant)
    (hun : g_hash_table_lookup variant.declaration.untagged_variant.fields_by_tag t = none) :
    variant.fields[0]? =
      some ({ name := a0.1
              definition := env.definition_new (declaration_ref a0.2) variant.scope a0.1 0 } :
        definition_field) ∧
    (variant_get_current_field
      { variant with
        enum_tag := { variant.enum_tag with value := [t] }
        current_field := cached }).map (fun r => (r.1, r.2.current_field)) =
      some (({ name := a0.1
               definition := env.definition_new (declaration_ref a0.2) variant.scope a0.1 0 } :
        definition_field), some 0) ∧
    (a0.1 ∉ rest.map Prod.fst →
      (variant_get_current_field
        { variant with
          enum_tag := { variant.enum_tag with value := [a0.1] }
          current_field := cached }).map (fun r => (r.1, r.2.current_field)) =
      (variant_get_current_field
        { variant with
          enum_tag := { variant.enum_tag with value := [t] }
          current_field := cached }).map (fun r => (r.1, r.2.current_field))) := by
  obtain ⟨enum_tag, _, _, hv⟩ := variant_definition_new_some env _ parent_scope field_name
    index variant hnew
  have hfields : (variant_declaration_new
      (untagged_add_fields
        (untagged_variant_declaration_new new_declaration_scope declaration_scope)
        (a0 :: rest))
      tag_path).untagged_variant.fields =
      (a0 :: rest).map (fun a => { name := a.1, declaration := declaration_ref a.2 }) := by
    simp only [variant_declaration_new]
    rw [untagged_add_fields_fields]
    rfl
  have hscope : variant.scope = env.new_definition_scope parent_scope field_name := by
    rw [hv]
  have hf0 : variant.fields[0]? =
      some ({ name := a0.1
              definition := env.definition_new (declaration_ref a0.2) variant.scope a0.1 0 } :
        definition_field) := by
    rw [hscope, hv]
    simp only
    rw [hfields]
    simp
  have hmap : variant.declaration.untagged_variant.fields_by_tag =
      (untagged_add_fields
        (untagged_variant_declaration_new new_declaration_scope declaration_scope)
        (a0 :: rest)).fields_by_tag := by
    rw [hv]
    rfl
  have hcur : (variant_get_current_field
      { variant with
        enum_tag := { variant.enum_tag with value := [t] }
        current_field := cached }).map (fun r => (r.1, r.2.current_field)) =
      some (({ name := a0.1
               definition := env.definition_new (declaration_ref a0.2) variant.scope a0.1 0 } :
        definition_field), some 0) := by
    unfold variant_get_current_field
    simp only [List.length_singleton, if_true, List.getElem?_cons_zero]
    rw [hun]
    simp only
    rw [hf0]
    rfl
  refine ⟨hf0, hcur, ?_⟩
  intro hfirst
  rw [hcur]
  obtain ⟨i, hi⟩ := untagged_lookup_present
    (untagged_variant_declaration_new new_declaration_scope declaration_scope) rfl
    (a0 :: rest) a0.1 (by simp)
  obtain ⟨a, hai, han⟩ := untagged_lookup_valid
    (untagged_variant_declaration_new new_declaration_scope declaration_scope) rfl rfl
    (a0 :: rest) a0.1 i hi
  have hi0 : i = 0 := by
    cases i with
    | zero => rfl
    | succ j =>
      exfalso
      simp only [List.getElem?_cons_succ] at hai
      apply hfirst
      have hmem : a ∈ rest := List.getElem?_mem hai
      exact List.mem_map.2 ⟨a, hmem, han⟩
  subst hi0
  unfold variant_get_current_field
  simp only [List.length_singleton, if_true, List.getElem?_cons_zero]
  rw [hmap, hi]
  simp only
  rw [hf0]
  rfl

/-- An instance of the amended C22: the choices have the names 3, 1 and 1 and
the enumeration the tags 3, 1 and 2; the current tag 2 has no entry in the
tag map and the field at index 0 is returned, as it is for the current
tag 3, the name of the first choice. -/
theorem variant_get_current_field_unknown_tag_witness :
    (_variant_definition_new (sample_env [3, 1, 2] [2])
        (variant_declaration_new
          (untagged_add_fields (untagged_variant_declaration_new (fun _ => 0) none)
            (((3 : GQuark), int_declaration) ::
              [(1, float_declaration), (1, int_declaration)])) [50]) none 5 0 =
        some later_repeated_variant ∧
      g_hash_table_lookup
        later_repeated_variant.declaration.untagged_variant.fields_by_tag 2 = none ∧
      (3 : GQuark) ∉ [((1 : GQuark), float_declaration), (1, int_declaration)].map Prod.fst) ∧
    (variant_get_current_field
      { later_repeated_variant with
        enum_tag := { later_repeated_variant.enum_tag with value := [2] }
        current_field := some 2 }).map (fun r => (r.1, r.2.current_field)) =
      some (({ name := ((3 : GQuark), int_declaration).1
               definition := (sample_env [3, 1, 2] [2]).definition_new
                 (declaration_ref ((3 : GQuark), int_declaration).2)
                 later_repeated_variant.scope ((3 : GQuark), int_declaration).1 0 } :
        definition_field), some 0) ∧
    (variant_get_current_field
      { later_repeated_variant with
        enum_tag := { later_repeated_variant.enum_tag with value := [3] }
        current_field := some 2 }).map (fun r => (r.1, r.2.current_field)) =
      (variant_get_current_field
        { later_repeated_variant with
          enum_tag := { later_repeated_variant.enum_tag with value := [2] }
          current_field := some 2 }).map (fun r => (r.1, r.2.current_field)) :=
  ⟨⟨by decide, by decide, by decide⟩,
    (variant_get_current_field_unknown_tag (sample_env [3, 1, 2] [2]) (fun _ => 0) none
      (3, int_declaration) [(1, float_declaration), (1, int_declaration)] [50] none 5 0
      later_repeated_variant 2 (some 2) (by decide) (by decide)).2.1,
    (variant_get_current_field_unknown_tag (sample_env [3, 1, 2] [2]) (fun _ => 0) none
      (3, int_declaration) [(1, float_declaration), (1, int_declaration)] [50] none 5 0
      later_repeated_variant 2 (some 2) (by decide) (by decide)).2.2 (by decide)⟩

end Babeltrace
